import Mathlib

/-!
Verification of the mapping / optimization-vector core of the bioptim fork
(`src/bioptim/misc/mapping.py` and `src/bioptim/optimization/optimization_vector.py`).

The Python code is shallowly embedded: numeric/symbolic matrix entries become
`Int`, casadi symbols become an inductive tag recording their allocation site,
Python `None` becomes `Option`, Python exceptions become `Except`/error sums.
Indices are assumed in range where the source would raise `IndexError`
(`getD` is used at those spots); no claim exercises an out-of-range access.
-/

namespace Bioptim

/-! ## Mapping (src/bioptim/misc/mapping.py, class Mapping) -/

/-- Embedding of the `Mapping` data: `map_idx` entries of `none` model Python
`None` ("force a zero row"); `oppose` holds the ±1 factors built by the
constructor. -/
structure Mapping where
  map_idx : List (Option Nat)
  oppose : List Int
deriving DecidableEq, Repr

/-- `Mapping.__init__`: `oppose` starts as `[1] * len(map_idx)` and each index
listed in the `oppose` argument is set to `-1`. -/
def Mapping.make (map_idx : List (Option Nat)) (opposeArg : Option (List Nat) := none) :
    Mapping :=
  { map_idx := map_idx
    oppose :=
      match opposeArg with
      | none => List.replicate map_idx.length 1
      | some l => l.foldl (fun acc i => acc.set i (-1)) (List.replicate map_idx.length 1) }

/-- A zero-filled matrix (`np.zeros((r, c))` / `MX.zeros(r, c)`). -/
def zerosMat (r c : Nat) : List (List Int) :=
  List.replicate r (List.replicate c 0)

/-- One batched fancy-index assignment `dst[new_rows, :] = sign * src[origin_rows, :]`:
the pair list holds `(origin, new)` row indices. -/
def assignRows (dst : List (List Int)) (pairs : List (Nat × Nat))
    (src : List (List Int)) (sign : Int) : List (List Int) :=
  pairs.foldl (fun acc p => acc.set p.2 ((src.getD p.1 []).map (fun z => sign * z))) dst

/-- The `(origin, new)` pairs collected by `Mapping.map`'s enumerate loop for the
rows with a non-`None` index and positive `oppose`. -/
def Mapping.plusPairs (m : Mapping) : List (Nat × Nat) :=
  (List.range m.map_idx.length).filterMap fun i =>
    if 0 < m.oppose.getD i 0 then (m.map_idx.getD i none).map (fun v => (v, i)) else none

/-- The `(origin, new)` pairs for the rows with a non-`None` index and negative
`oppose`. -/
def Mapping.minusPairs (m : Mapping) : List (Nat × Nat) :=
  (List.range m.map_idx.length).filterMap fun i =>
    if m.oppose.getD i 0 < 0 then (m.map_idx.getD i none).map (fun v => (v, i)) else none

/-- Core of `Mapping.map` on an already-2-D matrix: declare a zero-filled object
of `len(map_idx)` rows (columns preserved), then perform the two batched
assignments for the positive and negative rows. -/
def Mapping.mapRows (m : Mapping) (obj : List (List Int)) : List (List Int) :=
  let ncols := (obj.headD []).length
  let z := zerosMat m.map_idx.length ncols
  assignRows (assignRows z m.plusPairs obj 1) m.minusPairs obj (-1)

/-- The run-time kinds `Mapping.map` dispatches on: tuples/lists and 1-D arrays
(reshaped by `obj[:, np.newaxis]`), 2-D `np.ndarray`, casadi `MX`/`SX`/`DM`,
and anything else (which raises). -/
inductive MapObj where
  | pySeq (v : List Int)
  | ndarray1 (v : List Int)
  | ndarray2 (mtx : List (List Int))
  | casadi (mtx : List (List Int))
  | unsupported
deriving DecidableEq, Repr

/-- `Mapping.map`: rows are mapped, columns preserved; unsupported input kinds
raise `RuntimeError`. -/
def Mapping.map (m : Mapping) (obj : MapObj) : Except String (List (List Int)) :=
  match obj with
  | .pySeq v => .ok (m.mapRows (v.map fun z => [z]))
  | .ndarray1 v => .ok (m.mapRows (v.map fun z => [z]))
  | .ndarray2 mtx => .ok (m.mapRows mtx)
  | .casadi mtx => .ok (m.mapRows mtx)
  | .unsupported => .error "map must be applied on np.ndarray, MX or SX"

/-! Helper lemmas about the batched assignments. -/

lemma assignRows_length (dst : List (List Int)) (pairs : List (Nat × Nat))
    (src : List (List Int)) (sign : Int) :
    (assignRows dst pairs src sign).length = dst.length := by
  induction pairs generalizing dst with
  | nil => rfl
  | cons p rest ih => simpa [assignRows] using ih (dst.set p.2 _)

lemma assignRows_get_not_mem (dst : List (List Int)) (pairs : List (Nat × Nat))
    (src : List (List Int)) (sign : Int) (i : Nat)
    (h : i ∉ pairs.map Prod.snd) :
    (assignRows dst pairs src sign)[i]? = dst[i]? := by
  induction pairs generalizing dst with
  | nil => rfl
  | cons p rest ih =>
    simp only [List.map_cons, List.mem_cons] at h
    push_neg at h
    have := ih (dst.set p.2 ((src.getD p.1 []).map (fun z => sign * z))) h.2
    rw [assignRows] at this ⊢
    simp only [List.foldl_cons] at this ⊢
    rw [this, List.getElem?_set_ne (fun hh => h.1 hh.symm)]

lemma assignRows_get_mem (dst : List (List Int)) (pairs : List (Nat × Nat))
    (src : List (List Int)) (sign : Int) (v i : Nat)
    (hmem : (v, i) ∈ pairs) (hnd : (pairs.map Prod.snd).Nodup) (hlen : i < dst.length) :
    (assignRows dst pairs src sign)[i]? =
      some ((src.getD v []).map (fun z => sign * z)) := by
  induction pairs generalizing dst with
  | nil => cases hmem
  | cons p rest ih =>
    simp only [List.map_cons, List.nodup_cons] at hnd
    rcases List.mem_cons.mp hmem with h | h
    · subst h
      have hnot : i ∉ rest.map Prod.snd := hnd.1
      rw [assignRows, List.foldl_cons, ← assignRows]
      rw [assignRows_get_not_mem _ _ _ _ _ hnot]
      exact List.getElem?_set_eq_of_lt _ hlen
    · have hi : i ∈ rest.map Prod.snd := List.mem_map.mpr ⟨(v, i), h, rfl⟩
      have hne : p.2 ≠ i := fun he => hnd.1 (he ▸ hi)
      rw [assignRows, List.foldl_cons, ← assignRows]
      exact ih _ h hnd.2 (by simpa using hlen)

lemma plusPairs_mem (m : Mapping) (v i : Nat) :
    (v, i) ∈ m.plusPairs ↔
      i < m.map_idx.length ∧ m.map_idx.getD i none = some v ∧ 0 < m.oppose.getD i 0 := by
  unfold Mapping.plusPairs
  rw [List.mem_filterMap]
  constructor
  · rintro ⟨j, hj, hf⟩
    rw [ite_eq_iff] at hf
    rcases hf with ⟨hop, hf⟩ | ⟨_, hf⟩
    · rcases Option.map_eq_some'.mp hf with ⟨w, hw, he⟩
      rcases Prod.mk.injEq .. ▸ he with ⟨rfl, rfl⟩
      exact ⟨List.mem_range.mp hj, hw, hop⟩
    · cases hf
  · rintro ⟨h1, h2, h3⟩
    exact ⟨i, List.mem_range.mpr h1, by rw [if_pos h3, h2]; rfl⟩

lemma minusPairs_mem (m : Mapping) (v i : Nat) :
    (v, i) ∈ m.minusPairs ↔
      i < m.map_idx.length ∧ m.map_idx.getD i none = some v ∧ m.oppose.getD i 0 < 0 := by
  unfold Mapping.minusPairs
  rw [List.mem_filterMap]
  constructor
  · rintro ⟨j, hj, hf⟩
    rw [ite_eq_iff] at hf
    rcases hf with ⟨hop, hf⟩ | ⟨_, hf⟩
    · rcases Option.map_eq_some'.mp hf with ⟨w, hw, he⟩
      rcases Prod.mk.injEq .. ▸ he with ⟨rfl, rfl⟩
      exact ⟨List.mem_range.mp hj, hw, hop⟩
    · cases hf
  · rintro ⟨h1, h2, h3⟩
    exact ⟨i, List.mem_range.mpr h1, by rw [if_pos h3, h2]; rfl⟩

lemma plusPairs_snd_nodup (m : Mapping) : (m.plusPairs.map Prod.snd).Nodup := by
  unfold Mapping.plusPairs
  rw [List.map_filterMap]
  apply List.Nodup.filterMap _ (List.nodup_range _)
  intro a b c hac hbc
  simp only [Option.mem_def] at hac hbc
  by_cases ha : 0 < m.oppose.getD a 0
  · rw [if_pos ha, Option.map_map] at hac
    rcases Option.map_eq_some'.mp hac with ⟨w, -, he⟩
    by_cases hb : 0 < m.oppose.getD b 0
    · rw [if_pos hb, Option.map_map] at hbc
      rcases Option.map_eq_some'.mp hbc with ⟨w', -, he'⟩
      simp only [Function.comp_apply] at he he'
      omega
    · rw [if_neg hb] at hbc; cases hbc
  · rw [if_neg ha] at hac; cases hac

lemma minusPairs_snd_nodup (m : Mapping) : (m.minusPairs.map Prod.snd).Nodup := by
  unfold Mapping.minusPairs
  rw [List.map_filterMap]
  apply List.Nodup.filterMap _ (List.nodup_range _)
  intro a b c hac hbc
  simp only [Option.mem_def] at hac hbc
  by_cases ha : m.oppose.getD a 0 < 0
  · rw [if_pos ha, Option.map_map] at hac
    rcases Option.map_eq_some'.mp hac with ⟨w, -, he⟩
    by_cases hb : m.oppose.getD b 0 < 0
    · rw [if_pos hb, Option.map_map] at hbc
      rcases Option.map_eq_some'.mp hbc with ⟨w', -, he'⟩
      simp only [Function.comp_apply] at he he'
      omega
    · rw [if_neg hb] at hbc; cases hbc
  · rw [if_neg ha] at hac; cases hac

lemma plusPairs_snd_not_mem (m : Mapping) (i : Nat)
    (h : ∀ v, (v, i) ∉ m.plusPairs) : i ∉ m.plusPairs.map Prod.snd := by
  intro hmem
  rcases List.mem_map.mp hmem with ⟨⟨v, j⟩, hp, he⟩
  cases he
  exact h v hp

lemma minusPairs_snd_not_mem (m : Mapping) (i : Nat)
    (h : ∀ v, (v, i) ∉ m.minusPairs) : i ∉ m.minusPairs.map Prod.snd := by
  intro hmem
  rcases List.mem_map.mp hmem with ⟨⟨v, j⟩, hp, he⟩
  cases he
  exact h v hp

lemma mapRows_length (m : Mapping) (obj : List (List Int)) :
    (m.mapRows obj).length = m.map_idx.length := by
  unfold Mapping.mapRows
  rw [assignRows_length, assignRows_length]
  simp [zerosMat]

lemma mapRows_row_none (m : Mapping) (obj : List (List Int)) (i : Nat)
    (hi : i < m.map_idx.length) (hnone : m.map_idx.getD i none = none) :
    (m.mapRows obj)[i]? = some (List.replicate (obj.headD []).length 0) := by
  unfold Mapping.mapRows
  have hplus : i ∉ m.plusPairs.map Prod.snd := by
    apply plusPairs_snd_not_mem
    intro v hv
    rw [plusPairs_mem] at hv
    rw [hnone] at hv
    exact Option.noConfusion hv.2.1
  have hminus : i ∉ m.minusPairs.map Prod.snd := by
    apply minusPairs_snd_not_mem
    intro v hv
    rw [minusPairs_mem] at hv
    rw [hnone] at hv
    exact Option.noConfusion hv.2.1
  rw [assignRows_get_not_mem _ _ _ _ _ hminus, assignRows_get_not_mem _ _ _ _ _ hplus]
  simp [zerosMat, List.getElem?_replicate, hi]

lemma mapRows_row_some (m : Mapping) (obj : List (List Int)) (i v : Nat)
    (hi : i < m.map_idx.length) (hsome : m.map_idx.getD i none = some v)
    (hop : m.oppose.getD i 0 = 1 ∨ m.oppose.getD i 0 = -1) :
    (m.mapRows obj)[i]? =
      some ((obj.getD v []).map (fun z => m.oppose.getD i 0 * z)) := by
  unfold Mapping.mapRows
  rcases hop with h1 | h1
  · have hplus : (v, i) ∈ m.plusPairs := (plusPairs_mem m v i).mpr ⟨hi, hsome, by omega⟩
    have hminus : i ∉ m.minusPairs.map Prod.snd := by
      apply minusPairs_snd_not_mem
      intro w hw
      rw [minusPairs_mem] at hw
      omega
    rw [assignRows_get_not_mem _ _ _ _ _ hminus,
      assignRows_get_mem _ _ _ _ v i hplus (plusPairs_snd_nodup m) (by simp [zerosMat, hi])]
    rw [h1]
  · have hminus : (v, i) ∈ m.minusPairs := (minusPairs_mem m v i).mpr ⟨hi, hsome, by omega⟩
    rw [assignRows_get_mem _ _ _ _ v i hminus (minusPairs_snd_nodup m)
      (by rw [assignRows_length]; simp [zerosMat, hi])]
    rw [h1]

/-- **C4.** For every `Mapping(map_idx, oppose)` and every compatible 2-D input
(rectangular, source indices in range), `map` succeeds and the result has
`len(map_idx)` rows, every row keeps the input's column count, output row `i`
is the zero row when `map_idx[i]` is `None` and `oppose[i] * values[map_idx[i], :]`
otherwise; 1-D input is reshaped to one column and mapped the same way; any
unsupported input kind raises the `RuntimeError`. -/
theorem mapping_map_spec (m : Mapping) (obj : List (List Int)) (c : Nat)
    (hc : (obj.headD []).length = c)
    (hop : ∀ i < m.map_idx.length, m.oppose.getD i 0 = 1 ∨ m.oppose.getD i 0 = -1)
    (hrect : ∀ row ∈ obj, row.length = c)
    (hsrc : ∀ i < m.map_idx.length, ∀ v, m.map_idx.getD i none = some v → v < obj.length) :
    m.map (.ndarray2 obj) = .ok (m.mapRows obj) ∧
    (m.mapRows obj).length = m.map_idx.length ∧
    (∀ i < m.map_idx.length,
      (m.map_idx.getD i none = none → (m.mapRows obj)[i]? = some (List.replicate c 0)) ∧
      (∀ v, m.map_idx.getD i none = some v →
        (m.mapRows obj)[i]? = some ((obj.getD v []).map (fun z => m.oppose.getD i 0 * z)))) ∧
    (∀ row ∈ m.mapRows obj, row.length = c) ∧
    (∀ w : List Int, m.map (.ndarray1 w) = .ok (m.mapRows (w.map fun z => [z]))) ∧
    m.map .unsupported = .error "map must be applied on np.ndarray, MX or SX" := by
  subst hc
  refine ⟨rfl, mapRows_length m obj, ?_, ?_, fun w => rfl, rfl⟩
  · intro i hi
    exact ⟨fun hnone => mapRows_row_none m obj i hi hnone,
      fun v hv => mapRows_row_some m obj i v hi hv (hop i hi)⟩
  · intro row hrow
    rcases List.mem_iff_getElem.mp hrow with ⟨i, hilen, hrow_eq⟩
    have hi : i < m.map_idx.length := by rwa [mapRows_length] at hilen
    have hgetq : (m.mapRows obj)[i]? = some row := by
      rw [List.getElem?_eq_getElem hilen, hrow_eq]
    rcases hidx : m.map_idx.getD i none with _ | v
    · rw [mapRows_row_none m obj i hi hidx] at hgetq
      cases hgetq
      simp
    · rw [mapRows_row_some m obj i v hi hidx (hop i hi)] at hgetq
      cases hgetq
      rw [List.length_map]
      have hv := hsrc i hi v hidx
      rw [List.getD_eq_getElem _ _ hv]
      exact hrect _ (List.getElem_mem hv)

/-- Concrete run of `mapping_map_spec` on the docstring example of `Mapping`:
`Mapping([0, 1, 1, 3, None, 1], oppose=[3])` applied to the column
`[1, 2, 3, 4, 5, 6]`. -/
theorem mapping_map_spec_witness :
    (Mapping.make [some 0, some 1, some 1, some 3, none, some 1] (some [3])).map
        (.ndarray2 [[1], [2], [3], [4], [5], [6]]) =
      .ok ((Mapping.make [some 0, some 1, some 1, some 3, none, some 1]
        (some [3])).mapRows [[1], [2], [3], [4], [5], [6]]) ∧
    ((Mapping.make [some 0, some 1, some 1, some 3, none, some 1]
        (some [3])).mapRows [[1], [2], [3], [4], [5], [6]]).length = 6 := by
  have h := mapping_map_spec
    (Mapping.make [some 0, some 1, some 1, some 3, none, some 1] (some [3]))
    [[1], [2], [3], [4], [5], [6]] 1 (by decide)
    (by decide)
    (by decide)
    (by
      intro i hi v hv
      have hi6 : i < 6 := by simpa [Mapping.make] using hi
      interval_cases i <;> simp_all [Mapping.make, List.getD] <;> omega)
  exact ⟨h.1, h.2.1⟩

/-! ## BiMapping / BiMappingList (src/bioptim/misc/mapping.py) -/

/-- Embedding of `BiMapping` together with the `OptionGeneric` bookkeeping
fields (`phase`, `automatic_multiple_phase`) used by `BiMappingList`. -/
structure BiMapping where
  to_second : Mapping
  to_first : Mapping
  phase : Int
  automatic_multiple_phase : Bool
deriving DecidableEq, Repr

/-- Run-time kinds accepted for the `to_second`/`to_first` constructor
arguments: a pre-built `Mapping`, a raw index sequence (list/tuple/range,
auto-wrapped), or anything else (raises). -/
inductive MappingArg where
  | m (mp : Mapping)
  | raw (l : List (Option Nat))
  | invalid
deriving DecidableEq, Repr

/-- `BiMapping.__init__`: raw sequences are wrapped into `Mapping` (with their
`oppose` argument); a non-`Mapping` result raises `RuntimeError` (checked for
`to_second` first, then `to_first`). -/
def BiMapping.make (to_second to_first : MappingArg)
    (oppose_to_second oppose_to_first : Option (List Nat))
    (phase : Int) (automatic : Bool) : Except String BiMapping :=
  match to_second with
  | .invalid => .error "to_second must be a Mapping class"
  | .m ts =>
    match to_first with
    | .invalid => .error "to_first must be a Mapping class"
    | .m tf =>
      .ok { to_second := ts, to_first := tf, phase := phase,
            automatic_multiple_phase := automatic }
    | .raw lf =>
      .ok { to_second := ts, to_first := Mapping.make lf oppose_to_first,
            phase := phase, automatic_multiple_phase := automatic }
  | .raw ls =>
    match to_first with
    | .invalid => .error "to_first must be a Mapping class"
    | .m tf =>
      .ok { to_second := Mapping.make ls oppose_to_second, to_first := tf,
            phase := phase, automatic_multiple_phase := automatic }
    | .raw lf =>
      .ok { to_second := Mapping.make ls oppose_to_second,
            to_first := Mapping.make lf oppose_to_first,
            phase := phase, automatic_multiple_phase := automatic }

/-- Python dict assignment on an association list: an existing key is updated
in place, a new key is appended. -/
def dictSet {α : Type} (d : List (String × α)) (k : String) (v : α) :
    List (String × α) :=
  if d.any (fun e => e.1 = k) then d.map (fun e => if e.1 = k then (k, v) else e)
  else d ++ [(k, v)]

/-- Python dict lookup on an association list. -/
def dictGet {α : Type} (d : List (String × α)) (k : String) : Option α :=
  (d.find? (fun e => e.1 = k)).map Prod.snd

/-- Modelled from the spec: `OptionDict._add` (bioptim/misc/options.py, not
under src/) keeps one name-keyed dict per phase; registering under phase `p`
stores into slot `p` (Python `-1` selects the last slot), growing the slot
list as needed. -/
def optAddEntry {α : Type} (options : List (List (String × α))) (name : String)
    (phase : Int) (v : α) : List (List (String × α)) :=
  let idx : Nat := if phase < 0 then options.length - 1 else phase.toNat
  let opts := if idx < options.length then options
              else options ++ List.replicate (idx + 1 - options.length) []
  opts.set idx (dictSet (opts.getD idx []) name v)

/-- Embedding of `BiMappingList`: per-phase dicts of named `BiMapping`s
(`OptionDict` storage modelled from the spec, see `optAddEntry`). -/
structure BiMappingList where
  options : List (List (String × BiMapping))
deriving DecidableEq, Repr

/-- A fresh `BiMappingList()` (`OptionDict` starts with one empty dict). -/
def BiMappingList.empty : BiMappingList := ⟨[[]]⟩

/-- Modelled from the spec: `OptionDict.__getitem__` with an `int` selects the
phase slot (Python negative indexing from the end, `IndexError`/`KeyError`
becoming `none`), then the name. -/
def BiMappingList.get (l : BiMappingList) (phase : Int) (name : String) :
    Option BiMapping :=
  let idx : Int := if phase < 0 then phase + l.options.length else phase
  if 0 ≤ idx ∧ idx.toNat < l.options.length then
    dictGet (l.options.getD idx.toNat []) name
  else none

/-- The run-time kinds of `BiMappingList.add`'s `bimapping` argument: `None`,
an actual `BiMapping`, or anything else (which fails `isinstance`). -/
inductive BiMappingArg where
  | noneArg
  | bm (b : BiMapping)
  | other
deriving DecidableEq, Repr

/-- The `else` branch of `BiMappingList.add` (raw `to_second`/`to_first`):
raises when either is `None`, otherwise constructs the `BiMapping` through
`OptionDict._add` and registers it. -/
def BiMappingList.addTS (l : BiMappingList) (name : String)
    (to_second to_first : Option MappingArg)
    (oppose_to_second oppose_to_first : Option (List Nat))
    (phase : Int) : Except String BiMappingList :=
  if to_second = none ∨ to_first = none then
    .error "BiMappingList should either be a to_second/to_first or an actual BiMapping"
  else
    match BiMapping.make (to_second.getD .invalid) (to_first.getD .invalid)
        oppose_to_second oppose_to_first phase false with
    | .error e => .error e
    | .ok bm => .ok ⟨optAddEntry l.options name phase bm⟩

/-- `BiMappingList.add`: with an actual `BiMapping` the `to_second`/`to_first`
arguments must be absent and the call re-enters itself on the pair's two
mappings; otherwise both `to_second` and `to_first` must be given. -/
def BiMappingList.add (l : BiMappingList) (name : String)
    (to_second to_first : Option MappingArg := none)
    (oppose_to_second oppose_to_first : Option (List Nat) := none)
    (bimapping : BiMappingArg := .noneArg) (phase : Int := -1) :
    Except String BiMappingList :=
  match bimapping with
  | .bm b =>
    if to_second.isSome || to_first.isSome then
      .error "BiMappingList should either be a to_second/to_first or an actual BiMapping"
    else
      l.addTS name (some (.m b.to_second)) (some (.m b.to_first))
        oppose_to_second oppose_to_first phase
  | _ => l.addTS name to_second to_first oppose_to_second oppose_to_first phase

/-! ## NodeMapping / NodeMappingList (src/bioptim/misc/mapping.py) -/

/-- Embedding of a stored `NodeMapping` entry: `NodeMappingList.add` registers
`variable_mapping=variable_mapping[phase_pre][name]`, i.e. the single
`BiMapping`, not the whole list. -/
structure NodeMapping where
  map_states : Bool
  map_controls : Bool
  phase_pre : Int
  phase_post : Int
  index : Option (List Nat)
  variable_mapping : BiMapping
deriving DecidableEq, Repr

/-- The distinct exceptions `NodeMappingList.add` can raise, in source order:
the `raise Warning` for no mapping at all, the `ValueError`s of the three
following validations, then the `TypeError`/lookup failure raised while
evaluating `variable_mapping[phase_pre][name]` for the registration call. -/
inductive NMErr where
  | warnNoEffect
  | bothStatesAndControls
  | missingPhase
  | phaseOrder
  | vmType
  | vmNoneSubscript
  | vmLookup
deriving DecidableEq, Repr

/-- Run-time kinds of `NodeMappingList.add`'s `variable_mapping` argument. -/
inductive VarMappingArg where
  | noneArg
  | bml (l : BiMappingList)
  | other
deriving DecidableEq, Repr

/-- Embedding of `NodeMappingList` (same `OptionDict` storage). -/
structure NodeMappingList where
  options : List (List (String × NodeMapping))
deriving DecidableEq, Repr

/-- A fresh `NodeMappingList()`. -/
def NodeMappingList.empty : NodeMappingList := ⟨[[]]⟩

/-- `NodeMappingList.add`: the four declared validations in order, then the
registration `_add(..., phase=phase_pre, variable_mapping=variable_mapping[phase_pre][name])`,
whose keyword evaluation raises on a `None` or incomplete `variable_mapping`. -/
def NodeMappingList.add (nml : NodeMappingList) (name : String)
    (map_states map_controls : Bool)
    (phase_pre phase_post : Option Int)
    (index : Option (List Nat))
    (variable_mapping : VarMappingArg) : Except NMErr NodeMappingList :=
  if map_states = false ∧ map_controls = false then .error .warnNoEffect
  else if map_states = true ∧ map_controls = true then .error .bothStatesAndControls
  else if phase_pre = none ∨ phase_post = none then .error .missingPhase
  else if phase_pre.getD 0 > phase_post.getD 0 then .error .phaseOrder
  else
    match variable_mapping with
    | .other => .error .vmType
    | .noneArg => .error .vmNoneSubscript
    | .bml l =>
      match l.get (phase_pre.getD 0) name with
      | none => .error .vmLookup
      | some bm =>
        .ok ⟨optAddEntry nml.options name (phase_pre.getD 0)
          { map_states := map_states, map_controls := map_controls,
            phase_pre := phase_pre.getD 0, phase_post := phase_post.getD 0,
            index := index, variable_mapping := bm }⟩

/-! ## Claims C7, C6, C10: the `add` validation contracts -/

/-- The error condition that claim C7 states for `BiMappingList.add`:
exactly one of `to_second`/`to_first` is `None` while `bimapping` is `None`,
or `bimapping` is given (a `BiMapping`) together with `to_second`/`to_first`. -/
def bmlAddClaimCond (to_second to_first : Option MappingArg)
    (bimapping : BiMappingArg) : Prop :=
  (bimapping = .noneArg ∧
    ((to_second = none ∧ to_first ≠ none) ∨ (to_second ≠ none ∧ to_first = none))) ∨
  ((∃ b, bimapping = .bm b) ∧ (to_second ≠ none ∨ to_first ≠ none))

/-- **C7 counterexample.** With `bimapping`, `to_second` and `to_first` all
`None`, neither disjunct of the claimed error condition holds, yet
`BiMappingList.add` raises the configuration error. -/
theorem biMappingList_add_all_none_cex :
    BiMappingList.empty.add "q" none none none none .noneArg (-1) =
      .error "BiMappingList should either be a to_second/to_first or an actual BiMapping" ∧
    ¬ bmlAddClaimCond none none .noneArg := by
  refine ⟨rfl, ?_⟩
  rintro (⟨-, ⟨-, h⟩ | ⟨h, -⟩⟩ | ⟨⟨b, hb⟩, -⟩)
  · exact h rfl
  · exact h rfl
  · exact BiMappingArg.noConfusion hb

lemma biMapping_make_ok (a a' : MappingArg) (ots otf : Option (List Nat))
    (phase : Int) (auto : Bool) (hts : a ≠ .invalid) (htf : a' ≠ .invalid) :
    ∃ b, BiMapping.make a a' ots otf phase auto = .ok b := by
  cases a <;> cases a' <;>
    first
    | exact ⟨_, rfl⟩
    | exact absurd rfl hts
    | exact absurd rfl htf

lemma addTS_ok (l : BiMappingList) (name : String) (a a' : MappingArg)
    (ots otf : Option (List Nat)) (phase : Int)
    (hts : a ≠ .invalid) (htf : a' ≠ .invalid) :
    ∃ b, l.addTS name (some a) (some a') ots otf phase =
      .ok ⟨optAddEntry l.options name phase b⟩ := by
  obtain ⟨b, hb⟩ := biMapping_make_ok a a' ots otf phase false hts htf
  refine ⟨b, ?_⟩
  rw [BiMappingList.addTS, if_neg (by simp)]
  simp only [Option.getD_some]
  rw [hb]

/-- **C7 (amended).** For Mapping-constructible `to_second`/`to_first`
arguments, `BiMappingList.add` raises iff `bimapping` is an actual `BiMapping`
given together with `to_second` or `to_first`, or `bimapping` is not a
`BiMapping` and *at least one* of `to_second`/`to_first` is `None` (the claim
said "exactly one": the all-`None` call also raises); in every other case the
call succeeds and registers a `BiMapping` under the given name and phase. -/
theorem biMappingList_add_spec (l : BiMappingList) (name : String)
    (ts tf : Option MappingArg) (ots otf : Option (List Nat))
    (bm : BiMappingArg) (phase : Int)
    (hts : ts ≠ some .invalid) (htf : tf ≠ some .invalid) :
    ((∃ e, l.add name ts tf ots otf bm phase = .error e) ↔
      ((∃ b, bm = .bm b) ∧ (ts.isSome ∨ tf.isSome)) ∨
      ((∀ b, bm ≠ .bm b) ∧ (ts = none ∨ tf = none))) ∧
    (∀ l', l.add name ts tf ots otf bm phase = .ok l' →
      ∃ b, l' = ⟨optAddEntry l.options name phase b⟩) := by
  cases bm with
  | bm b =>
    rcases hsome : (ts.isSome || tf.isSome) with _ | _
    · -- both absent: the recursive call registers the pair's two mappings
      have hts0 : ts = none := by
        cases ts
        · rfl
        · simp at hsome
      have htf0 : tf = none := by
        cases tf
        · rfl
        · simp [hts0] at hsome
      subst hts0; subst htf0
      obtain ⟨b', hb'⟩ := addTS_ok l name (.m b.to_second) (.m b.to_first) ots otf phase
        (by intro h; cases h) (by intro h; cases h)
      have hadd : l.add name none none ots otf (.bm b) phase =
          .ok ⟨optAddEntry l.options name phase b'⟩ := hb'
      refine ⟨⟨?_, ?_⟩, ?_⟩
      · rintro ⟨e, he⟩
        rw [hadd] at he
        cases he
      · rintro (⟨-, h | h⟩ | ⟨h, -⟩)
        · cases h
        · cases h
        · exact absurd rfl (h b)
      · intro l' h
        rw [hadd] at h
        cases h
        exact ⟨b', rfl⟩
    · -- given together with to_second/to_first: raises
      have hadd : l.add name ts tf ots otf (.bm b) phase =
          .error "BiMappingList should either be a to_second/to_first or an actual BiMapping" := by
        rw [BiMappingList.add, hsome]
        rfl
      refine ⟨⟨?_, ?_⟩, ?_⟩
      · intro _
        exact .inl ⟨⟨b, rfl⟩, by simpa using hsome⟩
      · intro _
        exact ⟨_, hadd⟩
      · intro l' h
        rw [hadd] at h
        cases h
  | noneArg =>
    rcases ts with _ | a
    · have hred : l.add name none tf ots otf BiMappingArg.noneArg phase =
          .error "BiMappingList should either be a to_second/to_first or an actual BiMapping" := rfl
      refine ⟨⟨fun _ => ?_, fun _ => ⟨_, hred⟩⟩, fun l' h => ?_⟩
      · right
        refine ⟨?_, .inl rfl⟩
        intro b h
        cases h
      · rw [hred] at h
        cases h
    · rcases tf with _ | a'
      · have hred : l.add name (some a) none ots otf BiMappingArg.noneArg phase =
            .error "BiMappingList should either be a to_second/to_first or an actual BiMapping" := rfl
        refine ⟨⟨fun _ => ?_, fun _ => ⟨_, hred⟩⟩, fun l' h => ?_⟩
        · right
          refine ⟨?_, .inr rfl⟩
          intro b h
          cases h
        · rw [hred] at h
          cases h
      · obtain ⟨b', hb'⟩ := addTS_ok l name a a' ots otf phase
          (fun h => hts (by rw [h])) (fun h => htf (by rw [h]))
        have hadd : l.add name (some a) (some a') ots otf .noneArg phase =
            .ok ⟨optAddEntry l.options name phase b'⟩ := hb'
        refine ⟨⟨?_, ?_⟩, ?_⟩
        · rintro ⟨e, he⟩
          rw [hadd] at he
          cases he
        · rintro (⟨⟨b, hb⟩, -⟩ | ⟨-, h | h⟩)
          · cases hb
          · cases h
          · cases h
        · intro l' h
          rw [hadd] at h
          cases h
          exact ⟨b', rfl⟩
  | other =>
    rcases ts with _ | a
    · have hred : l.add name none tf ots otf BiMappingArg.other phase =
          .error "BiMappingList should either be a to_second/to_first or an actual BiMapping" := rfl
      refine ⟨⟨fun _ => ?_, fun _ => ⟨_, hred⟩⟩, fun l' h => ?_⟩
      · right
        refine ⟨?_, .inl rfl⟩
        intro b h
        cases h
      · rw [hred] at h
        cases h
    · rcases tf with _ | a'
      · have hred : l.add name (some a) none ots otf BiMappingArg.other phase =
            .error "BiMappingList should either be a to_second/to_first or an actual BiMapping" := rfl
        refine ⟨⟨fun _ => ?_, fun _ => ⟨_, hred⟩⟩, fun l' h => ?_⟩
        · right
          refine ⟨?_, .inr rfl⟩
          intro b h
          cases h
        · rw [hred] at h
          cases h
      · obtain ⟨b', hb'⟩ := addTS_ok l name a a' ots otf phase
          (fun h => hts (by rw [h])) (fun h => htf (by rw [h]))
        have hadd : l.add name (some a) (some a') ots otf .other phase =
            .ok ⟨optAddEntry l.options name phase b'⟩ := hb'
        refine ⟨⟨?_, ?_⟩, ?_⟩
        · rintro ⟨e, he⟩
          rw [hadd] at he
          cases he
        · rintro (⟨⟨b, hb⟩, -⟩ | ⟨-, h | h⟩)
          · cases hb
          · cases h
          · cases h
        · intro l' h
          rw [hadd] at h
          cases h
          exact ⟨b', rfl⟩

/-- Concrete run of `biMappingList_add_spec`: registering `"q" : [0] ↔ [0]`
into a fresh list succeeds. -/
theorem biMappingList_add_spec_witness :
    ((∃ e, BiMappingList.empty.add "q" (some (.raw [some 0])) (some (.raw [some 0]))
        none none .noneArg (-1) = .error e) ↔
      ((∃ b, (BiMappingArg.noneArg) = .bm b) ∧
        ((some (MappingArg.raw [some 0])).isSome ∨ (some (MappingArg.raw [some 0])).isSome)) ∨
      ((∀ b, (BiMappingArg.noneArg) ≠ .bm b) ∧
        ((some (MappingArg.raw [some 0])) = none ∨ (some (MappingArg.raw [some 0])) = none))) ∧
    (∀ l', BiMappingList.empty.add "q" (some (.raw [some 0])) (some (.raw [some 0]))
        none none .noneArg (-1) = .ok l' →
      ∃ b, l' = ⟨optAddEntry BiMappingList.empty.options "q" (-1) b⟩) :=
  biMappingList_add_spec BiMappingList.empty "q" (some (.raw [some 0]))
    (some (.raw [some 0])) none none .noneArg (-1) (by decide) (by decide)

/-- The error condition that claim C6 states for `NodeMappingList.add`. -/
def nmlAddClaimCond (map_states map_controls : Bool)
    (ppre ppost : Option Int) (vm : VarMappingArg) : Prop :=
  (map_states = map_controls) ∨ (ppre = none ∨ ppost = none) ∨
  (ppre.getD 0 > ppost.getD 0) ∨ (vm = .other)

/-- **C6 counterexample.** A call that violates none of the four declared
validations (`map_states=True` alone, phases `0 < 1`, `variable_mapping=None`
which is an allowed type) still raises: the registration step subscripts
`None`. -/
theorem nodeMappingList_add_cex :
    NodeMappingList.empty.add "q" true false (some 0) (some 1) (some [0]) .noneArg =
      .error .vmNoneSubscript ∧
    ¬ nmlAddClaimCond true false (some 0) (some 1) .noneArg := by
  refine ⟨rfl, ?_⟩
  unfold nmlAddClaimCond
  decide

/-- **C6 (amended).** `NodeMappingList.add` raises iff one of the four declared
violations holds *or* the final registration fails (`variable_mapping` is
`None`, or a `BiMappingList` with no entry for the name at `phase_pre`);
the four declared checks fire in source order on the first violation. -/
theorem nodeMappingList_add_spec (nml : NodeMappingList) (name : String)
    (ms mc : Bool) (ppre ppost : Option Int) (idx : Option (List Nat))
    (vm : VarMappingArg) :
    ((∃ e, nml.add name ms mc ppre ppost idx vm = .error e) ↔
      (ms = mc) ∨ ppre = none ∨ ppost = none ∨ ppre.getD 0 > ppost.getD 0 ∨
      vm = .other ∨ vm = .noneArg ∨
      (∃ bl, vm = .bml bl ∧ bl.get (ppre.getD 0) name = none)) ∧
    (ms = false ∧ mc = false →
      nml.add name ms mc ppre ppost idx vm = .error .warnNoEffect) ∧
    (ms = true ∧ mc = true →
      nml.add name ms mc ppre ppost idx vm = .error .bothStatesAndControls) ∧
    (ms ≠ mc ∧ (ppre = none ∨ ppost = none) →
      nml.add name ms mc ppre ppost idx vm = .error .missingPhase) ∧
    (ms ≠ mc ∧ ppre ≠ none ∧ ppost ≠ none ∧ ppre.getD 0 > ppost.getD 0 →
      nml.add name ms mc ppre ppost idx vm = .error .phaseOrder) ∧
    (ms ≠ mc ∧ ppre ≠ none ∧ ppost ≠ none ∧ ¬ ppre.getD 0 > ppost.getD 0 ∧ vm = .other →
      nml.add name ms mc ppre ppost idx vm = .error .vmType) := by
  by_cases h1 : ms = false ∧ mc = false
  · have hred : nml.add name ms mc ppre ppost idx vm = .error .warnNoEffect := by
      rw [NodeMappingList.add.eq_def, if_pos h1]
    refine ⟨⟨fun _ => .inl (h1.1.trans h1.2.symm), fun _ => ⟨_, hred⟩⟩,
      fun _ => hred, fun hc => by simp [hc.1] at h1,
      fun hc => absurd (h1.1.trans h1.2.symm) hc.1,
      fun hc => absurd (h1.1.trans h1.2.symm) hc.1,
      fun hc => absurd (h1.1.trans h1.2.symm) hc.1⟩
  · by_cases h2 : ms = true ∧ mc = true
    · have hred : nml.add name ms mc ppre ppost idx vm = .error .bothStatesAndControls := by
        rw [NodeMappingList.add.eq_def, if_neg h1, if_pos h2]
      refine ⟨⟨fun _ => .inl (h2.1.trans h2.2.symm), fun _ => ⟨_, hred⟩⟩,
        fun hc => absurd hc h1, fun _ => hred,
        fun hc => absurd (h2.1.trans h2.2.symm) hc.1,
        fun hc => absurd (h2.1.trans h2.2.symm) hc.1,
        fun hc => absurd (h2.1.trans h2.2.symm) hc.1⟩
    · have hne : ms ≠ mc := by cases ms <;> cases mc <;> simp_all
      by_cases h3 : ppre = none ∨ ppost = none
      · have hred : nml.add name ms mc ppre ppost idx vm = .error .missingPhase := by
          rw [NodeMappingList.add.eq_def, if_neg h1, if_neg h2, if_pos h3]
        refine ⟨⟨fun _ => ?_, fun _ => ⟨_, hred⟩⟩,
          fun hc => absurd hc h1, fun hc => absurd hc h2, fun _ => hred,
          fun hc => ?_, fun hc => ?_⟩
        · rcases h3 with h | h
          · exact .inr (.inl h)
          · exact .inr (.inr (.inl h))
        · rcases h3 with h | h
          · exact absurd h hc.2.1
          · exact absurd h hc.2.2.1
        · rcases h3 with h | h
          · exact absurd h hc.2.1
          · exact absurd h hc.2.2.1
      · obtain ⟨hp, hq⟩ := not_or.mp h3
        by_cases h4 : ppre.getD 0 > ppost.getD 0
        · have hred : nml.add name ms mc ppre ppost idx vm = .error .phaseOrder := by
            rw [NodeMappingList.add.eq_def, if_neg h1, if_neg h2, if_neg h3, if_pos h4]
          refine ⟨⟨fun _ => .inr (.inr (.inr (.inl h4))), fun _ => ⟨_, hred⟩⟩,
            fun hc => absurd hc h1, fun hc => absurd hc h2,
            fun hc => ?_, fun _ => hred, fun hc => absurd h4 hc.2.2.2.1⟩
          rcases hc.2 with h | h
          · exact absurd h hp
          · exact absurd h hq
        · cases vm with
          | other =>
            have hred : nml.add name ms mc ppre ppost idx .other = .error .vmType := by
              rw [NodeMappingList.add.eq_def, if_neg h1, if_neg h2, if_neg h3, if_neg h4]
            refine ⟨⟨fun _ => .inr (.inr (.inr (.inr (.inl rfl)))), fun _ => ⟨_, hred⟩⟩,
              fun hc => absurd hc h1, fun hc => absurd hc h2,
              fun hc => ?_, fun hc => absurd hc.2.2.2 h4, fun _ => hred⟩
            rcases hc.2 with h | h
            · exact absurd h hp
            · exact absurd h hq
          | noneArg =>
            have hred : nml.add name ms mc ppre ppost idx .noneArg =
                .error .vmNoneSubscript := by
              rw [NodeMappingList.add.eq_def, if_neg h1, if_neg h2, if_neg h3, if_neg h4]
            refine ⟨⟨fun _ => .inr (.inr (.inr (.inr (.inr (.inl rfl))))), fun _ => ⟨_, hred⟩⟩,
              fun hc => absurd hc h1, fun hc => absurd hc h2,
              fun hc => ?_, fun hc => absurd hc.2.2.2 h4, fun hc => by cases hc.2.2.2.2⟩
            rcases hc.2 with h | h
            · exact absurd h hp
            · exact absurd h hq
          | bml bl =>
            rcases hlook : bl.get (ppre.getD 0) name with _ | b
            · have hstep : nml.add name ms mc ppre ppost idx (.bml bl) =
                  (match bl.get (ppre.getD 0) name with
                   | none => Except.error NMErr.vmLookup
                   | some bm => Except.ok ⟨optAddEntry nml.options name (ppre.getD 0)
                       { map_states := ms, map_controls := mc, phase_pre := ppre.getD 0,
                         phase_post := ppost.getD 0, index := idx,
                         variable_mapping := bm }⟩) := by
                rw [NodeMappingList.add.eq_def, if_neg h1, if_neg h2, if_neg h3, if_neg h4]
              have hred : nml.add name ms mc ppre ppost idx (.bml bl) =
                  .error .vmLookup := by
                rw [hstep, hlook]
              refine ⟨⟨fun _ => .inr (.inr (.inr (.inr (.inr (.inr ⟨bl, rfl, hlook⟩))))),
                fun _ => ⟨_, hred⟩⟩,
                fun hc => absurd hc h1, fun hc => absurd hc h2,
                fun hc => ?_, fun hc => absurd hc.2.2.2 h4, fun hc => by cases hc.2.2.2.2⟩
              rcases hc.2 with h | h
              · exact absurd h hp
              · exact absurd h hq
            · have hstep : nml.add name ms mc ppre ppost idx (.bml bl) =
                  (match bl.get (ppre.getD 0) name with
                   | none => Except.error NMErr.vmLookup
                   | some bm => Except.ok ⟨optAddEntry nml.options name (ppre.getD 0)
                       { map_states := ms, map_controls := mc, phase_pre := ppre.getD 0,
                         phase_post := ppost.getD 0, index := idx,
                         variable_mapping := bm }⟩) := by
                rw [NodeMappingList.add.eq_def, if_neg h1, if_neg h2, if_neg h3, if_neg h4]
              have hred : nml.add name ms mc ppre ppost idx (.bml bl) =
                  .ok ⟨optAddEntry nml.options name (ppre.getD 0)
                    { map_states := ms, map_controls := mc, phase_pre := ppre.getD 0,
                      phase_post := ppost.getD 0, index := idx,
                      variable_mapping := b }⟩ := by
                rw [hstep, hlook]
              refine ⟨⟨?_, ?_⟩,
                fun hc => absurd hc h1, fun hc => absurd hc h2,
                fun hc => ?_, fun hc => absurd hc.2.2.2 h4, fun hc => by cases hc.2.2.2.2⟩
              · rintro ⟨e, he⟩
                rw [hred] at he
                cases he
              · rintro (h | h | h | h | h | h | ⟨bl2, hbl, hl⟩)
                · exact absurd h hne
                · exact absurd h hp
                · exact absurd h hq
                · exact absurd h h4
                · cases h
                · cases h
                · cases hbl
                  rw [hl] at hlook
                  cases hlook
              · rcases hc.2 with h | h
                · exact absurd h hp
                · exact absurd h hq


/-- **C10.** When all four declared validations pass but
`variable_mapping=None`, `NodeMappingList.add` still raises (the registration
subscripts `None`); and any successful add stores the single `BiMapping`
found in the supplied `BiMappingList` at `phase_pre` under the name — never
the whole list. -/
theorem nodeMappingList_add_requires_entry (nml : NodeMappingList) (name : String)
    (ms mc : Bool) (ppre ppost : Option Int) (idx : Option (List Nat))
    (hne : ms ≠ mc) (hp : ppre ≠ none) (hq : ppost ≠ none)
    (h4 : ¬ ppre.getD 0 > ppost.getD 0) :
    nml.add name ms mc ppre ppost idx .noneArg = .error .vmNoneSubscript ∧
    (∀ vm l', nml.add name ms mc ppre ppost idx vm = .ok l' →
      ∃ bl b, vm = .bml bl ∧ bl.get (ppre.getD 0) name = some b ∧
        l' = ⟨optAddEntry nml.options name (ppre.getD 0)
          { map_states := ms, map_controls := mc, phase_pre := ppre.getD 0,
            phase_post := ppost.getD 0, index := idx, variable_mapping := b }⟩) := by
  have hms : ¬ (ms = false ∧ mc = false) := by
    rintro ⟨h, h'⟩; exact hne (h.trans h'.symm)
  have hmc : ¬ (ms = true ∧ mc = true) := by
    rintro ⟨h, h'⟩; exact hne (h.trans h'.symm)
  have hpq : ¬ (ppre = none ∨ ppost = none) := by
    rintro (h | h); exacts [hp h, hq h]
  constructor
  · rw [NodeMappingList.add.eq_def, if_neg hms, if_neg hmc, if_neg hpq, if_neg h4]
  · intro vm l' h
    cases vm with
    | other =>
      rw [show nml.add name ms mc ppre ppost idx .other = .error .vmType by
        rw [NodeMappingList.add.eq_def, if_neg hms, if_neg hmc, if_neg hpq, if_neg h4]] at h
      cases h
    | noneArg =>
      rw [show nml.add name ms mc ppre ppost idx .noneArg = .error .vmNoneSubscript by
        rw [NodeMappingList.add.eq_def, if_neg hms, if_neg hmc, if_neg hpq, if_neg h4]] at h
      cases h
    | bml bl =>
      have hstep : nml.add name ms mc ppre ppost idx (.bml bl) =
          (match bl.get (ppre.getD 0) name with
           | none => Except.error NMErr.vmLookup
           | some bm => Except.ok ⟨optAddEntry nml.options name (ppre.getD 0)
               { map_states := ms, map_controls := mc, phase_pre := ppre.getD 0,
                 phase_post := ppost.getD 0, index := idx,
                 variable_mapping := bm }⟩) := by
        rw [NodeMappingList.add.eq_def, if_neg hms, if_neg hmc, if_neg hpq, if_neg h4]
      rw [hstep] at h
      rcases hlook : bl.get (ppre.getD 0) name with _ | b <;> rw [hlook] at h
      · cases h
      · cases h
        exact ⟨bl, b, rfl, hlook, rfl⟩

/-- Concrete run of `nodeMappingList_add_requires_entry`: states-mapping from
phase 0 to phase 1 with `variable_mapping=None` raises. -/
theorem nodeMappingList_add_requires_entry_witness :
    NodeMappingList.empty.add "q" true false (some 0) (some 1) (some [0]) .noneArg =
      .error .vmNoneSubscript :=
  (nodeMappingList_add_requires_entry NodeMappingList.empty "q" true false
    (some 0) (some 1) (some [0]) (by decide) (by decide) (by decide) (by decide)).1

/-! ## Symbols and containers for the OptimizationVector layer -/

/-- casadi symbols, tagged by allocation site: every `cx.sym(...)` call in
`define_ocp_shooting_points` is a distinct object, identified here by
phase/node/liberty (and block width for collocation state blocks); parameter
symbols by name and row. -/
inductive CxSym where
  | xsym (phase k liberty width : Nat)
  | usym (phase k liberty : Nat)
  | psym (name : String) (row : Nat)
deriving DecidableEq, Repr

/-- Symbolic matrix entries: a bare scaled symbol, or a scaled symbol times a
scaling factor (the unscaled `x = x_scaled * scaling`). -/
inductive CxE where
  | sym (s : CxSym)
  | smul (s : CxSym) (c : Int)
deriving DecidableEq, Repr

/-- Modelled from the spec: the `Bounds` container (bioptim/limits/
path_conditions.py, not under src/) holds a min and a max column;
`concatenate` appends another bounds object in order. -/
structure BoundsM where
  bmin : List Int
  bmax : List Int
deriving DecidableEq, Repr

/-- `Bounds.concatenate`. -/
def BoundsM.concatenate (b o : BoundsM) : BoundsM :=
  ⟨b.bmin ++ o.bmin, b.bmax ++ o.bmax⟩

/-- Modelled from the spec: the `InitialGuess` container holds an init column;
`concatenate` appends in order. -/
structure InitialGuessM where
  init : List Int
deriving DecidableEq, Repr

/-- `InitialGuess.concatenate`. -/
def InitialGuessM.concatenate (g o : InitialGuessM) : InitialGuessM :=
  ⟨g.init ++ o.init⟩

/-! ## Parameter pool (src/bioptim/optimization/optimization_vector.py,
`add_parameter`, lines 694-723) -/

/-- Modelled from the spec: `Parameter` (bioptim/optimization/parameters.py,
not under src/) owns solver symbols `cx` (allocated lazily), display symbols
`mx`, a declared `size`, `scaling`, `bounds`, `initial_guess`, the defining
`function` (identified by a token, compared for identity) and the extra
configuration dict `params`. -/
structure Parameter where
  name : String
  size : Nat
  cx : Option (List CxSym)
  mx : List CxSym
  scaling : List Int
  bounds : BoundsM
  initial_guess : List Int
  function : Nat
  params : List (String × Int)
deriving DecidableEq, Repr

/-- `OptimizationVector.add_parameter`: allocate fresh `cx`/`mx` symbols when
absent; on a duplicate name, fail unless the defining function is identical
(checked before any merge), then accumulate size and concatenate `cx`, `mx`
and `scaling`, fail unless the extra configuration is identical, then
concatenate bounds and initial guess; otherwise append to the pool.
(The Python in-place mutations left behind when the `params` check raises are
not observable through the returned pool.) -/
def addParameter (pool : List Parameter) (param : Parameter) :
    Except String (List Parameter) :=
  let cx := param.cx.getD ((List.range param.size).map (fun i => CxSym.psym param.name i))
  let mx := (List.range param.size).map (fun i => CxSym.psym (param.name ++ "_MX") i)
  match pool.findIdx? (fun p => p.name == param.name) with
  | some i =>
    match pool[i]? with
    | none => .error "unreachable: findIdx? returned an out-of-range index"
    | some old =>
      if old.function ≠ param.function then
        .error "Pre dynamic function of same parameters must be the same"
      else
        let merged :=
          { old with size := old.size + param.size,
                     cx := some (old.cx.getD [] ++ cx),
                     mx := old.mx ++ mx,
                     scaling := old.scaling ++ param.scaling }
        if old.params ≠ param.params then
          .error "Extra parameters of same parameters must be the same"
        else
          .ok (pool.set i
            { merged with bounds := merged.bounds.concatenate param.bounds,
                          initial_guess := merged.initial_guess ++ param.initial_guess })
  | none => .ok (pool ++ [{ param with cx := some cx, mx := mx }])

/-- **C8.** Adding two parameters with the same name, identical defining
function and identical extra configuration yields one pool entry whose size is
the sum of the two sizes, with bounds and initial guess concatenated in
addition order; adding a second parameter with the same name but a different
defining function raises the consistency error. -/
theorem add_parameter_merge_spec (p q : Parameter) (hname : q.name = p.name)
    (hf : q.function = p.function) (hpar : q.params = p.params) :
    (∃ pool1, addParameter [] p = .ok pool1 ∧
      ∃ e, addParameter pool1 q = .ok [e] ∧
        e.name = p.name ∧ e.size = p.size + q.size ∧
        e.bounds = p.bounds.concatenate q.bounds ∧
        e.initial_guess = p.initial_guess ++ q.initial_guess) ∧
    (∀ r : Parameter, r.name = p.name → r.function ≠ p.function →
      ∀ pool1, addParameter [] p = .ok pool1 →
        addParameter pool1 r =
          .error "Pre dynamic function of same parameters must be the same") := by
  have hfirst : addParameter [] p =
      .ok [{ p with
        cx := some (p.cx.getD ((List.range p.size).map (fun i => CxSym.psym p.name i))),
        mx := (List.range p.size).map (fun i => CxSym.psym (p.name ++ "_MX") i) }] := rfl
  constructor
  · refine ⟨_, hfirst, ?_⟩
    rw [addParameter]
    have hidx : List.findIdx?
        (fun pp => pp.name == q.name)
        [{ p with
          cx := some (p.cx.getD ((List.range p.size).map (fun i => CxSym.psym p.name i))),
          mx := (List.range p.size).map (fun i => CxSym.psym (p.name ++ "_MX") i) }] =
        some 0 := by
      simp [List.findIdx?, hname]
    rw [hidx]
    simp only [List.getElem?_cons_zero]
    rw [if_neg (by simp [hf]), if_neg (by simp [hpar])]
    exact ⟨_, rfl, rfl, rfl, rfl, rfl⟩
  · intro r hrname hrf pool1 h1
    rw [hfirst] at h1
    cases h1
    rw [addParameter]
    have hidx : List.findIdx?
        (fun pp => pp.name == r.name)
        [{ p with
          cx := some (p.cx.getD ((List.range p.size).map (fun i => CxSym.psym p.name i))),
          mx := (List.range p.size).map (fun i => CxSym.psym (p.name ++ "_MX") i) }] =
        some 0 := by
      simp [List.findIdx?, hrname]
    rw [hidx]
    simp only [List.getElem?_cons_zero]
    rw [if_pos (fun he => hrf (he.symm))]

/-- Concrete run of `add_parameter_merge_spec`: two "time" parameters of sizes
1 and 2 merge into one entry of size 3 with concatenated bounds. -/
theorem add_parameter_merge_spec_witness :
    (∃ pool1, addParameter []
        { name := "time", size := 1, cx := none, mx := [], scaling := [1],
          bounds := ⟨[0], [10]⟩, initial_guess := [5], function := 7,
          params := [] } = .ok pool1 ∧
      ∃ e, addParameter pool1
        { name := "time", size := 2, cx := none, mx := [], scaling := [1, 1],
          bounds := ⟨[1, 2], [11, 12]⟩, initial_guess := [6, 7], function := 7,
          params := [] } = .ok [e] ∧
        e.name = "time" ∧ e.size = 1 + 2 ∧
        e.bounds = BoundsM.concatenate ⟨[0], [10]⟩ ⟨[1, 2], [11, 12]⟩ ∧
        e.initial_guess = [5] ++ [6, 7]) :=
  (add_parameter_merge_spec
    { name := "time", size := 1, cx := none, mx := [], scaling := [1],
      bounds := ⟨[0], [10]⟩, initial_guess := [5], function := 7, params := [] }
    { name := "time", size := 2, cx := none, mx := [], scaling := [1, 1],
      bounds := ⟨[1, 2], [11, 12]⟩, initial_guess := [6, 7], function := 7,
      params := [] } rfl rfl rfl).1

/-! ## `BiMappingList.variable_mapping_fill_phases` (src/bioptim/misc/mapping.py,
lines 217-226) and claim C9 -/

/-- The `BiMapping` stored by the `self.add(name=key, bimapping=bm, phase=i)`
call inside `variable_mapping_fill_phases`: the pair's two `Mapping`s are
re-registered at the new phase; `automatic_multiple_phase` is not forwarded,
so the copy carries the default `False`. -/
def cloneBM (bm : BiMapping) (j : Nat) : BiMapping :=
  { to_second := bm.to_second, to_first := bm.to_first, phase := (j : Int),
    automatic_multiple_phase := false }

/-- The state effect of that `self.add` call (which cannot raise here, see
`addClone_eq_add`). -/
def addClone (l : BiMappingList) (k : String) (bm : BiMapping) (j : Nat) :
    BiMappingList :=
  ⟨optAddEntry l.options k (j : Int) (cloneBM bm j)⟩

/-- The `self.add(name=key, bimapping=mappings[key], phase=i_phase)` call in
the fill loop is exactly `addClone`. -/
lemma addClone_eq_add (l : BiMappingList) (k : String) (bm : BiMapping) (j : Nat) :
    l.add k none none none none (.bm bm) (j : Int) = .ok (addClone l k bm j) := rfl

/-- `mappings[key].phase = 0`: in-place mutation of the `phase` field of the
named entry. -/
def setPhaseZero (d : List (String × BiMapping)) (k : String) :
    List (String × BiMapping) :=
  d.map (fun e => if e.1 = k then (e.1, { e.2 with phase := 0 }) else e)

/-- The `for i_phase in range(n_phases)` loop body for one automatic mapping:
`i_phase == 0` re-pins the entry's phase to 0, otherwise the entry (re-read
from the dict each iteration) is re-added at phase `i_phase`. -/
def phaseLoop (l : BiMappingList) (i : Nat) (k : String) (n : Nat) :
    BiMappingList :=
  (List.range n).foldl
    (fun acc j =>
      if j = 0 then ⟨acc.options.set i (setPhaseZero (acc.options.getD i []) k)⟩
      else
        match dictGet (acc.options.getD i []) k with
        | some bm => addClone acc k bm j
        | none => acc)
    l

/-- The `for key in mappings` loop over one phase dict: keys are the dict's
keys when the dict is reached, each checked for the automatic flag when
reached. -/
def dictLoop (l : BiMappingList) (i : Nat) (n : Nat) : BiMappingList :=
  ((l.options.getD i []).map Prod.fst).foldl
    (fun acc k =>
      match dictGet (acc.options.getD i []) k with
      | some bm => if bm.automatic_multiple_phase then phaseLoop acc i k n else acc
      | none => acc)
    l

/-- The `for mappings in self.options` loop: Python iterates the list by
index, including dicts appended while iterating; the fuel bounds the
iteration count (the list never grows beyond `max(len, n)` slots, see
`fill_fuel_sufficient`). -/
def fillLoop (l : BiMappingList) (i : Nat) (n : Nat) : Nat → BiMappingList
  | 0 => l
  | fuel + 1 =>
    if i < l.options.length then fillLoop (dictLoop l i n) (i + 1) n fuel else l

/-- `BiMappingList.variable_mapping_fill_phases`. -/
def BiMappingList.variable_mapping_fill_phases (l : BiMappingList) (n : Nat) :
    BiMappingList :=
  fillLoop l 0 n (l.options.length + n)

/-! Association-list and state-access helpers for the fill proofs. -/

/-- The entry stored for `k` in phase dict `i`. -/
def entryGet (l : BiMappingList) (i : Nat) (k : String) : Option BiMapping :=
  dictGet (l.options.getD i []) k

/-- The key list of phase dict `j`. -/
def dictKeys (l : BiMappingList) (j : Nat) : List String :=
  (l.options.getD j []).map Prod.fst

/-- Per-phase dicts have Python-dict structure: pairwise distinct keys. -/
def WfDicts (l : BiMappingList) : Prop :=
  ∀ j, (dictKeys l j).Nodup

lemma dictGet_nil {α : Type} (k : String) : dictGet ([] : List (String × α)) k = none := rfl

lemma dictGet_cons {α : Type} (e : String × α) (d : List (String × α)) (k : String) :
    dictGet (e :: d) k = if e.1 = k then some e.2 else dictGet d k := by
  unfold dictGet
  by_cases h : e.1 = k
  · rw [List.find?_cons_of_pos _ (by simpa using h), if_pos h]
    rfl
  · rw [List.find?_cons_of_neg _ (by simpa using h), if_neg h]

lemma anyKey_iff {α : Type} (d : List (String × α)) (k : String) :
    (d.any (fun e => e.1 = k)) = true ↔ k ∈ d.map Prod.fst := by
  rw [List.any_eq_true]
  constructor
  · rintro ⟨e, he, hek⟩
    exact List.mem_map.mpr ⟨e, he, by simpa using hek⟩
  · intro h
    rcases List.mem_map.mp h with ⟨e, he, hek⟩
    exact ⟨e, he, by simpa using hek⟩

lemma dictGet_updMap_self {α : Type} (d : List (String × α)) (k : String) (v : α)
    (h : k ∈ d.map Prod.fst) :
    dictGet (d.map (fun e => if e.1 = k then (k, v) else e)) k = some v := by
  induction d with
  | nil => cases h
  | cons a rest ih =>
    simp only [List.map_cons]
    by_cases ha : a.1 = k
    · rw [if_pos ha, dictGet_cons, if_pos rfl]
    · rw [if_neg ha, dictGet_cons, if_neg ha]
      apply ih
      rw [List.map_cons] at h
      rcases List.mem_cons.mp h with h' | h'
      · exact absurd h'.symm ha
      · exact h'

lemma dictGet_dictSet_self {α : Type} (d : List (String × α)) (k : String) (v : α) :
    dictGet (dictSet d k v) k = some v := by
  unfold dictSet
  by_cases h : d.any (fun e => e.1 = k)
  · rw [if_pos h]
    exact dictGet_updMap_self d k v ((anyKey_iff d k).mp h)
  · rw [if_neg h]
    have hnot : k ∉ d.map Prod.fst := fun hm => h ((anyKey_iff d k).mpr hm)
    induction d with
    | nil => rw [List.nil_append, dictGet_cons, if_pos rfl]
    | cons a rest ih =>
      rw [List.cons_append, dictGet_cons, if_neg (fun ha => hnot (by simp [ha]))]
      exact ih (by simp_all [List.any_cons]) (fun hm => hnot (by simp [hm]))

lemma dictGet_dictSet_ne {α : Type} (d : List (String × α)) (k k' : String) (v : α)
    (hne : k' ≠ k) : dictGet (dictSet d k v) k' = dictGet d k' := by
  unfold dictSet
  by_cases h : d.any (fun e => e.1 = k)
  · rw [if_pos h]
    clear h
    induction d with
    | nil => rfl
    | cons a rest ih =>
      simp only [List.map_cons]
      by_cases ha : a.1 = k
      · rw [if_pos ha, dictGet_cons, dictGet_cons, if_neg (fun hh => hne hh.symm),
          if_neg (fun hh => hne (ha ▸ hh).symm)]
        exact ih
      · rw [if_neg ha, dictGet_cons, dictGet_cons]
        by_cases ha' : a.1 = k'
        · rw [if_pos ha', if_pos ha']
        · rw [if_neg ha', if_neg ha']
          exact ih
  · rw [if_neg h]
    induction d with
    | nil => rw [List.nil_append, dictGet_cons, if_neg (fun hh => hne hh.symm), dictGet_nil]
    | cons a rest ih =>
      rw [List.cons_append, dictGet_cons, dictGet_cons]
      by_cases ha' : a.1 = k'
      · rw [if_pos ha', if_pos ha']
      · rw [if_neg ha', if_neg ha']
        exact ih (by simp_all [List.any_cons])

lemma dictGet_eq_none_iff {α : Type} (d : List (String × α)) (k : String) :
    dictGet d k = none ↔ k ∉ d.map Prod.fst := by
  induction d with
  | nil => simp [dictGet_nil]
  | cons a rest ih =>
    rw [dictGet_cons]
    by_cases ha : a.1 = k
    · simp [ha]
    · simp only [if_neg ha, ih, List.map_cons, List.mem_cons]
      constructor
      · intro h
        rintro (h' | h')
        · exact ha h'.symm
        · exact h h'
      · intro h h'
        exact h (Or.inr h')

lemma dictSet_keys {α : Type} (d : List (String × α)) (k : String) (v : α)
    (hmem : k ∈ d.map Prod.fst) : (dictSet d k v).map Prod.fst = d.map Prod.fst := by
  unfold dictSet
  rw [if_pos ((anyKey_iff d k).mpr hmem), List.map_map]
  apply List.map_congr_left
  intro a _
  by_cases ha : a.1 = k
  · simp [ha]
  · simp [ha]

lemma dictSet_keys_not_mem {α : Type} (d : List (String × α)) (k : String) (v : α)
    (hmem : k ∉ d.map Prod.fst) :
    (dictSet d k v).map Prod.fst = d.map Prod.fst ++ [k] := by
  unfold dictSet
  rw [if_neg (fun h => hmem ((anyKey_iff d k).mp h))]
  simp

lemma dictSet_self_eq {α : Type} (d : List (String × α)) (k : String)
    (v : α) (hnd : (d.map Prod.fst).Nodup) (hget : dictGet d k = some v) :
    dictSet d k v = d := by
  unfold dictSet
  have hmem : k ∈ d.map Prod.fst := by
    by_contra hnot
    rw [(dictGet_eq_none_iff d k).mpr hnot] at hget
    cases hget
  rw [if_pos ((anyKey_iff d k).mpr hmem)]
  induction d with
  | nil => rfl
  | cons a rest ih =>
    simp only [List.map_cons, List.nodup_cons] at hnd
    rw [dictGet_cons] at hget
    simp only [List.map_cons]
    by_cases ha : a.1 = k
    · rw [if_pos ha] at hget
      injection hget with hv
      subst hv
      rw [if_pos ha]
      have hcong : ∀ e ∈ rest, (if e.1 = k then (k, a.2) else e) = id e := by
        intro e he
        rw [if_neg]
        · rfl
        · intro hek
          exact hnd.1 (List.mem_map.mpr ⟨e, he, hek.trans ha.symm⟩)
      rw [List.map_congr_left hcong, List.map_id, ← ha]
    · rw [if_neg ha] at hget
      rw [if_neg ha]
      have hmem' : k ∈ rest.map Prod.fst := by
        rw [List.map_cons] at hmem
        rcases List.mem_cons.mp hmem with h' | h'
        · exact absurd h'.symm ha
        · exact h'
      rw [ih hnd.2 hget hmem']

/-- The entry's automatic flag, `false` when the key is absent. -/
def flagAt (l : BiMappingList) (i : Nat) (k : String) : Bool :=
  match entryGet l i k with
  | some bm => bm.automatic_multiple_phase
  | none => false

lemma optAddEntry_nat_lt {α : Type} (o : List (List (String × α))) (k : String)
    (j : Nat) (v : α) (hj : j < o.length) :
    optAddEntry o k (j : Int) v = o.set j (dictSet (o.getD j []) k v) := by
  unfold optAddEntry
  have h0 : ¬ ((j : Int) < 0) := by omega
  simp only [if_neg h0, Int.toNat_natCast, if_pos hj]

lemma optAddEntry_nat_ge {α : Type} (o : List (List (String × α))) (k : String)
    (j : Nat) (v : α) (hj : o.length ≤ j) :
    optAddEntry o k (j : Int) v =
      (o ++ List.replicate (j + 1 - o.length) ([] : List (String × α))).set j
        (dictSet [] k v) := by
  unfold optAddEntry
  have h0 : ¬ ((j : Int) < 0) := by omega
  by_cases he : j < o.length
  · omega
  · simp only [if_neg h0, Int.toNat_natCast, if_neg he]
    congr 1
    rw [List.getD_eq_getElem?_getD, List.getElem?_append_right hj]
    rw [List.getElem?_replicate]
    rw [if_pos (by omega)]
    rfl

lemma addClone_options_length (t : BiMappingList) (k : String) (bm : BiMapping)
    (j : Nat) :
    (addClone t k bm j).options.length = max t.options.length (j + 1) := by
  unfold addClone
  by_cases hj : j < t.options.length
  · rw [optAddEntry_nat_lt _ _ _ _ hj]
    simp only [List.length_set]
    omega
  · rw [optAddEntry_nat_ge _ _ _ _ (by omega)]
    simp only [List.length_set, List.length_append, List.length_replicate]
    omega

lemma addClone_dict_eq (t : BiMappingList) (k : String) (bm : BiMapping)
    (j : Nat) (i : Nat) (hne : i ≠ j) :
    (addClone t k bm j).options.getD i [] = t.options.getD i [] := by
  unfold addClone
  by_cases hj : j < t.options.length
  · rw [optAddEntry_nat_lt _ _ _ _ hj]
    rw [List.getD_eq_getElem?_getD, List.getElem?_set_ne (fun h => hne h.symm),
      ← List.getD_eq_getElem?_getD]
  · rw [optAddEntry_nat_ge _ _ _ _ (by omega)]
    rw [List.getD_eq_getElem?_getD, List.getElem?_set_ne (fun h => hne h.symm)]
    by_cases hi : i < t.options.length
    · rw [List.getElem?_append_left hi, ← List.getD_eq_getElem?_getD]
    · rw [List.getElem?_append_right (by omega)]
      rw [List.getElem?_replicate]
      have hnone : t.options[i]? = none := List.getElem?_eq_none (by omega)
      rw [List.getD_eq_getElem?_getD, hnone]
      by_cases hlt : i - t.options.length < j + 1 - t.options.length
      · rw [if_pos hlt]
        rfl
      · rw [if_neg hlt]

lemma addClone_dict_self (t : BiMappingList) (k : String) (bm : BiMapping)
    (j : Nat) :
    (addClone t k bm j).options.getD j [] =
      dictSet (t.options.getD j []) k (cloneBM bm j) := by
  unfold addClone
  by_cases hj : j < t.options.length
  · rw [optAddEntry_nat_lt _ _ _ _ hj]
    rw [List.getD_eq_getElem?_getD, List.getElem?_set_eq_of_lt _ (by simpa using hj)]
    rfl
  · rw [optAddEntry_nat_ge _ _ _ _ (by omega)]
    have hjlen : j < (t.options ++
        List.replicate (j + 1 - t.options.length) ([] : List (String × BiMapping))).length := by
      simp only [List.length_append, List.length_replicate]
      omega
    rw [List.getD_eq_getElem?_getD, List.getElem?_set_eq_of_lt _ hjlen]
    have : t.options.getD j [] = [] := List.getD_eq_default _ _ (by omega)
    rw [this]
    rfl

/-- The `mappings[key].phase = 0` step as a whole-state operation. -/
def setPhaseStep (t : BiMappingList) (i : Nat) (k : String) : BiMappingList :=
  ⟨t.options.set i (setPhaseZero (t.options.getD i []) k)⟩

lemma setPhaseStep_length (t : BiMappingList) (i : Nat) (k : String) :
    (setPhaseStep t i k).options.length = t.options.length := by
  simp [setPhaseStep]

lemma setPhaseStep_dict_eq (t : BiMappingList) (i : Nat) (k : String) (j : Nat)
    (hne : j ≠ i) :
    (setPhaseStep t i k).options.getD j [] = t.options.getD j [] := by
  unfold setPhaseStep
  rw [List.getD_eq_getElem?_getD, List.getElem?_set_ne (fun h => hne h.symm),
    ← List.getD_eq_getElem?_getD]

lemma setPhaseStep_dict_self (t : BiMappingList) (i : Nat) (k : String)
    (hi : i < t.options.length) :
    (setPhaseStep t i k).options.getD i [] =
      setPhaseZero (t.options.getD i []) k := by
  unfold setPhaseStep
  rw [List.getD_eq_getElem?_getD, List.getElem?_set_eq_of_lt _ (by simpa using hi)]
  rfl

lemma setPhaseZero_keys (d : List (String × BiMapping)) (k : String) :
    (setPhaseZero d k).map Prod.fst = d.map Prod.fst := by
  unfold setPhaseZero
  rw [List.map_map]
  apply List.map_congr_left
  intro e _
  by_cases h : e.1 = k
  · simp [h]
  · simp [h]

lemma dictGet_setPhaseZero_self (d : List (String × BiMapping)) (k : String) :
    dictGet (setPhaseZero d k) k =
      (dictGet d k).map (fun bm => { bm with phase := 0 }) := by
  induction d with
  | nil => rfl
  | cons a rest ih =>
    unfold setPhaseZero at ih ⊢
    simp only [List.map_cons]
    by_cases ha : a.1 = k
    · rw [if_pos ha, dictGet_cons, dictGet_cons, if_pos ha,
        if_pos (show ((a.1, { a.2 with phase := 0 }) : String × BiMapping).1 = k from ha)]
      rfl
    · rw [if_neg ha, dictGet_cons, dictGet_cons, if_neg ha, if_neg ha]
      exact ih

lemma dictGet_setPhaseZero_ne (d : List (String × BiMapping)) (k k' : String)
    (hne : k' ≠ k) : dictGet (setPhaseZero d k) k' = dictGet d k' := by
  induction d with
  | nil => rfl
  | cons a rest ih =>
    unfold setPhaseZero at ih ⊢
    simp only [List.map_cons]
    by_cases ha : a.1 = k
    · have ha' : ¬ (a.1 = k') := fun h => hne (h.symm.trans ha)
      rw [if_pos ha, dictGet_cons, dictGet_cons,
        if_neg (show ¬ (((a.1, { a.2 with phase := 0 }) : String × BiMapping).1 = k') from ha'),
        if_neg ha']
      exact ih
    · rw [if_neg ha, dictGet_cons, dictGet_cons]
      by_cases ha' : a.1 = k'
      · rw [if_pos ha', if_pos ha']
      · rw [if_neg ha', if_neg ha']
        exact ih

lemma setPhaseZero_id (d : List (String × BiMapping)) (k : String)
    (hnd : (d.map Prod.fst).Nodup)
    (h : ∀ bm, dictGet d k = some bm → bm.phase = 0) : setPhaseZero d k = d := by
  unfold setPhaseZero
  induction d with
  | nil => rfl
  | cons a rest ih =>
    simp only [List.map_cons, List.nodup_cons] at hnd
    simp only [List.map_cons]
    by_cases ha : a.1 = k
    · have hget : dictGet (a :: rest) k = some a.2 := by
        rw [dictGet_cons, if_pos ha]
      have hph := h a.2 hget
      have ha2 : { a.2 with phase := 0 } = a.2 := by
        obtain ⟨k0, bm0⟩ := a
        cases bm0
        simp only at hph
        simp [hph]
      rw [if_pos ha, ha2]
      have hcong : ∀ e ∈ rest, (if e.1 = k then (e.1, { e.2 with phase := 0 }) else e) = id e := by
        intro e he
        rw [if_neg]
        · rfl
        · intro hek
          exact hnd.1 (List.mem_map.mpr ⟨e, he, hek.trans ha.symm⟩)
      rw [List.map_congr_left hcong, List.map_id]
    · rw [if_neg ha]
      have hget' : dictGet rest k = dictGet (a :: rest) k := by
        rw [dictGet_cons, if_neg ha]
      rw [ih hnd.2 (fun bm hbm => h bm (by rw [← hget']; exact hbm))]

lemma list_set_getD_self {α : Type} (l : List α) (i : Nat) (d : α)
    (hi : i < l.length) : l.set i (l.getD i d) = l := by
  apply List.ext_getElem?
  intro j
  by_cases hj : j = i
  · subst hj
    rw [List.getElem?_set_eq_of_lt _ hi, List.getD_eq_getElem _ _ hi,
      List.getElem?_eq_getElem hi]
  · rw [List.getElem?_set_ne (fun h => hj h.symm)]

/-! entryGet / dictKeys / WfDicts facts for the two atomic fill operations. -/

lemma entryGet_addClone_self (u : BiMappingList) (k : String) (bm : BiMapping)
    (j : Nat) : entryGet (addClone u k bm j) j k = some (cloneBM bm j) := by
  unfold entryGet
  rw [addClone_dict_self, dictGet_dictSet_self]

lemma entryGet_addClone_ne_dict (u : BiMappingList) (k : String) (bm : BiMapping)
    (j j' : Nat) (hne : j' ≠ j) (k' : String) :
    entryGet (addClone u k bm j) j' k' = entryGet u j' k' := by
  unfold entryGet
  rw [addClone_dict_eq _ _ _ _ _ hne]

lemma entryGet_addClone_ne_key (u : BiMappingList) (k : String) (bm : BiMapping)
    (j : Nat) (k' : String) (hne : k' ≠ k) :
    entryGet (addClone u k bm j) j k' = entryGet u j k' := by
  unfold entryGet
  rw [addClone_dict_self, dictGet_dictSet_ne _ _ _ _ hne]

lemma dictKeys_addClone_self (u : BiMappingList) (k : String) (bm : BiMapping)
    (j : Nat) :
    dictKeys (addClone u k bm j) j =
      if k ∈ dictKeys u j then dictKeys u j else dictKeys u j ++ [k] := by
  unfold dictKeys
  rw [addClone_dict_self]
  by_cases hmem : k ∈ (u.options.getD j []).map Prod.fst
  · rw [if_pos hmem, dictSet_keys _ _ _ hmem]
  · rw [if_neg hmem, dictSet_keys_not_mem _ _ _ hmem]

lemma dictKeys_addClone_ne (u : BiMappingList) (k : String) (bm : BiMapping)
    (j j' : Nat) (hne : j' ≠ j) :
    dictKeys (addClone u k bm j) j' = dictKeys u j' := by
  unfold dictKeys
  rw [addClone_dict_eq _ _ _ _ _ hne]

lemma wf_addClone (u : BiMappingList) (k : String) (bm : BiMapping) (j : Nat)
    (hwf : WfDicts u) : WfDicts (addClone u k bm j) := by
  intro j'
  by_cases hne : j' = j
  · subst hne
    rw [dictKeys_addClone_self]
    by_cases hmem : k ∈ dictKeys u j'
    · rw [if_pos hmem]
      exact hwf j'
    · rw [if_neg hmem]
      refine List.Nodup.append (hwf j') (List.nodup_singleton k) ?_
      intro a ha hak
      rw [List.mem_singleton] at hak
      exact hmem (hak ▸ ha)
  · rw [dictKeys_addClone_ne _ _ _ _ _ hne]
    exact hwf j'

lemma entryGet_setPhaseStep_self (t : BiMappingList) (i : Nat) (k : String)
    (hi : i < t.options.length) :
    entryGet (setPhaseStep t i k) i k =
      (entryGet t i k).map (fun bm => { bm with phase := 0 }) := by
  unfold entryGet
  rw [setPhaseStep_dict_self _ _ _ hi, dictGet_setPhaseZero_self]

lemma entryGet_setPhaseStep_ne_dict (t : BiMappingList) (i : Nat) (k : String)
    (j : Nat) (hne : j ≠ i) (k' : String) :
    entryGet (setPhaseStep t i k) j k' = entryGet t j k' := by
  unfold entryGet
  rw [setPhaseStep_dict_eq _ _ _ _ hne]

lemma entryGet_setPhaseStep_ne_key (t : BiMappingList) (i : Nat) (k : String)
    (k' : String) (hne : k' ≠ k) (hi : i < t.options.length) :
    entryGet (setPhaseStep t i k) i k' = entryGet t i k' := by
  unfold entryGet
  rw [setPhaseStep_dict_self _ _ _ hi, dictGet_setPhaseZero_ne _ _ _ hne]

lemma dictKeys_setPhaseStep (t : BiMappingList) (i : Nat) (k : String) (j : Nat) :
    dictKeys (setPhaseStep t i k) j = dictKeys t j := by
  by_cases hne : j = i
  · subst hne
    by_cases hj : j < t.options.length
    · unfold dictKeys
      rw [setPhaseStep_dict_self _ _ _ hj, setPhaseZero_keys]
    · unfold dictKeys setPhaseStep
      rw [List.getD_eq_getElem?_getD, List.getD_eq_getElem?_getD]
      rw [List.getElem?_eq_none (by simpa using hj),
        List.getElem?_eq_none (by omega)]
  · unfold dictKeys
    rw [setPhaseStep_dict_eq _ _ _ _ hne]

lemma wf_setPhaseStep (t : BiMappingList) (i : Nat) (k : String)
    (hwf : WfDicts t) : WfDicts (setPhaseStep t i k) := by
  intro j
  rw [dictKeys_setPhaseStep]
  exact hwf j

/-- The body of the `for i_phase in range(n_phases)` loop, named for the
fold lemmas. -/
def phaseStepF (i : Nat) (k : String) : BiMappingList → Nat → BiMappingList :=
  fun acc j =>
    if j = 0 then ⟨acc.options.set i (setPhaseZero (acc.options.getD i []) k)⟩
    else
      match dictGet (acc.options.getD i []) k with
      | some bm => addClone acc k bm j
      | none => acc

lemma phaseLoop_eq (t : BiMappingList) (i : Nat) (k : String) (n : Nat) :
    phaseLoop t i k n = (List.range n).foldl (phaseStepF i k) t := rfl

/-- The clone written at each phase only depends on the entry's two
`Mapping`s. -/
def mapsEq (a b : BiMapping) : Prop :=
  a.to_second = b.to_second ∧ a.to_first = b.to_first

lemma cloneBM_congr {a b : BiMapping} (h : mapsEq a b) (j : Nat) :
    cloneBM a j = cloneBM b j := by
  unfold cloneBM
  rw [h.1, h.2]

lemma cloneFold_spec (i : Nat) (k : String) (bm0 : BiMapping) :
    ∀ (m s : Nat) (u : BiMappingList), 1 ≤ s → i < u.options.length →
    (∃ cur, entryGet u i k = some cur ∧ mapsEq cur bm0) → WfDicts u →
    (m = 0 → ((List.range' s m).foldl (phaseStepF i k) u).options.length =
        u.options.length) ∧
    (1 ≤ m → ((List.range' s m).foldl (phaseStepF i k) u).options.length =
        max u.options.length (s + m)) ∧
    (∀ j, s ≤ j → j < s + m →
      entryGet ((List.range' s m).foldl (phaseStepF i k) u) j k =
        some (cloneBM bm0 j)) ∧
    (∀ j k', k' ≠ k →
      entryGet ((List.range' s m).foldl (phaseStepF i k) u) j k' = entryGet u j k') ∧
    (∀ j, ¬ (s ≤ j ∧ j < s + m) →
      entryGet ((List.range' s m).foldl (phaseStepF i k) u) j k = entryGet u j k) ∧
    (∀ j, ¬ (s ≤ j ∧ j < s + m) →
      dictKeys ((List.range' s m).foldl (phaseStepF i k) u) j = dictKeys u j) ∧
    (∀ j, s ≤ j → j < s + m →
      dictKeys ((List.range' s m).foldl (phaseStepF i k) u) j =
        if k ∈ dictKeys u j then dictKeys u j else dictKeys u j ++ [k]) ∧
    WfDicts ((List.range' s m).foldl (phaseStepF i k) u) := by
  intro m
  induction m with
  | zero =>
    intro s u hs hi hcur hwf
    refine ⟨fun _ => rfl, fun h => absurd h (by omega), ?_, fun j k' _ => rfl,
      fun j _ => rfl, fun j _ => rfl, ?_, hwf⟩
    · intro j h1 h2
      omega
    · intro j h1 h2
      omega
  | succ m ih =>
    intro s u hs hi hcur hwf
    obtain ⟨cur, hcurGet, hcurMaps⟩ := hcur
    rw [List.range'_succ, List.foldl_cons]
    have hstep : phaseStepF i k u s = addClone u k cur s := by
      unfold phaseStepF
      rw [if_neg (by omega)]
      unfold entryGet at hcurGet
      rw [hcurGet]
    rw [hstep]
    set u1 := addClone u k cur s with hu1
    have hlen1 : u1.options.length = max u.options.length (s + 1) :=
      addClone_options_length u k cur s
    have hi1 : i < u1.options.length := by omega
    have hcur1 : ∃ cur', entryGet u1 i k = some cur' ∧ mapsEq cur' bm0 := by
      by_cases his : i = s
      · subst his
        exact ⟨cloneBM cur i, entryGet_addClone_self u k cur i,
          ⟨hcurMaps.1, hcurMaps.2⟩⟩
      · exact ⟨cur, by rw [entryGet_addClone_ne_dict u k cur s i his]; exact hcurGet,
          hcurMaps⟩
    have hwf1 : WfDicts u1 := wf_addClone u k cur s hwf
    obtain ⟨ihlen0, ihlen1, ihw, ihk', ihout, ihkeysout, ihkeysin, ihwf⟩ :=
      ih (s + 1) u1 (by omega) hi1 hcur1 hwf1
    refine ⟨fun h => absurd h (by omega), ?_, ?_, ?_, ?_, ?_, ?_, ihwf⟩
    · intro _
      by_cases hm : m = 0
      · subst hm
        rw [ihlen0 rfl, hlen1]
      · rw [ihlen1 (by omega), hlen1]
        omega
    · intro j h1 h2
      by_cases hjs : j = s
      · subst hjs
        rw [ihout j (by omega)]
        rw [entryGet_addClone_self, cloneBM_congr hcurMaps]
      · rw [ihw j (by omega) (by omega)]
    · intro j k' hk'
      rw [ihk' j k' hk']
      by_cases hjs : j = s
      · subst hjs
        rw [entryGet_addClone_ne_key u k cur j k' hk']
      · rw [entryGet_addClone_ne_dict u k cur s j hjs]
    · intro j hj
      rw [ihout j (by omega)]
      rw [entryGet_addClone_ne_dict u k cur s j (by omega)]
    · intro j hj
      rw [ihkeysout j (by omega)]
      rw [dictKeys_addClone_ne u k cur s j (by omega)]
    · intro j h1 h2
      by_cases hjs : j = s
      · subst hjs
        rw [ihkeysout j (by omega), dictKeys_addClone_self]
      · rw [ihkeysin j (by omega) (by omega), dictKeys_addClone_ne u k cur s j hjs]

/-- Full characterization of one automatic mapping's `for i_phase in range(n)`
loop (`n ≥ 1`): the entry's phase is pinned to 0, then its pair of `Mapping`s
is re-registered (automatic flag `False`, phase `j`) at every phase
`j = 1..n-1`; no other key and no other slot changes. -/
lemma phaseLoop_spec (t : BiMappingList) (i : Nat) (k : String) (n : Nat)
    (bm0 : BiMapping) (hi : i < t.options.length)
    (hbm : entryGet t i k = some bm0) (hn : 1 ≤ n) (hwf : WfDicts t) :
    (phaseLoop t i k n).options.length = max t.options.length n ∧
    (∀ j, 1 ≤ j → j < n →
      entryGet (phaseLoop t i k n) j k = some (cloneBM bm0 j)) ∧
    (∀ j k', k' ≠ k → entryGet (phaseLoop t i k n) j k' = entryGet t j k') ∧
    (∀ j, j ≠ i → ¬ (1 ≤ j ∧ j < n) →
      entryGet (phaseLoop t i k n) j k = entryGet t j k) ∧
    (¬ (1 ≤ i ∧ i < n) →
      entryGet (phaseLoop t i k n) i k = some { bm0 with phase := 0 }) ∧
    (∀ j, ¬ (1 ≤ j ∧ j < n) → dictKeys (phaseLoop t i k n) j = dictKeys t j) ∧
    (∀ j, 1 ≤ j → j < n → dictKeys (phaseLoop t i k n) j =
      if k ∈ dictKeys t j then dictKeys t j else dictKeys t j ++ [k]) ∧
    WfDicts (phaseLoop t i k n) := by
  have hsplit : phaseLoop t i k n =
      (List.range' 1 (n - 1)).foldl (phaseStepF i k) (setPhaseStep t i k) := by
    obtain ⟨m, rfl⟩ : ∃ m, n = m + 1 := ⟨n - 1, by omega⟩
    rw [phaseLoop_eq, List.range_eq_range', List.range'_succ 0 m 1, List.foldl_cons]
    have hstep0 : phaseStepF i k t 0 = setPhaseStep t i k := by
      unfold phaseStepF setPhaseStep
      rw [if_pos rfl]
    rw [hstep0]
    simp only [Nat.zero_add, Nat.add_sub_cancel]
  set u0 := setPhaseStep t i k with hu0
  have hlen0 : u0.options.length = t.options.length := setPhaseStep_length t i k
  have hi0 : i < u0.options.length := by omega
  have hcur0 : entryGet u0 i k = some { bm0 with phase := 0 } := by
    rw [hu0, entryGet_setPhaseStep_self t i k hi, hbm]
    rfl
  have hwf0 : WfDicts u0 := wf_setPhaseStep t i k hwf
  obtain ⟨flen0, flen1, fw, fk', fout, fkeysout, fkeysin, fwf⟩ :=
    cloneFold_spec i k bm0 (n - 1) 1 u0 (by omega) hi0
      ⟨{ bm0 with phase := 0 }, hcur0, ⟨rfl, rfl⟩⟩ hwf0
  rw [hsplit]
  refine ⟨?_, ?_, ?_, ?_, ?_, ?_, ?_, fwf⟩
  · by_cases hn1 : n = 1
    · rw [flen0 (by omega), hlen0]
      omega
    · rw [flen1 (by omega), hlen0]
      omega
  · intro j h1 h2
    exact fw j (by omega) (by omega)
  · intro j k' hk'
    rw [fk' j k' hk']
    by_cases hji : j = i
    · subst hji
      rw [hu0, entryGet_setPhaseStep_ne_key t j k k' hk' hi]
    · rw [hu0, entryGet_setPhaseStep_ne_dict t i k j hji]
  · intro j hji hjr
    rw [fout j (by omega)]
    rw [hu0, entryGet_setPhaseStep_ne_dict t i k j hji]
  · intro hir
    rw [fout i (by omega), hcur0]
  · intro j hjr
    rw [fkeysout j (by omega), hu0, dictKeys_setPhaseStep]
  · intro j h1 h2
    rw [fkeysin j (by omega) (by omega), hu0, dictKeys_setPhaseStep]

/-- The body of the `for key in mappings` loop, named for the fold lemmas. -/
def dictStepF (i n : Nat) : BiMappingList → String → BiMappingList :=
  fun acc k =>
    match dictGet (acc.options.getD i []) k with
    | some bm => if bm.automatic_multiple_phase then phaseLoop acc i k n else acc
    | none => acc

lemma dictLoop_eq (l : BiMappingList) (i n : Nat) :
    dictLoop l i n = (dictKeys l i).foldl (dictStepF i n) l := rfl

/-- An automatic (flagged) entry at phase dict `j`. -/
def flaggedAt (t : BiMappingList) (j : Nat) (k : String) : Prop :=
  ∃ bm, entryGet t j k = some bm ∧ bm.automatic_multiple_phase = true

lemma entryGet_mem_keys (t : BiMappingList) (j : Nat) (k : String) (bm : BiMapping)
    (h : entryGet t j k = some bm) : k ∈ dictKeys t j := by
  by_contra hmem
  rw [entryGet, (dictGet_eq_none_iff _ _).mpr hmem] at h
  cases h

lemma flaggedAt_mem_keys (t : BiMappingList) (j : Nat) (k : String)
    (h : flaggedAt t j k) : k ∈ dictKeys t j := by
  obtain ⟨bm, hbm, -⟩ := h
  exact entryGet_mem_keys t j k bm hbm

lemma bm_eta_phase0 (bm : BiMapping) (h : bm.phase = 0) :
    { bm with phase := 0 } = bm := by
  cases bm
  simp only at h
  simp [h]

/-- Invariant of the `for key in mappings` fold at phase dict `i`:
`ks0` is the snapshot of the dict's keys, `done` the processed prefix. -/
structure DictInv (n i len0 : Nat) (ks0 done : List String)
    (u : BiMappingList) : Prop where
  wf : WfDicts u
  hi : i < u.options.length
  lenub : u.options.length ≤ max len0 n
  keysi : dictKeys u i = ks0
  noMid : ∀ j k, 1 ≤ j → j < n → j < i → ¬ flaggedAt u j k
  noMidSelf : 1 ≤ i → i < n → ∀ k ∈ done, ¬ flaggedAt u i k
  ph0 : ∀ j k bm, j < i → entryGet u j k = some bm →
    bm.automatic_multiple_phase = true → bm.phase = 0
  ph0Self : ∀ k bm, k ∈ done → entryGet u i k = some bm →
    bm.automatic_multiple_phase = true → bm.phase = 0
  slots : ∀ k, ((∃ j, j < i ∧ flaggedAt u j k) ∨ (k ∈ done ∧ flaggedAt u i k)) →
    n ≤ u.options.length ∧
    ∃ m bmm, (m < i ∨ (m = i ∧ k ∈ done)) ∧ entryGet u m k = some bmm ∧
      bmm.automatic_multiple_phase = true ∧
      (∀ j', ((j' < i ∧ flaggedAt u j' k) ∨
        (j' = i ∧ k ∈ done ∧ flaggedAt u i k)) → j' ≤ m) ∧
      (∀ j', 1 ≤ j' → j' < n → entryGet u j' k = some (cloneBM bmm j'))

lemma dictStep_inv (n i len0 : Nat) (ks0 done : List String) (u : BiMappingList)
    (k : String) (hn : 1 ≤ n) (inv : DictInv n i len0 ks0 done u) :
    DictInv n i len0 ks0 (done ++ [k]) (dictStepF i n u k) := by
  rcases hget : entryGet u i k with _ | bm
  · have hstep : dictStepF i n u k = u := by
      unfold dictStepF
      unfold entryGet at hget
      rw [hget]
    rw [hstep]
    have hnotflag : ¬ flaggedAt u i k := by
      rintro ⟨bm, hbm, -⟩
      rw [hget] at hbm
      cases hbm
    refine { inv with
      noMidSelf := ?_, ph0Self := ?_, slots := ?_ }
    · intro h1 h2 k' hk'
      rcases List.mem_append.mp hk' with h | h
      · exact inv.noMidSelf h1 h2 k' h
      · rw [List.mem_singleton] at h
        subst h
        exact hnotflag
    · intro k' bm' hk' hbm' hfl
      rcases List.mem_append.mp hk' with h | h
      · exact inv.ph0Self k' bm' h hbm' hfl
      · rw [List.mem_singleton] at h
        subst h
        rw [hget] at hbm'
        cases hbm'
    · intro k' hact
      have hact' : (∃ j, j < i ∧ flaggedAt u j k') ∨ (k' ∈ done ∧ flaggedAt u i k') := by
        rcases hact with h | ⟨hk', hfl⟩
        · exact .inl h
        · rcases List.mem_append.mp hk' with h | h
          · exact .inr ⟨h, hfl⟩
          · rw [List.mem_singleton] at h
            subst h
            exact absurd hfl hnotflag
      obtain ⟨hlen, m, bmm, hm, hbmm, hflg, hmax, hslots⟩ := inv.slots k' hact'
      refine ⟨hlen, m, bmm, ?_, hbmm, hflg, ?_, hslots⟩
      · rcases hm with h | ⟨h, h2⟩
        · exact .inl h
        · exact .inr ⟨h, List.mem_append_left _ h2⟩
      · intro j' hj'
        apply hmax
        rcases hj' with h | ⟨h1, h2, h3⟩
        · exact .inl h
        · rcases List.mem_append.mp h2 with h | h
          · exact .inr ⟨h1, h, h3⟩
          · rw [List.mem_singleton] at h
            subst h
            exact absurd h3 hnotflag
  · by_cases hfl : bm.automatic_multiple_phase = true
    · -- the flagged case: the phase loop runs
      have hstep : dictStepF i n u k = phaseLoop u i k n := by
        unfold dictStepF
        unfold entryGet at hget
        rw [hget]
        show (if bm.automatic_multiple_phase = true then phaseLoop u i k n else u) =
          phaseLoop u i k n
        rw [if_pos hfl]
      rw [hstep]
      obtain ⟨plen, pw, pk', pout, pself, pkeysout, pkeysin, pwf⟩ :=
        phaseLoop_spec u i k n bm inv.hi hget hn inv.wf
      have hhi := inv.hi
      have hlub := inv.lenub
      have hnle : n ≤ (phaseLoop u i k n).options.length := by
        rw [plen]
        omega
      have hkmem : k ∈ dictKeys u i := entryGet_mem_keys u i k bm hget
      have hflagU : flaggedAt u i k := ⟨bm, hget, hfl⟩
      -- entry and flag transfer for keys other than k
      have hk'p : ∀ j k', k' ≠ k → (flaggedAt (phaseLoop u i k n) j k' ↔ flaggedAt u j k') := by
        intro j k' hne
        unfold flaggedAt
        rw [pk' j k' hne]
      refine { wf := pwf, hi := by rw [plen]; omega, lenub := by rw [plen]; omega, keysi := ?_,
               noMid := ?_, noMidSelf := ?_, ph0 := ?_, ph0Self := ?_, slots := ?_ }
      · by_cases hmid : 1 ≤ i ∧ i < n
        · rw [pkeysin i hmid.1 hmid.2, if_pos hkmem]
          exact inv.keysi
        · rw [pkeysout i hmid]
          exact inv.keysi
      · intro j k' h1 h2 h3
        by_cases hne : k' = k
        · subst hne
          rintro ⟨bm', hbm', hfl'⟩
          rw [pw j h1 h2] at hbm'
          injection hbm' with he
          rw [← he] at hfl'
          cases hfl'
        · rw [hk'p j k' hne]
          exact inv.noMid j k' h1 h2 h3
      · intro h1 h2 k' hk'
        by_cases hne : k' = k
        · subst hne
          rintro ⟨bm', hbm', hfl'⟩
          rw [pw i h1 h2] at hbm'
          injection hbm' with he
          rw [← he] at hfl'
          cases hfl'
        · rw [hk'p i k' hne]
          rcases List.mem_append.mp hk' with h | h
          · exact inv.noMidSelf h1 h2 k' h
          · rw [List.mem_singleton] at h
            exact absurd h hne
      · intro j k' bm' hj hbm' hfl'
        by_cases hne : k' = k
        · subst hne
          by_cases hmid : 1 ≤ j ∧ j < n
          · rw [pw j hmid.1 hmid.2] at hbm'
            injection hbm' with he
            rw [← he] at hfl'
            cases hfl'
          · rw [pout j (by omega) hmid] at hbm'
            exact inv.ph0 j k' bm' hj hbm' hfl'
        · rw [pk' j k' hne] at hbm'
          exact inv.ph0 j k' bm' hj hbm' hfl'
      · intro k' bm' hk' hbm' hfl'
        by_cases hne : k' = k
        · subst hne
          by_cases hmid : 1 ≤ i ∧ i < n
          · rw [pw i hmid.1 hmid.2] at hbm'
            injection hbm' with he
            rw [← he] at hfl'
            cases hfl'
          · rw [pself hmid] at hbm'
            injection hbm' with he
            rw [← he]
        · rw [pk' i k' hne] at hbm'
          rcases List.mem_append.mp hk' with h | h
          · exact inv.ph0Self k' bm' h hbm' hfl'
          · rw [List.mem_singleton] at h
            exact absurd h hne
      · intro k' hact
        by_cases hne : k' = k
        · subst hne
          by_cases hmid : 1 ≤ i ∧ i < n
          · -- middle dict: the actor self-clobbers; no prior actor can exist
            exfalso
            rcases hact with ⟨j, hj, hflj⟩ | ⟨-, hfli⟩
            · by_cases hjmid : 1 ≤ j ∧ j < n
              · obtain ⟨bm', hbm', hfl'⟩ := hflj
                rw [pw j hjmid.1 hjmid.2] at hbm'
                injection hbm' with he
                rw [← he] at hfl'
                cases hfl'
              · -- j < i and not middle: j = 0; a flagged (0,k) would have
                -- already turned (i,k) into an unflagged clone
                have hj0 : j = 0 := by omega
                subst hj0
                have hflu : flaggedAt u 0 k' := by
                  obtain ⟨bm', hbm', hfl'⟩ := hflj
                  rw [pout 0 (by omega) (by omega)] at hbm'
                  exact ⟨bm', hbm', hfl'⟩
                obtain ⟨-, m, bmm, -, -, -, -, hslots⟩ :=
                  inv.slots k' (.inl ⟨0, hj, hflu⟩)
                have := hslots i hmid.1 hmid.2
                rw [hget] at this
                injection this with he
                rw [he] at hfl
                cases hfl
            · obtain ⟨bm', hbm', hfl'⟩ := hfli
              rw [pw i hmid.1 hmid.2] at hbm'
              injection hbm' with he
              rw [← he] at hfl'
              cases hfl'
          · -- survivor dict: the entry itself is the new rightmost actor
            refine ⟨hnle, i, { bm with phase := 0 }, .inr ⟨rfl, List.mem_append_right _ (List.mem_singleton_self k')⟩,
              by rw [pself hmid], by simpa using hfl, ?_, ?_⟩
            · intro j' hj'
              rcases hj' with ⟨h1, hflj⟩ | ⟨h1, -, -⟩
              · -- previous actors are at most i
                omega
              · omega
            · intro j' h1 h2
              rw [pw j' h1 h2]
              rfl
        · -- other keys: everything transfers unchanged
          have hact' : (∃ j, j < i ∧ flaggedAt u j k') ∨ (k' ∈ done ∧ flaggedAt u i k') := by
            rcases hact with ⟨j, hj, hflj⟩ | ⟨hk', hfli⟩
            · exact .inl ⟨j, hj, (hk'p j k' hne).mp hflj⟩
            · rcases List.mem_append.mp hk' with h | h
              · exact .inr ⟨h, (hk'p i k' hne).mp hfli⟩
              · rw [List.mem_singleton] at h
                exact absurd h hne
          obtain ⟨hlen, m, bmm, hm, hbmm, hflg, hmax, hslots⟩ := inv.slots k' hact'
          refine ⟨hnle, m, bmm, ?_, by rw [pk' m k' hne]; exact hbmm, hflg, ?_, ?_⟩
          · rcases hm with h | ⟨h, h2⟩
            · exact .inl h
            · exact .inr ⟨h, List.mem_append_left _ h2⟩
          · intro j' hj'
            apply hmax
            rcases hj' with ⟨h1, hflj⟩ | ⟨h1, h2, h3⟩
            · exact .inl ⟨h1, (hk'p j' k' hne).mp hflj⟩
            · rcases List.mem_append.mp h2 with h | h
              · exact .inr ⟨h1, h, (hk'p i k' hne).mp h3⟩
              · rw [List.mem_singleton] at h
                exact absurd h hne
          · intro j' h1 h2
            rw [pk' j' k' hne]
            exact hslots j' h1 h2
    · -- present but not flagged: no action
      have hstep : dictStepF i n u k = u := by
        unfold dictStepF
        unfold entryGet at hget
        rw [hget]
        show (if bm.automatic_multiple_phase = true then phaseLoop u i k n else u) = u
        rw [if_neg hfl]
      rw [hstep]
      have hnotflag : ¬ flaggedAt u i k := by
        rintro ⟨bm', hbm', hfl'⟩
        rw [hget] at hbm'
        injection hbm' with he
        rw [← he] at hfl'
        exact hfl hfl'
      refine { inv with
        noMidSelf := ?_, ph0Self := ?_, slots := ?_ }
      · intro h1 h2 k' hk'
        rcases List.mem_append.mp hk' with h | h
        · exact inv.noMidSelf h1 h2 k' h
        · rw [List.mem_singleton] at h
          subst h
          exact hnotflag
      · intro k' bm' hk' hbm' hfl'
        rcases List.mem_append.mp hk' with h | h
        · exact inv.ph0Self k' bm' h hbm' hfl'
        · rw [List.mem_singleton] at h
          subst h
          rw [hget] at hbm'
          injection hbm' with he
          rw [← he] at hfl'
          exact absurd hfl' hfl
      · intro k' hact
        have hact' : (∃ j, j < i ∧ flaggedAt u j k') ∨ (k' ∈ done ∧ flaggedAt u i k') := by
          rcases hact with h | ⟨hk', hfli⟩
          · exact .inl h
          · rcases List.mem_append.mp hk' with h | h
            · exact .inr ⟨h, hfli⟩
            · rw [List.mem_singleton] at h
              subst h
              exact absurd hfli hnotflag
        obtain ⟨hlen, m, bmm, hm, hbmm, hflg, hmax, hslots⟩ := inv.slots k' hact'
        refine ⟨hlen, m, bmm, ?_, hbmm, hflg, ?_, hslots⟩
        · rcases hm with h | ⟨h, h2⟩
          · exact .inl h
          · exact .inr ⟨h, List.mem_append_left _ h2⟩
        · intro j' hj'
          apply hmax
          rcases hj' with h | ⟨h1, h2, h3⟩
          · exact .inl h
          · rcases List.mem_append.mp h2 with h | h
            · exact .inr ⟨h1, h, h3⟩
            · rw [List.mem_singleton] at h
              subst h
              exact absurd h3 hnotflag

lemma dictFold_inv (n i len0 : Nat) (ks0 : List String) (hn : 1 ≤ n) :
    ∀ (rem done : List String) (u : BiMappingList),
    DictInv n i len0 ks0 done u →
    DictInv n i len0 ks0 (done ++ rem) (rem.foldl (dictStepF i n) u) := by
  intro rem
  induction rem with
  | nil =>
    intro done u h
    simpa using h
  | cons k rest ih =>
    intro done u h
    rw [List.foldl_cons]
    have h1 := dictStep_inv n i len0 ks0 done u k hn h
    have h2 := ih (done ++ [k]) _ h1
    rw [List.append_assoc] at h2
    simpa using h2

/-- Invariant of the outer `for mappings in self.options` loop after the
dicts `0..i-1` have been processed. -/
structure FillInv (n i len0 : Nat) (t : BiMappingList) : Prop where
  wf : WfDicts t
  lenub : t.options.length ≤ max len0 n
  noMid : ∀ j k, 1 ≤ j → j < n → j < i → ¬ flaggedAt t j k
  ph0 : ∀ j k bm, j < i → entryGet t j k = some bm →
    bm.automatic_multiple_phase = true → bm.phase = 0
  slots : ∀ k, (∃ j, j < i ∧ flaggedAt t j k) →
    n ≤ t.options.length ∧
    ∃ m bmm, m < i ∧ entryGet t m k = some bmm ∧
      bmm.automatic_multiple_phase = true ∧
      (∀ j', j' < i → flaggedAt t j' k → j' ≤ m) ∧
      (∀ j', 1 ≤ j' → j' < n → entryGet t j' k = some (cloneBM bmm j'))

lemma dictLoop_fillInv (n len0 i : Nat) (t : BiMappingList) (hn : 1 ≤ n)
    (hinv : FillInv n i len0 t) (hi : i < t.options.length) :
    FillInv n (i + 1) len0 (dictLoop t i n) := by
  have h0 : DictInv n i len0 (dictKeys t i) [] t := by
    refine ⟨hinv.wf, hi, hinv.lenub, rfl, hinv.noMid, ?_, hinv.ph0, ?_, ?_⟩
    · intro _ _ k hk
      cases hk
    · intro k bm hk
      cases hk
    · intro k hact
      rcases hact with h | ⟨hk, -⟩
      · obtain ⟨hlen, m, bmm, hm, hbmm, hflg, hmax, hslots⟩ := hinv.slots k h
        refine ⟨hlen, m, bmm, .inl hm, hbmm, hflg, ?_, hslots⟩
        intro j' hj'
        rcases hj' with ⟨h1, h2⟩ | ⟨-, h2, -⟩
        · exact hmax j' h1 h2
        · cases h2
      · cases hk
  have hfold := dictFold_inv n i len0 (dictKeys t i) hn (dictKeys t i) [] t h0
  rw [List.nil_append] at hfold
  rw [← dictLoop_eq] at hfold
  have hkmem : ∀ k, flaggedAt (dictLoop t i n) i k → k ∈ dictKeys t i := by
    intro k hfl
    have := flaggedAt_mem_keys _ _ _ hfl
    rwa [hfold.keysi] at this
  refine { wf := hfold.wf, lenub := hfold.lenub, noMid := ?_, ph0 := ?_, slots := ?_ }
  · intro j k h1 h2 h3
    by_cases hji : j = i
    · subst hji
      intro hfl
      exact hfold.noMidSelf h1 h2 k (hkmem k hfl) hfl
    · exact hfold.noMid j k h1 h2 (by omega)
  · intro j k bm h1 h2 h3
    by_cases hji : j = i
    · subst hji
      exact hfold.ph0Self k bm (hkmem k ⟨bm, h2, h3⟩) h2 h3
    · exact hfold.ph0 j k bm (by omega) h2 h3
  · intro k hact
    have hact' : (∃ j, j < i ∧ flaggedAt (dictLoop t i n) j k) ∨
        (k ∈ dictKeys t i ∧ flaggedAt (dictLoop t i n) i k) := by
      obtain ⟨j, hj, hfl⟩ := hact
      by_cases hji : j = i
      · subst hji
        exact .inr ⟨hkmem k hfl, hfl⟩
      · exact .inl ⟨j, by omega, hfl⟩
    obtain ⟨hlen, m, bmm, hm, hbmm, hflg, hmax, hslots⟩ := hfold.slots k hact'
    refine ⟨hlen, m, bmm, by rcases hm with h | ⟨h, -⟩ <;> omega, hbmm, hflg, ?_, hslots⟩
    intro j' h1 h2
    by_cases hji : j' = i
    · subst hji
      exact hmax j' (.inr ⟨rfl, hkmem k h2, h2⟩)
    · exact hmax j' (.inl ⟨by omega, h2⟩)

lemma phaseStepF_len_lb (i : Nat) (k : String) (u : BiMappingList) (j : Nat) :
    u.options.length ≤ (phaseStepF i k u j).options.length := by
  unfold phaseStepF
  by_cases hj : j = 0
  · rw [if_pos hj]
    simp
  · rw [if_neg hj]
    rcases hbm : dictGet (u.options.getD i []) k with _ | bm
    · exact le_refl _
    · show u.options.length ≤ (addClone u k bm j).options.length
      have := addClone_options_length u k bm j
      omega

lemma foldl_phaseStepF_len_lb (i : Nat) (k : String) :
    ∀ (js : List Nat) (u : BiMappingList),
    u.options.length ≤ (js.foldl (phaseStepF i k) u).options.length := by
  intro js
  induction js with
  | nil =>
    intro u
    exact le_refl _
  | cons j rest ih =>
    intro u
    rw [List.foldl_cons]
    exact le_trans (phaseStepF_len_lb i k u j) (ih _)

lemma dictStepF_len_lb (i n : Nat) (u : BiMappingList) (k : String) :
    u.options.length ≤ (dictStepF i n u k).options.length := by
  unfold dictStepF
  rcases hbm : dictGet (u.options.getD i []) k with _ | bm
  · exact le_refl _
  · show u.options.length ≤
      (if bm.automatic_multiple_phase = true then phaseLoop u i k n else u).options.length
    by_cases hfl : bm.automatic_multiple_phase = true
    · rw [if_pos hfl, phaseLoop_eq]
      exact foldl_phaseStepF_len_lb i k _ u
    · rw [if_neg hfl]

lemma dictLoop_len_lb (t : BiMappingList) (i n : Nat) :
    t.options.length ≤ (dictLoop t i n).options.length := by
  rw [dictLoop_eq]
  generalize dictKeys t i = ks
  induction ks generalizing t with
  | nil => exact le_refl _
  | cons k rest ih =>
    rw [List.foldl_cons]
    exact le_trans (dictStepF_len_lb i n t k) (ih _)

lemma fillLoop_inv (n len0 : Nat) (hn : 1 ≤ n) :
    ∀ (fuel i : Nat) (t : BiMappingList), FillInv n i len0 t →
    max len0 n ≤ fuel + i →
    ∃ iEnd, FillInv n iEnd len0 (fillLoop t i n fuel) ∧
      (fillLoop t i n fuel).options.length ≤ iEnd := by
  intro fuel
  induction fuel with
  | zero =>
    intro i t hInv hfu
    refine ⟨i, hInv, ?_⟩
    have := hInv.lenub
    unfold fillLoop
    omega
  | succ fuel ih =>
    intro i t hInv hfu
    by_cases hlt : i < t.options.length
    · rw [fillLoop, if_pos hlt]
      exact ih (i + 1) _ (dictLoop_fillInv n len0 i t hn hInv hlt) (by omega)
    · rw [fillLoop, if_neg hlt]
      exact ⟨i, hInv, by omega⟩

lemma flaggedAt_lt_len (s : BiMappingList) (j : Nat) (k : String)
    (h : flaggedAt s j k) : j < s.options.length := by
  by_contra hge
  obtain ⟨bm, hbm, -⟩ := h
  rw [entryGet, List.getD_eq_default _ _ (by omega), dictGet_nil] at hbm
  cases hbm

/-- A state on which one fill pass has completed (`n ≥ 1`): no flagged entry
in any middle dict, every flagged entry has phase 0, and each key's middle
slots hold the clones of its rightmost flagged entry. -/
structure Stable (n : Nat) (s : BiMappingList) : Prop where
  wf : WfDicts s
  noMid : ∀ j k, 1 ≤ j → j < n → ¬ flaggedAt s j k
  ph0 : ∀ j k bm, entryGet s j k = some bm →
    bm.automatic_multiple_phase = true → bm.phase = 0
  slots : ∀ k, (∃ j, flaggedAt s j k) →
    n ≤ s.options.length ∧
    ∃ m bmm, entryGet s m k = some bmm ∧ bmm.automatic_multiple_phase = true ∧
      (∀ j', flaggedAt s j' k → j' ≤ m) ∧
      (∀ j', 1 ≤ j' → j' < n → entryGet s j' k = some (cloneBM bmm j'))

/-- One full fill pass leaves a stable state. -/
lemma fill_stable (l : BiMappingList) (n : Nat) (hn : 1 ≤ n) (hwf : WfDicts l) :
    Stable n (l.variable_mapping_fill_phases n) := by
  have h0 : FillInv n 0 l.options.length l := by
    refine ⟨hwf, le_max_left _ _, ?_, ?_, ?_⟩
    · intro j k _ _ h
      omega
    · intro j k bm h
      omega
    · rintro k ⟨j, hj, -⟩
      omega
  obtain ⟨iEnd, hInv, hle⟩ := fillLoop_inv n l.options.length hn
    (l.options.length + n) 0 l h0 (by omega)
  have hs : l.variable_mapping_fill_phases n = fillLoop l 0 n (l.options.length + n) := rfl
  rw [hs]
  set s := fillLoop l 0 n (l.options.length + n) with hsdef
  refine ⟨hInv.wf, ?_, ?_, ?_⟩
  · intro j k h1 h2 hfl
    have hjlen := flaggedAt_lt_len s j k hfl
    exact hInv.noMid j k h1 h2 (by omega) hfl
  · intro j k bm hbm hfl
    have hjlen : j < s.options.length := flaggedAt_lt_len s j k ⟨bm, hbm, hfl⟩
    exact hInv.ph0 j k bm (by omega) hbm hfl
  · rintro k ⟨j, hfl⟩
    have hjlen := flaggedAt_lt_len s j k hfl
    obtain ⟨hlen, m, bmm, hm, hbmm, hflg, hmax, hslots⟩ :=
      hInv.slots k ⟨j, by omega, hfl⟩
    refine ⟨hlen, m, bmm, hbmm, hflg, ?_, hslots⟩
    intro j' hf
    have := flaggedAt_lt_len s j' k hf
    exact hmax j' (by omega) hf

/-- With `n_phases = 0` the fill loop does nothing at all (even the phase
mutation sits inside `range(0)`). -/
lemma fill_zero (l : BiMappingList) : l.variable_mapping_fill_phases 0 = l := by
  have hphase : ∀ (u : BiMappingList) (i : Nat) (k : String), phaseLoop u i k 0 = u :=
    fun u i k => rfl
  have hstep : ∀ (u : BiMappingList) (i : Nat) (k : String), dictStepF i 0 u k = u := by
    intro u i k
    unfold dictStepF
    rcases hbm : dictGet (u.options.getD i []) k with _ | bm
    · rfl
    · show (if bm.automatic_multiple_phase = true then phaseLoop u i k 0 else u) = u
      by_cases hfl : bm.automatic_multiple_phase = true
      · rw [if_pos hfl, hphase]
      · rw [if_neg hfl]
  have hdict : ∀ (u : BiMappingList) (i : Nat), dictLoop u i 0 = u := by
    intro u i
    rw [dictLoop_eq]
    generalize dictKeys u i = ks
    induction ks generalizing u with
    | nil => rfl
    | cons k rest ih =>
      rw [List.foldl_cons, hstep]
      exact ih u
  have hloop : ∀ (fuel i : Nat) (u : BiMappingList), fillLoop u i 0 fuel = u := by
    intro fuel
    induction fuel with
    | zero =>
      intro i u
      rfl
    | succ fuel ih =>
      intro i u
      unfold fillLoop
      by_cases hlt : i < u.options.length
      · rw [if_pos hlt, hdict, ih]
      · rw [if_neg hlt]
  exact hloop _ 0 l

/-! Second fill pass on a stable state: every step is either a no-op or
rewrites a slot with the value it already holds. -/

lemma dictStepF_id (i n : Nat) (u : BiMappingList) (k : String)
    (h : ∀ bm, entryGet u i k = some bm → bm.automatic_multiple_phase = false) :
    dictStepF i n u k = u := by
  unfold dictStepF
  rcases hbm : dictGet (u.options.getD i []) k with _ | bm
  · rfl
  · show (if bm.automatic_multiple_phase = true then phaseLoop u i k n else u) = u
    rw [h bm hbm]
    rw [if_neg Bool.false_ne_true]

lemma dictLoop_id_of_unflagged (i n : Nat) (u : BiMappingList)
    (h : ∀ k bm, entryGet u i k = some bm → bm.automatic_multiple_phase = false) :
    dictLoop u i n = u := by
  rw [dictLoop_eq]
  generalize dictKeys u i = ks
  induction ks with
  | nil => rfl
  | cons k rest ih =>
    rw [List.foldl_cons, dictStepF_id i n u k (h k)]
    exact ih

/-- `c k` records the rightmost flagged actor for `k` among the dicts a second
fill pass has already processed: middle slots of such keys carry its clones,
everything else agrees with the stable base `s`. -/
structure Run2Base (n : Nat) (s : BiMappingList)
    (c : String → Option BiMapping) (u : BiMappingList) : Prop where
  len : u.options.length = s.options.length
  keys : ∀ j, dictKeys u j = dictKeys s j
  entriesNone : ∀ j k, c k = none → entryGet u j k = entryGet s j k
  entriesMid : ∀ j k bm, c k = some bm → 1 ≤ j → j < n →
    entryGet u j k = some (cloneBM bm j)
  entriesOut : ∀ j k bm, c k = some bm → ¬ (1 ≤ j ∧ j < n) →
    entryGet u j k = entryGet s j k

/-- Soundness of the actor record `c` after processing dicts `0..i-1` of `s`. -/
structure Run2C (s : BiMappingList) (i : Nat)
    (c : String → Option BiMapping) : Prop where
  cnone : ∀ k, c k = none → ∀ j, j < i → ¬ flaggedAt s j k
  csome : ∀ k bm, c k = some bm → ∃ m, m < i ∧ entryGet s m k = some bm ∧
    bm.automatic_multiple_phase = true ∧ ∀ j', j' < i → flaggedAt s j' k → j' ≤ m

lemma run2Base_wf (n : Nat) (s : BiMappingList) (c : String → Option BiMapping)
    (u : BiMappingList) (hwfs : WfDicts s) (hb : Run2Base n s c u) : WfDicts u := by
  intro j
  rw [hb.keys j]
  exact hwfs j

def updC (c : String → Option BiMapping) (k : String) (bm : BiMapping) :
    String → Option BiMapping :=
  fun a => if a = k then some bm else c a

lemma updC_self (c : String → Option BiMapping) (k : String) (bm : BiMapping) :
    updC c k bm k = some bm := if_pos rfl

lemma updC_ne (c : String → Option BiMapping) (k : String) (bm : BiMapping)
    (k' : String) (h : k' ≠ k) : updC c k bm k' = c k' := if_neg h

lemma run2_dictFold (n : Nat) (s : BiMappingList) (hn : 1 ≤ n) (hst : Stable n s)
    (i : Nat) (hOut : ¬ (1 ≤ i ∧ i < n)) (c0 : String → Option BiMapping) :
    ∀ (rem done : List String) (c : String → Option BiMapping) (u : BiMappingList),
    done ++ rem = dictKeys s i →
    Run2Base n s c u →
    (∀ k', k' ∉ done ∨ ¬ flaggedAt s i k' → c k' = c0 k') →
    (∀ k', k' ∈ done → flaggedAt s i k' →
      ∃ bm, entryGet s i k' = some bm ∧ c k' = some bm) →
    ∃ cE, Run2Base n s cE (rem.foldl (dictStepF i n) u) ∧
      (∀ k', k' ∉ done ++ rem ∨ ¬ flaggedAt s i k' → cE k' = c0 k') ∧
      (∀ k', k' ∈ done ++ rem → flaggedAt s i k' →
        ∃ bm, entryGet s i k' = some bm ∧ cE k' = some bm) := by
  intro rem
  induction rem with
  | nil =>
    intro done c u hsnap hbase hunch hdone
    exact ⟨c, hbase, by simpa using hunch, by simpa using hdone⟩
  | cons k rest ih =>
    intro done c u hsnap hbase hunch hdone
    have hui : entryGet u i k = entryGet s i k := by
      rcases hck : c k with _ | bm0
      · exact hbase.entriesNone i k hck
      · exact hbase.entriesOut i k bm0 hck hOut
    by_cases hflS : flaggedAt s i k
    · obtain ⟨bm, hsik, hfl⟩ := hflS
      have hbmu : entryGet u i k = some bm := by rw [hui]; exact hsik
      have hiu : i < u.options.length := flaggedAt_lt_len u i k ⟨bm, hbmu, hfl⟩
      have hwfu : WfDicts u := run2Base_wf n s c u hst.wf hbase
      have hstep : dictStepF i n u k = phaseLoop u i k n := by
        unfold dictStepF
        rw [show dictGet (u.options.getD i []) k = some bm from hbmu]
        show (if bm.automatic_multiple_phase = true then phaseLoop u i k n else u) = _
        rw [if_pos hfl]
      obtain ⟨hnles, M0, bmM0, hsM0, hflM0, hmaxS0, hslotsS0⟩ :=
        hst.slots k ⟨i, bm, hsik, hfl⟩
      obtain ⟨plen, pw, pk', pout, pself, pkeysout, pkeysin, pwf⟩ :=
        phaseLoop_spec u i k n bm hiu hbmu hn hwfu
      have hbase' : Run2Base n s (updC c k bm) (phaseLoop u i k n) := by
        refine ⟨?_, ?_, ?_, ?_, ?_⟩
        · rw [plen, hbase.len]
          omega
        · intro j
          by_cases hmidj : 1 ≤ j ∧ j < n
          · have hkmem : k ∈ dictKeys u j := by
              rw [hbase.keys j]
              exact entryGet_mem_keys s j k _ (hslotsS0 j hmidj.1 hmidj.2)
            rw [pkeysin j hmidj.1 hmidj.2, if_pos hkmem, hbase.keys j]
          · rw [pkeysout j hmidj, hbase.keys j]
        · intro j k' hk'
          by_cases hek : k' = k
          · subst hek
            rw [updC_self] at hk'
            cases hk'
          · rw [updC_ne _ _ _ _ hek] at hk'
            rw [pk' j k' hek]
            exact hbase.entriesNone j k' hk'
        · intro j k' bm' hk' h1 h2
          by_cases hek : k' = k
          · subst hek
            rw [updC_self] at hk'
            cases hk'
            exact pw j h1 h2
          · rw [updC_ne _ _ _ _ hek] at hk'
            rw [pk' j k' hek]
            exact hbase.entriesMid j k' bm' hk' h1 h2
        · intro j k' bm' hk' hjo
          by_cases hek : k' = k
          · subst hek
            by_cases hji : j = i
            · subst hji
              have hph : bm.phase = 0 := hst.ph0 j k' bm hsik hfl
              rw [pself hOut, hsik, bm_eta_phase0 bm hph]
            · rw [pout j hji hjo]
              rcases hck : c k' with _ | bmc
              · exact hbase.entriesNone j k' hck
              · exact hbase.entriesOut j k' bmc hck hjo
          · rw [updC_ne _ _ _ _ hek] at hk'
            rw [pk' j k' hek]
            exact hbase.entriesOut j k' bm' hk' hjo
      rw [List.foldl_cons, hstep]
      rw [List.append_cons] at hsnap ⊢
      refine ih (done ++ [k]) (updC c k bm) (phaseLoop u i k n) hsnap hbase' ?_ ?_
      · intro k' hk'
        have hek : k' ≠ k := by
          rcases hk' with h | h
          · intro he
            exact h (by rw [he]; exact List.mem_append_right _ (by simp))
          · intro he
            subst he
            exact h ⟨bm, hsik, hfl⟩
        rw [updC_ne _ _ _ _ hek]
        apply hunch
        rcases hk' with h | h
        · exact .inl (fun hm => h (List.mem_append_left _ hm))
        · exact .inr h
      · intro k' hk' hflk'
        by_cases hek : k' = k
        · subst hek
          exact ⟨bm, hsik, updC_self c k' bm⟩
        · rw [updC_ne _ _ _ _ hek]
          rcases List.mem_append.mp hk' with h | h
          · exact hdone k' h hflk'
          · exact absurd (List.mem_singleton.mp h) hek
    · have hid : dictStepF i n u k = u := by
        apply dictStepF_id
        intro bm' hbm'
        rw [hui] at hbm'
        cases hb : bm'.automatic_multiple_phase
        · rfl
        · exact absurd ⟨bm', hbm', hb⟩ hflS
      rw [List.foldl_cons, hid]
      rw [List.append_cons] at hsnap ⊢
      refine ih (done ++ [k]) c u hsnap hbase ?_ ?_
      · intro k' hk'
        apply hunch
        rcases hk' with h | h
        · exact .inl (fun hm => h (List.mem_append_left _ hm))
        · exact .inr h
      · intro k' hk' hflk'
        rcases List.mem_append.mp hk' with h | h
        · exact hdone k' h hflk'
        · have hek : k' = k := List.mem_singleton.mp h
          subst hek
          exact absurd hflk' hflS

lemma run2_dictLoop (n : Nat) (s : BiMappingList) (hn : 1 ≤ n) (hst : Stable n s)
    (i : Nat) (c : String → Option BiMapping) (u : BiMappingList)
    (hbase : Run2Base n s c u) (hC : Run2C s i c) :
    ∃ cE, Run2Base n s cE (dictLoop u i n) ∧ Run2C s (i + 1) cE := by
  by_cases hmid : 1 ≤ i ∧ i < n
  · have hid : dictLoop u i n = u := by
      apply dictLoop_id_of_unflagged
      intro k bm hbm
      rcases hck : c k with _ | bm0
      · rw [hbase.entriesNone i k hck] at hbm
        cases hb : bm.automatic_multiple_phase
        · rfl
        · exact absurd ⟨bm, hbm, hb⟩ (hst.noMid i k hmid.1 hmid.2)
      · rw [hbase.entriesMid i k bm0 hck hmid.1 hmid.2] at hbm
        cases hbm
        rfl
    rw [hid]
    refine ⟨c, hbase, ?_, ?_⟩
    · intro k hck j hj
      by_cases hji : j = i
      · subst hji
        exact hst.noMid j k hmid.1 hmid.2
      · exact hC.cnone k hck j (by omega)
    · intro k bm hck
      obtain ⟨m, hm, hsm, hflag, hmax⟩ := hC.csome k bm hck
      refine ⟨m, by omega, hsm, hflag, ?_⟩
      intro j' hj' hflj'
      by_cases hji : j' = i
      · subst hji
        exact absurd hflj' (hst.noMid j' k hmid.1 hmid.2)
      · exact hmax j' (by omega) hflj'
  · rw [dictLoop_eq, hbase.keys i]
    obtain ⟨cE, hbE, hunchE, hdoneE⟩ :=
      run2_dictFold n s hn hst i hmid c (dictKeys s i) [] c u rfl hbase
        (fun k' _ => rfl) (fun k' hk' _ => absurd hk' (List.not_mem_nil k'))
    refine ⟨cE, hbE, ?_, ?_⟩
    · intro k hck j hj
      have hnofl : ¬ flaggedAt s i k := by
        intro hfl
        obtain ⟨bm, hsm, hcEk⟩ := hdoneE k (flaggedAt_mem_keys s i k hfl) hfl
        rw [hck] at hcEk
        cases hcEk
      by_cases hji : j = i
      · subst hji
        exact hnofl
      · have hcek : c k = none := (hunchE k (.inr hnofl)).symm.trans hck
        exact hC.cnone k hcek j (by omega)
    · intro k bm hck
      by_cases hfl : flaggedAt s i k
      · obtain ⟨bm', hsm', hcEk⟩ := hdoneE k (flaggedAt_mem_keys s i k hfl) hfl
        rw [hck] at hcEk
        cases hcEk
        obtain ⟨bmf, hf, hflagf⟩ := hfl
        rw [hsm'] at hf
        cases hf
        refine ⟨i, by omega, hsm', hflagf, ?_⟩
        intro j' hj' hflj'
        omega
      · have hcek : c k = some bm := (hunchE k (.inr hfl)).symm.trans hck
        obtain ⟨m, hm, hsm, hflag, hmax⟩ := hC.csome k bm hcek
        refine ⟨m, by omega, hsm, hflag, ?_⟩
        intro j' hj' hflj'
        by_cases hji : j' = i
        · subst hji
          exact absurd hflj' hfl
        · exact hmax j' (by omega) hflj'

lemma run2_fillLoop (n : Nat) (s : BiMappingList) (hn : 1 ≤ n) (hst : Stable n s) :
    ∀ (fuel i : Nat) (c : String → Option BiMapping) (u : BiMappingList),
    Run2Base n s c u → Run2C s i c → s.options.length ≤ fuel + i →
    ∃ iE cE, s.options.length ≤ iE ∧
      Run2Base n s cE (fillLoop u i n fuel) ∧ Run2C s iE cE := by
  intro fuel
  induction fuel with
  | zero =>
    intro i c u hbase hC hfu
    exact ⟨i, c, by omega, hbase, hC⟩
  | succ fuel ih =>
    intro i c u hbase hC hfu
    by_cases hlt : i < u.options.length
    · rw [fillLoop, if_pos hlt]
      obtain ⟨cE, hbE, hCE⟩ := run2_dictLoop n s hn hst i c u hbase hC
      exact ih (i + 1) cE _ hbE hCE (by omega)
    · rw [fillLoop, if_neg hlt]
      have hlen := hbase.len
      exact ⟨i, c, by omega, hbase, hC⟩

/-! Structural equality of two states from pointwise equality of their dicts. -/

lemma dict_ext : ∀ (d d' : List (String × BiMapping)),
    d.map Prod.fst = d'.map Prod.fst → (d'.map Prod.fst).Nodup →
    (∀ k, dictGet d k = dictGet d' k) → d = d' := by
  intro d
  induction d with
  | nil =>
    intro d' hk _ _
    cases d' with
    | nil => rfl
    | cons e' rest' => cases hk
  | cons e rest ih =>
    intro d' hk hnd hv
    cases d' with
    | nil => cases hk
    | cons e' rest' =>
      obtain ⟨k0, v0⟩ := e
      obtain ⟨k0', v0'⟩ := e'
      simp only [List.map_cons, List.cons.injEq] at hk
      simp only [List.map_cons, List.nodup_cons] at hnd
      obtain ⟨hk0, hkrest⟩ := hk
      subst hk0
      have hv0 : v0 = v0' := by
        have := hv k0
        rw [dictGet_cons, dictGet_cons, if_pos rfl, if_pos rfl] at this
        cases this
        rfl
      subst hv0
      have hrest : rest = rest' := by
        apply ih rest' hkrest hnd.2
        intro k
        by_cases hkk : k = k0
        · subst hkk
          have h1 : dictGet rest' k = none :=
            (dictGet_eq_none_iff _ _).mpr hnd.1
          have h2 : dictGet rest k = none := by
            apply (dictGet_eq_none_iff _ _).mpr
            rw [hkrest]
            exact hnd.1
          rw [h1, h2]
        · have := hv k
          rw [dictGet_cons, dictGet_cons, if_neg (fun h => hkk h.symm),
            if_neg (fun h => hkk h.symm)] at this
          exact this
      rw [hrest]

lemma bml_eq_of_options (u s : BiMappingList) (h : u.options = s.options) : u = s := by
  cases u
  cases s
  cases h
  rfl

lemma bml_ext (u s : BiMappingList) (hlen : u.options.length = s.options.length)
    (hkeys : ∀ j, dictKeys u j = dictKeys s j) (hwf : WfDicts s)
    (hent : ∀ j k, entryGet u j k = entryGet s j k) : u = s := by
  apply bml_eq_of_options
  apply List.ext_getElem?
  intro j
  by_cases hj : j < s.options.length
  · have hju : j < u.options.length := by omega
    rw [List.getElem?_eq_getElem hju, List.getElem?_eq_getElem hj]
    have hgu : u.options[j] = u.options.getD j [] := (List.getD_eq_getElem _ _ hju).symm
    have hgs : s.options[j] = s.options.getD j [] := (List.getD_eq_getElem _ _ hj).symm
    rw [hgu, hgs]
    exact congrArg some (dict_ext _ _ (hkeys j) (hwf j) (hent j))
  · rw [List.getElem?_eq_none (by omega), List.getElem?_eq_none (by omega)]

/-- On a stable state (`n ≥ 1`) the whole fill pass is the identity. -/
lemma fill_stable_id (s : BiMappingList) (n : Nat) (hn : 1 ≤ n)
    (hst : Stable n s) : s.variable_mapping_fill_phases n = s := by
  have hbase0 : Run2Base n s (fun _ => none) s := by
    refine ⟨rfl, fun j => rfl, ?_, ?_, ?_⟩
    · intro j k _
      rfl
    · intro j k bm h
      cases h
    · intro j k bm h _
      cases h
  have hC0 : Run2C s 0 (fun _ => none) := by
    constructor
    · intro k _ j hj
      omega
    · intro k bm h
      cases h
  obtain ⟨iE, cE, hiE, hbE, hCE⟩ :=
    run2_fillLoop n s hn hst (s.options.length + n) 0 (fun _ => none) s
      hbase0 hC0 (by omega)
  have hfill : s.variable_mapping_fill_phases n =
      fillLoop s 0 n (s.options.length + n) := rfl
  rw [hfill]
  apply bml_ext _ s hbE.len hbE.keys hst.wf
  intro j k
  rcases hcE : cE k with _ | bm
  · exact hbE.entriesNone j k hcE
  · by_cases hmid : 1 ≤ j ∧ j < n
    · rw [hbE.entriesMid j k bm hcE hmid.1 hmid.2]
      obtain ⟨m, hm, hsm, hflag, hmax⟩ := hCE.csome k bm hcE
      obtain ⟨hlen, M, bmM, hsM, hflM, hmaxS, hslotsS⟩ :=
        hst.slots k ⟨m, bm, hsm, hflag⟩
      have hmM : m ≤ M := hmaxS m ⟨bm, hsm, hflag⟩
      have hMm : M ≤ m := hmax M
        (by have := flaggedAt_lt_len s M k ⟨bmM, hsM, hflM⟩; omega)
        ⟨bmM, hsM, hflM⟩
      have hmeq : m = M := le_antisymm hmM hMm
      subst hmeq
      rw [hsm] at hsM
      cases hsM
      exact (hslotsS j hmid.1 hmid.2).symm
    · exact hbE.entriesOut j k bm hcE hmid

lemma wfDicts_of_all (l : BiMappingList)
    (h : ∀ d ∈ l.options, (d.map Prod.fst).Nodup) : WfDicts l := by
  intro j
  by_cases hj : j < l.options.length
  · have hmem : l.options.getD j [] ∈ l.options := by
      rw [List.getD_eq_getElem _ _ hj]
      exact List.getElem_mem hj
    exact h _ hmem
  · rw [dictKeys, List.getD_eq_default _ _ (by omega)]
    simp

/-- C9: `variable_mapping_fill_phases` is idempotent on well-formed states. -/
theorem variable_mapping_fill_phases_idem (l : BiMappingList) (n : Nat)
    (hwf : WfDicts l) :
    (l.variable_mapping_fill_phases n).variable_mapping_fill_phases n =
      l.variable_mapping_fill_phases n := by
  rcases Nat.eq_zero_or_pos n with hn | hn
  · subst hn
    rw [fill_zero, fill_zero]
  · exact fill_stable_id _ n hn (fill_stable l n hn hwf)

/-- A single phase dict containing one automatically-expanded mapping. -/
def wBML : BiMappingList :=
  ⟨[[("q", { to_second := ⟨[some 0], [1]⟩, to_first := ⟨[some 0], [1]⟩,
             phase := 0, automatic_multiple_phase := true })]]⟩

theorem variable_mapping_fill_phases_idem_witness :
    WfDicts wBML ∧
      (wBML.variable_mapping_fill_phases 3).variable_mapping_fill_phases 3 =
        wBML.variable_mapping_fill_phases 3 := by
  have hwf : WfDicts wBML := wfDicts_of_all wBML (by decide)
  exact ⟨hwf, variable_mapping_fill_phases_idem wBML 3 hwf⟩

/-! ## OptimizationVector (src/bioptim/optimization/optimization_vector.py):
shooting-point declaration, flattening and solution unpacking. -/

/-- `ControlType` values read by the code (any other member raises in
`define_ocp_shooting_points`). -/
inductive ControlTypeM where
  | constant
  | linearContinuous
  | other
deriving DecidableEq, Repr

/-- `InterpolationType` members whose identity the code tests. -/
inductive InterpTypeM where
  | constant
  | eachFrame
  | allPoints
  | otherI
deriving DecidableEq, Repr

/-- The `ode_solver` descriptor fields read by the code.
`collocation_not_irk` models the `isinstance(..., OdeSolver.COLLOCATION) and
not isinstance(..., OdeSolver.IRK)` test (a separate predicate from the
`is_direct_collocation` property in the class hierarchy). -/
structure OdeSolverM where
  is_direct_collocation : Bool
  is_direct_shooting : Bool
  collocation_not_irk : Bool
  polynomial_degree : Nat
  steps : Nat
  step_time : List Int
deriving DecidableEq, Repr

/-- `NodeMappingIndex` (mapping.py lines 273-281). `index` holds local row
indices; `variable_mapped_index` holds source-phase row indices (possibly
`None` entries from `Mapping.map_idx`). -/
structure NodeMappingIndexM where
  phase : Nat
  index : Option (List Nat)
  variable_mapped_index : Option (List (Option Nat))
deriving DecidableEq, Repr

/-- The per-phase non-linear-program record fields read by
`define_ocp_shooting_points`, `vector`, `bounds`, `init` and
`to_dictionaries`. `states_el`/`controls_el` are the named elements of the
variable containers with their widths (`element.cx.shape[0]`); the
`*_bounds_*`/`*_init_eval` tables model the external path-condition
containers' `evaluate_at(shooting_point)` (modelled from the spec's
container contract), and `orig_x_init_each_frame` whether the originally
supplied `x_init`'s interpolation is `EACH_FRAME`. -/
structure NlpConf where
  ns : Nat
  control_type : ControlTypeM
  ode_solver : OdeSolverM
  states_el : List (String × Nat)
  controls_el : List (String × Nat)
  x_scaling : List Int
  u_scaling : List Int
  states_phase_mapping_idx : List (String × NodeMappingIndexM)
  controls_phase_mapping_idx : List (String × NodeMappingIndexM)
  x_bounds_min : List (List Int)
  x_bounds_max : List (List Int)
  u_bounds_min : List (List Int)
  u_bounds_max : List (List Int)
  x_init_eval : List (List Int)
  u_init_eval : List (List Int)
  x_init_type : InterpTypeM
  x_init_noised : Bool
  orig_x_init_each_frame : Bool
  orig_x_init : List (List Int)
deriving DecidableEq, Repr

def nlpDefault : NlpConf :=
  ⟨0, .constant, ⟨false, false, false, 0, 0, []⟩, [], [], [], [], [], [],
   [], [], [], [], [], [], .constant, false, false, []⟩

/-- `nlp.states.shape`: total rows of the variable container. -/
def NlpConf.statesShape (c : NlpConf) : Nat := (c.states_el.map Prod.snd).sum

/-- `nlp.controls.shape`. -/
def NlpConf.controlsShape (c : NlpConf) : Nat := (c.controls_el.map Prod.snd).sum

/-- Placeholder for a scalar read outside a matrix (a Python `IndexError`,
never reached by the theorems below). -/
def oobE : CxE := .sym (.psym "__oob" 0)

/-- Scalar multiplication of a symbolic entry by a scaling factor
(`x = x_scaled * scaling`). -/
def CxE.scale : CxE → Int → CxE
  | .sym s, c => .smul s c
  | .smul s a, c => .smul s (a * c)

/-- State of the per-element aliasing scan at the head of
`define_ocp_shooting_points` (lines 404-424 for states, 426-446 for
controls). -/
structure IdxScan where
  index : List Nat
  vmi : List (Option Nat)
  use_from_phase : Nat
  has_mapping : Bool
  current_index : Nat
deriving DecidableEq, Repr

/-- One element of the scan: the element's own row range is appended unless
the phase-mapping dict declares a `variable_mapped_index` for its name, in
which case the declared `index`/`variable_mapped_index` are appended and the
source phase recorded. (A declared `None` `index` — which Python could not
concatenate — is modelled as the empty list; it is unreachable through
`get_variable_from_phase_idx`, which subscripts `index` first.) -/
def idxScanStep (mapIdx : List (String × NodeMappingIndexM)) (acc : IdxScan)
    (el : String × Nat) : IdxScan :=
  let defIdx := List.range' acc.current_index el.2
  match dictGet mapIdx el.1 with
  | some mi =>
    match mi.variable_mapped_index with
    | some vm =>
      ⟨acc.index ++ mi.index.getD [], acc.vmi ++ vm, mi.phase, true,
       acc.current_index + el.2⟩
    | none =>
      ⟨acc.index ++ defIdx, acc.vmi ++ defIdx.map some, acc.use_from_phase,
       acc.has_mapping, acc.current_index + el.2⟩
  | none =>
    ⟨acc.index ++ defIdx, acc.vmi ++ defIdx.map some, acc.use_from_phase,
     acc.has_mapping, acc.current_index + el.2⟩

def idxScan (phase_idx : Nat) (els : List (String × Nat))
    (mapIdx : List (String × NodeMappingIndexM)) : IdxScan :=
  els.foldl (idxScanStep mapIdx) ⟨[], [], phase_idx, false, 0⟩

/-- One fresh scaled state symbol block `nlp.cx.sym("X_scaled...", 1, w)` at
its allocation site, as its `w` scalar cells; `w = polynomial_degree+1` for
direct collocation at `k ≠ ns`, else 1 (lines 461-477 and 490-500). -/
def ownXRow (c : NlpConf) (p k liberty : Nat) : List CxE :=
  if k ≠ c.ns ∧ c.ode_solver.is_direct_collocation then
    (List.range (c.ode_solver.polynomial_degree + 1)).map
      (fun cell => .sym (.xsym p k liberty cell))
  else
    [.sym (.xsym p k liberty 0)]

/-- Node `k` of an owning phase: one fresh row per DOF. -/
def ownXNode (c : NlpConf) (p k : Nat) : List (List CxE) :=
  (List.range c.statesShape).map (fun liberty => ownXRow c p k liberty)

/-- The matching unscaled rows `x = x_scaled * x_scaling["all"].scaling[liberty]`. -/
def ownXNodeU (c : NlpConf) (p k : Nat) : List (List CxE) :=
  (List.range c.statesShape).map (fun liberty =>
    (ownXRow c p k liberty).map (fun e => e.scale (c.x_scaling.getD liberty 0)))

/-- List read `x_scaled[src][k][liberty]` (a reference to the same symbol
object). -/
def getRow (xs : List (List (List (List CxE)))) (src k liberty : Nat) : List CxE :=
  ((xs.getD src []).getD k []).getD liberty []

/-- One DOF of the aliasing-phase state loop at node `k` (lines 478-500):
aliased DOFs copy the source phase's entries, the rest get fresh symbols;
`new_variable_count` (the scaling row used for the unscaled copy) advances
only in the non-collocation branch, exactly as in the source. -/
def aliasXStep (c : NlpConf) (xsL xuL : List (List (List (List CxE))))
    (src p k : Nat) (ivm : List (Option Nat))
    (acc : List (List CxE) × List (List CxE) × Nat) (liberty : Nat) :
    List (List CxE) × List (List CxE) × Nat :=
  if (some liberty) ∈ ivm then
    (acc.1 ++ [getRow xsL src k liberty],
     acc.2.1 ++ [getRow xuL src k liberty], acc.2.2)
  else
    let row := ownXRow c p k liberty
    let urow := row.map (fun e => e.scale (c.x_scaling.getD acc.2.2 0))
    if k ≠ c.ns ∧ c.ode_solver.is_direct_collocation then
      (acc.1 ++ [row], acc.2.1 ++ [urow], acc.2.2)
    else
      (acc.1 ++ [row], acc.2.1 ++ [urow], acc.2.2 + 1)

/-- The aliasing-phase state loop over `liberty` at node `k`. -/
def aliasXNode (c : NlpConf) (xsL xuL : List (List (List (List CxE))))
    (src p k : Nat) (ivm : List (Option Nat)) :
    List (List CxE) × List (List CxE) :=
  let r := (List.range c.statesShape).foldl (aliasXStep c xsL xuL src p k ivm)
    ([], [], 0)
  (r.1, r.2.1)

/-- Node `k` of an owning phase, controls (`ControlType.CONSTANT` skips the
last node, lines 508-512). -/
def ownUNode (c : NlpConf) (p k : Nat) : List (List CxE) :=
  if c.control_type ≠ .constant ∨ (c.control_type = .constant ∧ k ≠ c.ns) then
    (List.range c.controlsShape).map (fun liberty => [CxE.sym (.usym p k liberty)])
  else []

def ownUNodeU (c : NlpConf) (p k : Nat) : List (List CxE) :=
  if c.control_type ≠ .constant ∨ (c.control_type = .constant ∧ k ≠ c.ns) then
    (List.range c.controlsShape).map (fun liberty =>
      [CxE.scale (.sym (.usym p k liberty)) (c.u_scaling.getD liberty 0)])
  else []

/-- One DOF of the aliasing-phase control loop at node `k` (lines 513-524). -/
def aliasUStep (c : NlpConf) (usL uuL : List (List (List (List CxE))))
    (src p k : Nat) (ivm : List (Option Nat))
    (acc : List (List CxE) × List (List CxE) × Nat) (liberty : Nat) :
    List (List CxE) × List (List CxE) × Nat :=
  if (some liberty) ∈ ivm then
    (acc.1 ++ [getRow usL src k liberty],
     acc.2.1 ++ [getRow uuL src k liberty], acc.2.2)
  else
    (acc.1 ++ [[CxE.sym (.usym p k liberty)]],
     acc.2.1 ++ [[CxE.scale (.sym (.usym p k liberty)) (c.u_scaling.getD acc.2.2 0)]],
     acc.2.2 + 1)

/-- The aliasing-phase control loop at node `k`. -/
def aliasUNode (c : NlpConf) (usL uuL : List (List (List (List CxE))))
    (src p k : Nat) (ivm : List (Option Nat)) :
    List (List CxE) × List (List CxE) :=
  if c.control_type ≠ .constant ∨ (c.control_type = .constant ∧ k ≠ c.ns) then
    let r := (List.range c.controlsShape).foldl (aliasUStep c usL uuL src p k ivm)
      ([], [], 0)
    (r.1, r.2.1)
  else ([], [])

/-- `vertcat(*rows)` of one node block, as scalar columns (width taken from
the first row of the rectangular casadi block). -/
def blockCols (b : List (List CxE)) : List (List CxE) :=
  (List.range (b.headD []).length).map (fun cc => b.map (fun row => row.getD cc oobE))

/-- The `horzcat` fold over nodes building `self.x_scaled[p]` (lines 527-530);
empty node blocks contribute nothing, as casadi ignores empty matrices in
concatenation. -/
def matFromNodes (nodes : List (List (List CxE))) : List (List CxE) :=
  (nodes.map blockCols).flatten

/-- Everything `define_ocp_shooting_points` writes: the per-phase raw symbol
lists (`x`, `x_scaled`, `u`, `u_scaled`), the concatenated phase matrices
(`self.x_scaled`, `self.u_scaled`), the per-phase counts
(`self.n_phase_x/u`), the mutated phase-mapping dicts (with `'all'`) and the
recorded source phases (`nlp.use_states/controls_from_phase`). -/
structure ShootAcc where
  xsL : List (List (List (List CxE)))
  xuL : List (List (List (List CxE)))
  usL : List (List (List (List CxE)))
  uuL : List (List (List (List CxE)))
  xmat : List (List (List CxE))
  umat : List (List (List CxE))
  nx : List Int
  nu : List Int
  smi : List (List (String × NodeMappingIndexM))
  cmi : List (List (String × NodeMappingIndexM))
  usep : List Nat
  ucep : List Nat
deriving DecidableEq, Repr

/-- The states scan of phase `p` (lines 405-421). -/
def sScanOf (p : Nat) (c : NlpConf) : IdxScan :=
  idxScan p c.states_el c.states_phase_mapping_idx

/-- The controls scan of phase `p` (lines 426-444). -/
def cScanOf (p : Nat) (c : NlpConf) : IdxScan :=
  idxScan p c.controls_el c.controls_phase_mapping_idx

/-- The `'all'` aggregate written into `nlp.states_phase_mapping_idx` when any
element is aliased (lines 422-424). -/
def smiOf (p : Nat) (c : NlpConf) : List (String × NodeMappingIndexM) :=
  if (sScanOf p c).has_mapping then
    dictSet c.states_phase_mapping_idx "all"
      ⟨(sScanOf p c).use_from_phase, some (sScanOf p c).index, some (sScanOf p c).vmi⟩
  else c.states_phase_mapping_idx

def cmiOf (p : Nat) (c : NlpConf) : List (String × NodeMappingIndexM) :=
  if (cScanOf p c).has_mapping then
    dictSet c.controls_phase_mapping_idx "all"
      ⟨(cScanOf p c).use_from_phase, some (cScanOf p c).index, some (cScanOf p c).vmi⟩
  else c.controls_phase_mapping_idx

/-- The per-node scaled/unscaled state rows of phase `p` (lines 457-500). -/
def xNodesOf (acc : ShootAcc) (p : Nat) (c : NlpConf) :
    List (List (List CxE)) × List (List (List CxE)) :=
  if p = (sScanOf p c).use_from_phase then
    ((List.range (c.ns + 1)).map (fun k => ownXNode c p k),
     (List.range (c.ns + 1)).map (fun k => ownXNodeU c p k))
  else
    ((List.range (c.ns + 1)).map (fun k =>
      aliasXNode c acc.xsL acc.xuL (sScanOf p c).use_from_phase p k
        (sScanOf p c).vmi)).unzip

/-- The per-node scaled/unscaled control rows of phase `p` (lines 502-524). -/
def uNodesOf (acc : ShootAcc) (p : Nat) (c : NlpConf) :
    List (List (List CxE)) × List (List (List CxE)) :=
  if p = (cScanOf p c).use_from_phase then
    ((List.range (c.ns + 1)).map (fun k => ownUNode c p k),
     (List.range (c.ns + 1)).map (fun k => ownUNodeU c p k))
  else
    ((List.range (c.ns + 1)).map (fun k =>
      aliasUNode c acc.usL acc.uuL (cScanOf p c).use_from_phase p k
        (cScanOf p c).vmi)).unzip

/-- `self.x_scaled[p].shape[0]`: the row count of the concatenated phase
matrix. -/
def xrowsOf (acc : ShootAcc) (p : Nat) (c : NlpConf) : Nat :=
  ((matFromNodes (xNodesOf acc p c).1).headD []).length

def urowsOf (acc : ShootAcc) (p : Nat) (c : NlpConf) : Nat :=
  ((matFromNodes (uNodesOf acc p c).1).headD []).length

/-- `self.n_phase_x[p]` (lines 531-534): row count of the concatenated phase
matrix against the length of the variable-mapped index list. -/
def npxOf (acc : ShootAcc) (p : Nat) (c : NlpConf) : Int :=
  if (sScanOf p c).vmi.length ≠ xrowsOf acc p c then
    ((xrowsOf acc p c : Int) - ((sScanOf p c).vmi.length : Int)) * ((c.ns : Int) + 1)
  else (xrowsOf acc p c : Int) * ((c.ns : Int) + 1)

/-- `last_node` (lines 544-548). -/
def lastNodeOf (c : NlpConf) : Nat :=
  if c.control_type = .constant then c.ns else c.ns + 1

/-- `self.n_phase_u[p]` (lines 549-551). -/
def npuOf (acc : ShootAcc) (p : Nat) (c : NlpConf) : Int :=
  if (cScanOf p c).vmi.length ≠ urowsOf acc p c then
    ((urowsOf acc p c : Int) - ((cScanOf p c).vmi.length : Int)) * (lastNodeOf c : Int)
  else (urowsOf acc p c : Int) * (lastNodeOf c : Int)

/-- One iteration of the `for nlp in self.ocp.nlp` loop of
`define_ocp_shooting_points` (lines 393-555; phases are processed in order
and `nlp.phase_idx` is the list position). On the unsupported-control-type
error the mutations already performed in the iteration are discarded (they
are not observable through the attributes read by the later steps). -/
def shootPhase (acc : ShootAcc) (pc : Nat × NlpConf) : Except String ShootAcc :=
  if pc.2.control_type ≠ .constant ∧ pc.2.control_type ≠ .linearContinuous then
    .error "Multiple shooting problem not implemented yet for this control type"
  else
    .ok ⟨acc.xsL ++ [(xNodesOf acc pc.1 pc.2).1],
         acc.xuL ++ [(xNodesOf acc pc.1 pc.2).2],
         acc.usL ++ [(uNodesOf acc pc.1 pc.2).1],
         acc.uuL ++ [(uNodesOf acc pc.1 pc.2).2],
         acc.xmat ++ [matFromNodes (xNodesOf acc pc.1 pc.2).1],
         acc.umat ++ [matFromNodes (uNodesOf acc pc.1 pc.2).1],
         acc.nx ++ [npxOf acc pc.1 pc.2], acc.nu ++ [npuOf acc pc.1 pc.2],
         acc.smi ++ [smiOf pc.1 pc.2], acc.cmi ++ [cmiOf pc.1 pc.2],
         acc.usep ++ [(sScanOf pc.1 pc.2).use_from_phase],
         acc.ucep ++ [(cScanOf pc.1 pc.2).use_from_phase]⟩

/-- The empty accumulated state at the head of
`define_ocp_shooting_points`. -/
def accInit : ShootAcc := ⟨[], [], [], [], [], [], [], [], [], [], [], []⟩

/-- `OptimizationVector.define_ocp_shooting_points`. -/
def define_ocp_shooting_points (confs : List NlpConf) : Except String ShootAcc :=
  confs.enum.foldlM shootPhase accInit

/-- `self.n_all_x = sum(self.n_phase_x)`. -/
def ShootAcc.n_all_x (st : ShootAcc) : Int := st.nx.sum

def ShootAcc.n_all_u (st : ShootAcc) : Int := st.nu.sum

/-! Bounds and initial-guess declaration, flattening, and solution
unpacking. -/

def zerosI (n : Nat) : List Int := (List.range n).map (fun _ => 0)

/-- numpy slice assignment `m[a:b, 0] = v` (length-preserving). -/
def setSlice (l : List Int) (a b : Nat) (v : List Int) : List Int :=
  (List.range l.length).map (fun i =>
    if a ≤ i ∧ i < b then v.getD (i - a) 0 else l.getD i 0)

/-- `evaluate_at(shooting_point=point)` on a path-condition table (modelled
from the spec's container contract). -/
def evalAt (tbl : List (List Int)) (point : Nat) : List Int := tbl.getD point []

/-- Modelled from the spec: `ocp.get_nx_and_nu_phase_mapped`
(bioptim/optimization/optimal_control_program.py, not under src/) returns,
per phase, the number of independently allocated state rows: all rows when
the phase owns its states, otherwise the rows minus the aliased rows (spec
4.4: aliased rows contribute zero new decision variables but still occupy
rows in the phase's matrix). -/
def specNxPhase (c : NlpConf) (use_from p : Nat)
    (smi : List (String × NodeMappingIndexM)) : Nat :=
  if use_from = p then c.statesShape
  else
    match dictGet smi "all" with
    | some mi => c.statesShape -
        ((List.range c.statesShape).filter
          (fun lib => (some lib) ∈ mi.variable_mapped_index.getD [])).length
    | none => c.statesShape

/-- Modelled from the spec: the controls half of
`ocp.get_nx_and_nu_phase_mapped`. -/
def specNuPhase (c : NlpConf) (use_from p : Nat)
    (cmi : List (String × NodeMappingIndexM)) : Nat :=
  if use_from = p then c.controlsShape
  else
    match dictGet cmi "all" with
    | some mi => c.controlsShape -
        ((List.range c.controlsShape).filter
          (fun lib => (some lib) ∈ mi.variable_mapped_index.getD [])).length
    | none => c.controlsShape

/-- `all_nx` of the states part of `define_ocp_bounds` (lines 578-585). -/
def bXall (c : NlpConf) (nxp : Nat) : Nat :=
  if c.ode_solver.is_direct_collocation then
    nxp * c.ns * (c.ode_solver.polynomial_degree + 1) + nxp
  else nxp * (c.ns + 1)

def bXouter (c : NlpConf) (nxp : Nat) : Nat :=
  if c.ode_solver.is_direct_collocation then
    nxp * (c.ode_solver.polynomial_degree + 1)
  else nxp

def bXrep (c : NlpConf) : Nat :=
  if c.ode_solver.is_direct_collocation then c.ode_solver.polynomial_degree + 1
  else 1

/-- The span-by-span overwrite of a `[0] * all_nx` column from `evaluate_at`
(lines 586-592). -/
def bXfill (c : NlpConf) (nxp : Nat) (tbl : List (List Int)) : List Int :=
  (List.range (c.ns + 1)).foldl
    (fun m k =>
      (List.range (if k ≠ c.ns then bXrep c else 1)).foldl
        (fun m2 pp =>
          setSlice m2 (k * bXouter c nxp + pp * nxp)
            (k * bXouter c nxp + (pp + 1) * nxp)
            (evalAt tbl (if k ≠ 0 then k else if pp = 0 then 0 else 1)))
        m)
    (zerosI (bXall c nxp))

/-- The states part of `define_ocp_bounds` for one phase (lines 577-594). -/
def boundsXPhase (c : NlpConf) (nxp : Nat) : BoundsM :=
  ⟨bXfill c nxp c.x_bounds_min, bXfill c nxp c.x_bounds_max⟩

/-- The controls column of `define_ocp_bounds`/`define_ocp_initial_guess`
(lines 604-607 and 688-690). -/
def uFill (nup nsb : Nat) (tbl : List (List Int)) : List Int :=
  (List.range nsb).foldl
    (fun m k => setSlice m (k * nup) ((k + 1) * nup) (evalAt tbl k))
    (zerosI (nup * nsb))

/-- The controls part of `define_ocp_bounds` for one phase (lines 596-608). -/
def boundsUPhase (c : NlpConf) (nup : Nat) : Except String BoundsM :=
  match c.control_type with
  | .constant => .ok ⟨uFill nup c.ns c.u_bounds_min, uFill nup c.ns c.u_bounds_max⟩
  | .linearContinuous =>
    .ok ⟨uFill nup (c.ns + 1) c.u_bounds_min, uFill nup (c.ns + 1) c.u_bounds_max⟩
  | .other => .error "Multiple shooting problem not implemented yet for this control type"

/-- The control-type dispatch of the sanity-check loop of
`define_ocp_bounds` (lines 567-573); `check_and_adjust_dimensions` is an
external container validation, modelled as a no-op. -/
def chkCt (c : NlpConf) : Except String Nat :=
  match c.control_type with
  | .constant => Except.ok 0
  | .linearContinuous => Except.ok 0
  | .other => Except.error "Plotting this control type is not implemented yet"

/-- `OptimizationVector.define_ocp_bounds` (lines 557-609): the sanity-check
loop, then per-phase state and control bounds. -/
def define_ocp_bounds (confs : List NlpConf) (st : ShootAcc) :
    Except String (List BoundsM × List BoundsM) :=
  confs.mapM chkCt >>= fun _ =>
  (confs.enum.mapM (fun pc =>
    boundsUPhase pc.2
      (specNuPhase pc.2 (st.ucep.getD pc.1 pc.1) pc.1 (st.cmi.getD pc.1 [])))) >>=
  fun ub =>
  .ok (confs.enum.map (fun pc =>
    boundsXPhase pc.2
      (specNxPhase pc.2 (st.usep.getD pc.1 pc.1) pc.1 (st.smi.getD pc.1 []))), ub)

/-- One interpolated segment of `_init_linear_interpolation` (lines
240-245): `state[frame] + (state[frame + 1] - state[frame]) * steps`, where
`steps` is the ode solver integrator's collocation step-time array
(external data, held in `ode_solver.step_time`). -/
def lerpSeg (state steps : List Int) (frame : Nat) : List Int :=
  steps.map (fun s =>
    state.getD frame 0 + (state.getD (frame + 1) 0 - state.getD frame 0) * s)

/-- One row of the `x_init_vector` matrix of `_init_linear_interpolation`
(lines 240-246): the per-frame interpolated segments written over a zero row
of `n_phase_x[p] // shape` columns, then the last column overwritten with
`state[nlp.ns]`. -/
def lerpRow (c : NlpConf) (cols : Nat) (state : List Int) : List Int :=
  setSlice
    ((List.range c.ns).foldl
      (fun m frame =>
        setSlice m (frame * (c.ode_solver.polynomial_degree + 1))
          ((frame + 1) * (c.ode_solver.polynomial_degree + 1))
          (lerpSeg state c.ode_solver.step_time frame))
      (zerosI cols))
    (cols - 1) cols [state.getD c.ns 0]

/-- `OptimizationVector._init_linear_interpolation` (lines 214-249): a
`shape × (n_phase_x[p] // shape)` zero matrix receives one linearly
interpolated row per state row of the originally supplied `x_init` (rows
without an original row stay zero), and is reshaped column-major
(`order="F"`) into a single column. `orig_x_init` models the external
`ocp.original_values["x_init"].init` table. -/
def initLinearInterpolation (c : NlpConf) (npx : Int) : InitialGuessM :=
  ⟨((List.range (npx.toNat / c.statesShape)).map (fun j =>
      (List.range c.statesShape).map (fun i =>
        (if i < c.orig_x_init.length then
          lerpRow c (npx.toNat / c.statesShape) (c.orig_x_init.getD i [])
        else zerosI (npx.toNat / c.statesShape)).getD j 0))).flatten⟩

/-- Whether the `init` sizing takes the collocation branch (line 658):
direct collocation with a non-`EACH_FRAME` `x_init`. -/
def iXcolloc (c : NlpConf) : Prop :=
  c.ode_solver.is_direct_collocation = true ∧ c.x_init_type ≠ .eachFrame

instance (c : NlpConf) : Decidable (iXcolloc c) := by
  unfold iXcolloc
  infer_instance

def iXall (c : NlpConf) (nxp : Nat) : Nat :=
  if iXcolloc c then
    nxp * c.ns * (c.ode_solver.polynomial_degree + 1) + nxp
  else nxp * (c.ns + 1)

def iXouter (c : NlpConf) (nxp : Nat) : Nat :=
  if iXcolloc c then nxp * (c.ode_solver.polynomial_degree + 1) else nxp

def iXrep (c : NlpConf) : Nat :=
  if iXcolloc c then c.ode_solver.polynomial_degree + 1 else 1

/-- The evaluation point of the init assignment (lines 668-676), including
the `NoisedInitialGuess`/`ALL_POINTS` and `EACH_FRAME` adjustments. -/
def iXpoint (c : NlpConf) (k pp : Nat) : Nat :=
  if c.x_init_noised then
    (if c.x_init_type = .allPoints then k * iXrep c + pp
     else if k ≠ 0 then k else if pp = 0 then 0 else 1)
  else if c.x_init_type = .eachFrame then k * iXrep c + pp
  else if k ≠ 0 then k else if pp = 0 then 0 else 1

def iXfill (c : NlpConf) (nxp : Nat) : List Int :=
  (List.range (c.ns + 1)).foldl
    (fun m k =>
      (List.range (if k ≠ c.ns then iXrep c else 1)).foldl
        (fun m2 pp =>
          setSlice m2 (k * iXouter c nxp + pp * nxp)
            (k * iXouter c nxp + (pp + 1) * nxp)
            (evalAt c.x_init_eval (iXpoint c k pp)))
        m)
    (zerosI (iXall c nxp))

/-- The states part of `define_ocp_initial_guess` for one phase (lines
658-679). -/
def initXPhase (c : NlpConf) (nxp : Nat) : InitialGuessM :=
  ⟨iXfill c nxp⟩

/-- The controls part of `define_ocp_initial_guess` for one phase (lines
681-691). -/
def initUPhase (c : NlpConf) (nup : Nat) : Except String InitialGuessM :=
  match c.control_type with
  | .constant => .ok ⟨uFill nup c.ns c.u_init_eval⟩
  | .linearContinuous => .ok ⟨uFill nup (c.ns + 1) c.u_init_eval⟩
  | .other => .error "Multiple shooting problem not implemented yet for this control type"

/-- The validation of `define_ocp_initial_guess` (lines 641-655): raises for
`ALL_POINTS` under direct shooting, then dispatches on the control type
(`check_and_adjust_dimensions` again modelled as a no-op). -/
def chkInit (c : NlpConf) : Except String Nat :=
  if c.ode_solver.is_direct_shooting = true ∧ c.x_init_type = .allPoints then
    .error "InterpolationType.ALL_POINTS must only be used with direct collocation"
  else chkCt c

/-- `OptimizationVector.define_ocp_initial_guess` (lines 634-692). -/
def define_ocp_initial_guess (confs : List NlpConf) (st : ShootAcc) :
    Except String (List InitialGuessM × List InitialGuessM) :=
  confs.mapM chkInit >>= fun _ =>
  (confs.enum.mapM (fun pc =>
    initUPhase pc.2
      (specNuPhase pc.2 (st.ucep.getD pc.1 pc.1) pc.1 (st.cmi.getD pc.1 [])))) >>=
  fun ui =>
  .ok (confs.enum.map (fun pc =>
    initXPhase pc.2
      (specNxPhase pc.2 (st.usep.getD pc.1 pc.1) pc.1 (st.smi.getD pc.1 []))), ui)

/-- The states contribution of one phase to `vector` (lines 107-118):
the scalar `self.x_scaled[p][liberty, k]` is appended unless the phase
aliases its states and `liberty` sits in the `'all'` record's
`variable_mapped_index`. -/
def vectorXPhase (c : NlpConf) (p use_from : Nat)
    (smi : List (String × NodeMappingIndexM)) (xm : List (List CxE)) : List CxE :=
  ((List.range (c.ns + 1)).map (fun k =>
    (List.range c.statesShape).filterMap (fun liberty =>
      if use_from = p then some ((xm.getD k []).getD liberty oobE)
      else
        match dictGet smi "all" with
        | some mi =>
          if (some liberty) ∈ mi.variable_mapped_index.getD [] then none
          else some ((xm.getD k []).getD liberty oobE)
        | none => none))).flatten

/-- The controls contribution of one phase to `vector` (lines 119-127). -/
def vectorUPhase (c : NlpConf) (p use_from : Nat)
    (cmi : List (String × NodeMappingIndexM)) (um : List (List CxE)) : List CxE :=
  ((List.range (c.ns + 1)).map (fun k =>
    if c.control_type ≠ .constant ∨ (c.control_type = .constant ∧ k ≠ c.ns) then
      (List.range c.controlsShape).filterMap (fun liberty =>
        if use_from = p then some ((um.getD k []).getD liberty oobE)
        else
          match dictGet cmi "all" with
          | some mi =>
            if (some liberty) ∈ mi.variable_mapped_index.getD [] then none
            else some ((um.getD k []).getD liberty oobE)
          | none => none)
    else [])).flatten

/-- `self.parameters_in_list.cx`: the concatenated parameter symbols
(modelled from the spec for the external `ParameterList` container). -/
def paramsCx (pool : List Parameter) : List CxE :=
  (pool.map (fun q => (q.cx.getD []).map CxE.sym)).flatten

/-- `OptimizationVector.vector` (lines 97-129). -/
def vectorOf (confs : List NlpConf) (st : ShootAcc) (pool : List Parameter) :
    List CxE :=
  ((confs.enum.map (fun pc =>
      vectorXPhase pc.2 pc.1 (st.usep.getD pc.1 pc.1) (st.smi.getD pc.1 [])
        (st.xmat.getD pc.1 []))).flatten)
  ++ ((confs.enum.map (fun pc =>
      vectorUPhase pc.2 pc.1 (st.ucep.getD pc.1 pc.1) (st.cmi.getD pc.1 [])
        (st.umat.getD pc.1 []))).flatten)
  ++ paramsCx pool

/-- Modelled from the spec: `scaling.to_vector(n)` tiles the per-row scaling
vector `n` times. -/
def toVector (scaling : List Int) (n : Nat) : List Int :=
  ((List.range n).map (fun _ => scaling)).flatten

/-- Modelled from the spec: `Bounds.scale` maps the bounds elementwise by the
scaling vector (length-preserving). -/
def BoundsM.scale (b : BoundsM) (v : List Int) : BoundsM :=
  ⟨b.bmin.mapIdx (fun i x => x * v.getD i 1), b.bmax.mapIdx (fun i x => x * v.getD i 1)⟩

/-- Modelled from the spec: `InitialGuess.scale` (length-preserving). -/
def InitialGuessM.scale (g : InitialGuessM) (v : List Int) : InitialGuessM :=
  ⟨g.init.mapIdx (fun i x => x * v.getD i 1)⟩

/-- `n_steps` of the `bounds` property / `steps` of the `init` property
(lines 140-145 and 174-179): phase 0's solver kind decides. -/
def nStepsOf (confs : List NlpConf) : Nat :=
  if (confs.headD nlpDefault).ode_solver.collocation_not_irk then
    (confs.headD nlpDefault).ode_solver.steps + 1
  else 1

/-- One scaled state-bounds block of the `bounds` property (lines 148-151). -/
def boundsXScaled (confs : List NlpConf) (pb : Nat × BoundsM) : BoundsM :=
  pb.2.scale (toVector (confs.getD pb.1 nlpDefault).x_scaling
    ((confs.getD pb.1 nlpDefault).ns * nStepsOf confs + 1))

/-- The control node count used for the `to_vector` argument (lines 152-156):
gated by PHASE 0's control type, as in the source. -/
def uScaleNs (confs : List NlpConf) (p : Nat) : Nat :=
  if (confs.headD nlpDefault).control_type = .linearContinuous then
    (confs.getD p nlpDefault).ns + 1
  else (confs.getD p nlpDefault).ns

/-- One scaled control-bounds block of the `bounds` property (line 157). -/
def boundsUScaled (confs : List NlpConf) (pb : Nat × BoundsM) : BoundsM :=
  pb.2.scale (toVector (confs.getD pb.1 nlpDefault).u_scaling (uScaleNs confs pb.1))

/-- One parameter's scaled bounds block (lines 158-161). -/
def paramBoundsScaled (q : Parameter) : BoundsM :=
  q.bounds.scale q.scaling

/-- One parameter's scaled initial-guess block (lines 207-211). -/
def paramInitScaled (q : Parameter) : InitialGuessM :=
  (⟨q.initial_guess⟩ : InitialGuessM).scale q.scaling

/-- `OptimizationVector.bounds` (lines 131-163): phase-major concatenation of
the scaled state bounds, then the scaled control bounds, then each
parameter's scaled bounds. -/
def boundsOf (confs : List NlpConf) (xb ub : List BoundsM)
    (pool : List Parameter) : BoundsM :=
  pool.foldl (fun acc q => acc.concatenate (paramBoundsScaled q))
    (ub.enum.foldl (fun acc pb => acc.concatenate (boundsUScaled confs pb))
      (xb.enum.foldl (fun acc pb => acc.concatenate (boundsXScaled confs pb))
        (⟨[], []⟩ : BoundsM)))

/-- `OptimizationVector.init` (lines 164-213): same traversal as `bounds`,
with the direct-collocation `EACH_FRAME` state block replaced by the linear
interpolation. -/
def initXScaled (confs : List NlpConf) (st : ShootAcc)
    (pg : Nat × InitialGuessM) : InitialGuessM :=
  (if (confs.getD pg.1 nlpDefault).ode_solver.is_direct_collocation = true ∧
      (confs.getD pg.1 nlpDefault).orig_x_init_each_frame = true then
    initLinearInterpolation (confs.getD pg.1 nlpDefault) (st.nx.getD pg.1 0)
  else pg.2).scale
    (toVector (confs.getD pg.1 nlpDefault).x_scaling
      ((confs.getD pg.1 nlpDefault).ns * nStepsOf confs + 1))

def initUScaled (confs : List NlpConf) (pg : Nat × InitialGuessM) : InitialGuessM :=
  pg.2.scale (toVector (confs.getD pg.1 nlpDefault).u_scaling (uScaleNs confs pg.1))

def initOf (confs : List NlpConf) (st : ShootAcc) (xi ui : List InitialGuessM)
    (pool : List Parameter) : InitialGuessM :=
  pool.foldl (fun acc q => acc.concatenate (paramInitScaled q))
    (ui.enum.foldl (fun acc pg => acc.concatenate (initUScaled confs pg))
      (xi.enum.foldl (fun acc pg => acc.concatenate (initXScaled confs st pg))
        (⟨[]⟩ : InitialGuessM)))

/-- numpy slice `v[a:b]` for non-negative offsets (from-end negative
indexing is not modelled; the offsets below are non-negative). -/
def npSliceI (v : List Int) (a b : Int) : List Int :=
  (v.drop a.toNat).take (b - a).toNat

/-- numpy `reshape((r, -1), order="F")` of a flat vector: row `i`, column `j`
holds `v[j*r + i]`. -/
def reshapeF (v : List Int) (r : Nat) : List (List Int) :=
  (List.range r).map (fun i =>
    (List.range (v.length / r)).map (fun j => v.getD (j * r + i) 0))

/-- The states section of `OptimizationVector.to_dictionaries` (lines
309-341): phase-major unpacking of the flat solution into per-phase dicts
(written at the running `p_idx`, skipping aliasing phases whose `'all'`
record has no `index`); unwritten trailing dicts stay empty. -/
def to_dictionaries_states (confs : List NlpConf) (st : ShootAcc)
    (data : List Int) : List (List (String × List (List Int))) :=
  let r := confs.enum.foldl
    (fun (acc : List (List (String × List (List Int))) × Int) pc =>
      let p := pc.1
      let c := pc.2
      let npx := st.nx.getD p 0
      if st.usep.getD p p = p then
        let x_array := reshapeF (npSliceI data acc.2 (acc.2 + npx)) c.statesShape
        let d0 := dictSet ([] : List (String × List (List Int))) "all" x_array
        let dfin := (c.states_el.foldl
          (fun (dv : List (String × List (List Int)) × Nat) el =>
            (dictSet dv.1 el.1 ((x_array.drop dv.2).take el.2), dv.2 + el.2))
          (d0, 0)).1
        (acc.1 ++ [dfin], acc.2 + npx)
      else
        match dictGet (st.smi.getD p []) "all" with
        | some mi =>
          match mi.index with
          | some _ =>
            let n_var := (mi.variable_mapped_index.getD []).length
            let x_array := reshapeF (npSliceI data acc.2 (acc.2 + npx)) n_var
            let d0 := dictSet ([] : List (String × List (List Int))) "all" x_array
            let dfin := (c.states_el.foldl
              (fun (dv : List (String × List (List Int)) × Nat) el =>
                (dictSet dv.1 el.1 ((x_array.drop dv.2).take n_var), dv.2 + n_var))
              (d0, 0)).1
            (acc.1 ++ [dfin], acc.2 + npx)
          | none => acc
        | none => acc)
    ([], 0)
  r.1 ++ (List.range (confs.length - r.1.length)).map (fun _ => [])

/-! Characterization of the aliasing loops of `define_ocp_shooting_points`. -/

/-- The value of `new_variable_count` (states loop) before DOF `t`: it only
advances in the fresh non-collocation branch. -/
def nvcAt (c : NlpConf) (k : Nat) (ivm : List (Option Nat)) (t : Nat) : Nat :=
  if k ≠ c.ns ∧ c.ode_solver.is_direct_collocation then 0
  else ((List.range t).filter (fun j => !(decide ((some j) ∈ ivm)))).length

lemma nvcAt_zero (c : NlpConf) (k : Nat) (ivm : List (Option Nat)) :
    nvcAt c k ivm 0 = 0 := by
  unfold nvcAt
  split <;> rfl

lemma nvcAt_succ_mem (c : NlpConf) (k : Nat) (ivm : List (Option Nat)) (t : Nat)
    (h : (some t) ∈ ivm) : nvcAt c k ivm (t + 1) = nvcAt c k ivm t := by
  unfold nvcAt
  split
  · rfl
  · rw [List.range_succ, List.filter_append]
    simp [h]

lemma nvcAt_succ_not_mem (c : NlpConf) (k : Nat) (ivm : List (Option Nat)) (t : Nat)
    (h : ¬ (some t) ∈ ivm) :
    nvcAt c k ivm (t + 1) =
      if k ≠ c.ns ∧ c.ode_solver.is_direct_collocation then 0
      else nvcAt c k ivm t + 1 := by
  unfold nvcAt
  split
  · rfl
  · rw [List.range_succ, List.filter_append]
    simp [h]

lemma aliasXFold_spec (c : NlpConf) (xsL xuL : List (List (List (List CxE))))
    (src p k : Nat) (ivm : List (Option Nat)) :
    ∀ t : Nat,
    (List.range t).foldl (aliasXStep c xsL xuL src p k ivm) ([], [], 0) =
      ((List.range t).map (fun lib =>
          if (some lib) ∈ ivm then getRow xsL src k lib else ownXRow c p k lib),
       (List.range t).map (fun lib =>
          if (some lib) ∈ ivm then getRow xuL src k lib
          else (ownXRow c p k lib).map
            (fun e => e.scale (c.x_scaling.getD (nvcAt c k ivm lib) 0))),
       nvcAt c k ivm t) := by
  intro t
  induction t with
  | zero =>
    rw [nvcAt_zero]
    rfl
  | succ t ih =>
    rw [List.range_succ, List.foldl_append, ih, List.foldl_cons, List.foldl_nil]
    unfold aliasXStep
    by_cases hmem : (some t) ∈ ivm
    · rw [nvcAt_succ_mem c k ivm t hmem]
      simp [hmem]
    · rw [nvcAt_succ_not_mem c k ivm t hmem]
      by_cases hcol : k ≠ c.ns ∧ c.ode_solver.is_direct_collocation = true
      · have h0 : nvcAt c k ivm t = 0 := by
          unfold nvcAt
          rw [if_pos hcol]
        simp [hmem, hcol, h0]
      · simp [hmem, hcol]

lemma aliasXNode_fst (c : NlpConf) (xsL xuL : List (List (List (List CxE))))
    (src p k : Nat) (ivm : List (Option Nat)) :
    (aliasXNode c xsL xuL src p k ivm).1 =
      (List.range c.statesShape).map (fun lib =>
        if (some lib) ∈ ivm then getRow xsL src k lib else ownXRow c p k lib) := by
  unfold aliasXNode
  rw [aliasXFold_spec]

lemma aliasXNode_snd (c : NlpConf) (xsL xuL : List (List (List (List CxE))))
    (src p k : Nat) (ivm : List (Option Nat)) :
    (aliasXNode c xsL xuL src p k ivm).2 =
      (List.range c.statesShape).map (fun lib =>
        if (some lib) ∈ ivm then getRow xuL src k lib
        else (ownXRow c p k lib).map
          (fun e => e.scale (c.x_scaling.getD (nvcAt c k ivm lib) 0))) := by
  unfold aliasXNode
  rw [aliasXFold_spec]

/-- The value of `new_variable_count` (controls loop) before DOF `t`. -/
def nvcUAt (ivm : List (Option Nat)) (t : Nat) : Nat :=
  ((List.range t).filter (fun j => !(decide ((some j) ∈ ivm)))).length

lemma aliasUFold_spec (c : NlpConf) (usL uuL : List (List (List (List CxE))))
    (src p k : Nat) (ivm : List (Option Nat)) :
    ∀ t : Nat,
    (List.range t).foldl (aliasUStep c usL uuL src p k ivm) ([], [], 0) =
      ((List.range t).map (fun lib =>
          if (some lib) ∈ ivm then getRow usL src k lib
          else [CxE.sym (.usym p k lib)]),
       (List.range t).map (fun lib =>
          if (some lib) ∈ ivm then getRow uuL src k lib
          else [CxE.scale (.sym (.usym p k lib)) (c.u_scaling.getD (nvcUAt ivm lib) 0)]),
       nvcUAt ivm t) := by
  intro t
  induction t with
  | zero => rfl
  | succ t ih =>
    have hn : nvcUAt ivm (t + 1) =
        if (some t) ∈ ivm then nvcUAt ivm t else nvcUAt ivm t + 1 := by
      unfold nvcUAt
      rw [List.range_succ, List.filter_append]
      by_cases hmem : (some t) ∈ ivm
      · simp [hmem]
      · simp [hmem]
    rw [List.range_succ, List.foldl_append, ih, List.foldl_cons, List.foldl_nil, hn]
    unfold aliasUStep
    by_cases hmem : (some t) ∈ ivm
    · simp [hmem]
    · simp [hmem]

lemma aliasUNode_fst (c : NlpConf) (usL uuL : List (List (List (List CxE))))
    (src p k : Nat) (ivm : List (Option Nat))
    (hgate : c.control_type ≠ .constant ∨ (c.control_type = .constant ∧ k ≠ c.ns)) :
    (aliasUNode c usL uuL src p k ivm).1 =
      (List.range c.controlsShape).map (fun lib =>
        if (some lib) ∈ ivm then getRow usL src k lib
        else [CxE.sym (.usym p k lib)]) := by
  unfold aliasUNode
  rw [if_pos hgate, aliasUFold_spec]

lemma aliasUNode_snd (c : NlpConf) (usL uuL : List (List (List (List CxE))))
    (src p k : Nat) (ivm : List (Option Nat))
    (hgate : c.control_type ≠ .constant ∨ (c.control_type = .constant ∧ k ≠ c.ns)) :
    (aliasUNode c usL uuL src p k ivm).2 =
      (List.range c.controlsShape).map (fun lib =>
        if (some lib) ∈ ivm then getRow uuL src k lib
        else [CxE.scale (.sym (.usym p k lib)) (c.u_scaling.getD (nvcUAt ivm lib) 0)]) := by
  unfold aliasUNode
  rw [if_pos hgate, aliasUFold_spec]

lemma getD_map_range {α : Type} (n : Nat) (f : Nat → α) (k : Nat) (hk : k < n)
    (d : α) : ((List.range n).map f).getD k d = f k := by
  rw [List.getD_eq_getElem?_getD, List.getElem?_map, List.getElem?_range hk]
  rfl

/-- **C5.** During `define_ocp_shooting_points`, an aliasing phase reuses, for
every DOF in the aliased set and every node, exactly the entry stored for the
source phase at that node and DOF — both the scaled and the unscaled
reference — allocating no new symbol there; a DOF outside the aliased set
gets the same fresh symbol allocation the owning-phase branch would make at
that site (states), resp. a fresh control symbol. -/
theorem alias_symbol_reuse (c : NlpConf)
    (xsL xuL usL uuL : List (List (List (List CxE))))
    (src p k : Nat) (ivmS ivmU : List (Option Nat)) (liberty : Nat)
    (hs : liberty < c.statesShape) (hu : liberty < c.controlsShape)
    (hgate : c.control_type ≠ .constant ∨ (c.control_type = .constant ∧ k ≠ c.ns)) :
    ((some liberty) ∈ ivmS →
      (aliasXNode c xsL xuL src p k ivmS).1.getD liberty [] =
        getRow xsL src k liberty ∧
      (aliasXNode c xsL xuL src p k ivmS).2.getD liberty [] =
        getRow xuL src k liberty) ∧
    (¬ (some liberty) ∈ ivmS →
      (aliasXNode c xsL xuL src p k ivmS).1.getD liberty [] =
        ownXRow c p k liberty ∧
      (aliasXNode c xsL xuL src p k ivmS).1.getD liberty [] =
        (ownXNode c p k).getD liberty []) ∧
    ((some liberty) ∈ ivmU →
      (aliasUNode c usL uuL src p k ivmU).1.getD liberty [] =
        getRow usL src k liberty ∧
      (aliasUNode c usL uuL src p k ivmU).2.getD liberty [] =
        getRow uuL src k liberty) ∧
    (¬ (some liberty) ∈ ivmU →
      (aliasUNode c usL uuL src p k ivmU).1.getD liberty [] =
        [CxE.sym (.usym p k liberty)]) := by
  refine ⟨?_, ?_, ?_, ?_⟩
  · intro hmem
    constructor
    · rw [aliasXNode_fst, getD_map_range _ _ _ hs, if_pos hmem]
    · rw [aliasXNode_snd, getD_map_range _ _ _ hs, if_pos hmem]
  · intro hmem
    constructor
    · rw [aliasXNode_fst, getD_map_range _ _ _ hs, if_neg hmem]
    · rw [aliasXNode_fst, getD_map_range _ _ _ hs, if_neg hmem,
        ownXNode, getD_map_range _ _ _ hs]
  · intro hmem
    constructor
    · rw [aliasUNode_fst c usL uuL src p k ivmU hgate, getD_map_range _ _ _ hu,
        if_pos hmem]
    · rw [aliasUNode_snd c usL uuL src p k ivmU hgate, getD_map_range _ _ _ hu,
        if_pos hmem]
  · intro hmem
    rw [aliasUNode_fst c usL uuL src p k ivmU hgate, getD_map_range _ _ _ hu,
      if_neg hmem]

/-- A two-DOF configuration and a stored source phase for the C5 witness. -/
def wC5 : NlpConf :=
  { nlpDefault with
    ns := 1
    states_el := [("q", 2)]
    controls_el := [("tau", 2)] }

def wxsL : List (List (List (List CxE))) :=
  [[[[.sym (.xsym 0 0 0 0)], [.sym (.xsym 0 0 1 0)]]]]

def wxuL : List (List (List (List CxE))) :=
  [[[[.smul (.xsym 0 0 0 0) 1], [.smul (.xsym 0 0 1 0) 1]]]]

def wusL : List (List (List (List CxE))) :=
  [[[[.sym (.usym 0 0 0)], [.sym (.usym 0 0 1)]]]]

def wuuL : List (List (List (List CxE))) :=
  [[[[.smul (.usym 0 0 0) 1], [.smul (.usym 0 0 1) 1]]]]

theorem alias_symbol_reuse_witness :
    0 < wC5.statesShape ∧ 0 < wC5.controlsShape ∧
    (wC5.control_type ≠ .constant ∨ (wC5.control_type = .constant ∧ 0 ≠ wC5.ns)) ∧
    (aliasXNode wC5 wxsL wxuL 0 1 0 [some 0]).1.getD 0 [] = getRow wxsL 0 0 0 := by
  refine ⟨by decide, by decide, by decide, ?_⟩
  exact ((alias_symbol_reuse wC5 wxsL wxuL wusL wuuL 0 1 0 [some 0] [some 1] 0
    (by decide) (by decide) (by decide)).1 (by decide)).1

/-! Row counts of the concatenated non-collocation phase matrices. -/

lemma ownXRow_noncolloc (c : NlpConf) (p k lib : Nat)
    (h : c.ode_solver.is_direct_collocation = false) :
    ownXRow c p k lib = [.sym (.xsym p k lib 0)] := by
  unfold ownXRow
  have hno : ¬ (k ≠ c.ns ∧ c.ode_solver.is_direct_collocation = true) := by
    rw [h]
    simp
  rw [if_neg hno]

lemma blockCols_width1 (b : List (List CxE)) (h : (b.headD []).length = 1) :
    blockCols b = [b.map (fun row => row.getD 0 oobE)] := by
  unfold blockCols
  rw [h]
  rfl

lemma matFromNodes_width1 : ∀ (nodes : List (List (List CxE))),
    (∀ b ∈ nodes, (b.headD []).length = 1) →
    matFromNodes nodes = nodes.map (fun b => b.map (fun row => row.getD 0 oobE)) := by
  intro nodes
  induction nodes with
  | nil =>
    intro _
    rfl
  | cons b rest ih =>
    intro h
    have hb := h b (List.mem_cons_self b rest)
    have hrest := ih (fun b' hb' => h b' (List.mem_cons_of_mem b hb'))
    show (List.map blockCols (b :: rest)).flatten = _
    rw [List.map_cons, List.flatten_cons, blockCols_width1 b hb]
    show _ ++ matFromNodes rest = _
    rw [hrest, List.map_cons]
    rfl

lemma ownXNode_length (c : NlpConf) (p k : Nat) :
    (ownXNode c p k).length = c.statesShape := by
  unfold ownXNode
  rw [List.length_map, List.length_range]

lemma aliasXNode_fst_length (c : NlpConf) (xsL xuL : List (List (List (List CxE))))
    (src p k : Nat) (ivm : List (Option Nat)) :
    (aliasXNode c xsL xuL src p k ivm).1.length = c.statesShape := by
  rw [aliasXNode_fst, List.length_map, List.length_range]

lemma ownXNode_head_width (c : NlpConf) (p k : Nat) (hm : 0 < c.statesShape)
    (hcol : c.ode_solver.is_direct_collocation = false) :
    ((ownXNode c p k).headD []).length = 1 := by
  obtain ⟨m', hm'⟩ : ∃ m', c.statesShape = m' + 1 := ⟨c.statesShape - 1, by omega⟩
  unfold ownXNode
  rw [hm', List.range_succ_eq_map, List.map_cons, List.headD_cons,
    ownXRow_noncolloc c p k 0 hcol]
  rfl

lemma aliasXNode_head_width (c : NlpConf)
    (xsL xuL : List (List (List (List CxE)))) (src p k : Nat)
    (ivm : List (Option Nat)) (hm : 0 < c.statesShape)
    (hcol : c.ode_solver.is_direct_collocation = false)
    (hsrc : (some 0) ∈ ivm → (getRow xsL src k 0).length = 1) :
    ((aliasXNode c xsL xuL src p k ivm).1.headD []).length = 1 := by
  rw [aliasXNode_fst]
  obtain ⟨m', hm'⟩ : ∃ m', c.statesShape = m' + 1 := ⟨c.statesShape - 1, by omega⟩
  rw [hm', List.range_succ_eq_map, List.map_cons, List.headD_cons]
  by_cases hmem : (some 0) ∈ ivm
  · rw [if_pos hmem]
    exact hsrc hmem
  · rw [if_neg hmem, ownXRow_noncolloc c p k 0 hcol]
    rfl

lemma head_map_range {α : Type} (n : Nat) (f : Nat → α) (d : α) :
    ((List.range (n + 1)).map f).headD d = f 0 := by
  rw [List.range_succ_eq_map, List.map_cons, List.headD_cons]

/-- An owning non-collocation phase's matrix has `states.shape` rows. -/
lemma xrowsOf_own (acc : ShootAcc) (p : Nat) (c : NlpConf)
    (hown : p = (sScanOf p c).use_from_phase) (hm : 0 < c.statesShape)
    (hcol : c.ode_solver.is_direct_collocation = false) :
    xrowsOf acc p c = c.statesShape := by
  unfold xrowsOf xNodesOf
  rw [if_pos hown]
  rw [matFromNodes_width1 _ (by
    intro b hb
    obtain ⟨k, hk, rfl⟩ := List.mem_map.mp hb
    exact ownXNode_head_width c p k hm hcol)]
  rw [List.map_map]
  have hh : ((List.range (c.ns + 1)).map
      ((fun b => b.map (fun row => row.getD 0 oobE)) ∘ (fun k => ownXNode c p k))).headD [] =
      (ownXNode c p 0).map (fun row => row.getD 0 oobE) := head_map_range _ _ _
  rw [hh, List.length_map, ownXNode_length]

/-- An aliasing non-collocation phase's matrix also has `states.shape` rows
(every DOF contributes one row, copied or fresh). -/
lemma xrowsOf_alias (acc : ShootAcc) (p : Nat) (c : NlpConf)
    (halias : ¬ p = (sScanOf p c).use_from_phase) (hm : 0 < c.statesShape)
    (hcol : c.ode_solver.is_direct_collocation = false)
    (hsrc : ∀ k, k < c.ns + 1 → (some 0) ∈ (sScanOf p c).vmi →
      (getRow acc.xsL (sScanOf p c).use_from_phase k 0).length = 1) :
    xrowsOf acc p c = c.statesShape := by
  unfold xrowsOf xNodesOf
  rw [if_neg halias]
  rw [List.unzip_fst, List.map_map]
  rw [matFromNodes_width1 _ (by
    intro b hb
    obtain ⟨k, hk, rfl⟩ := List.mem_map.mp hb
    exact aliasXNode_head_width c acc.xsL acc.xuL (sScanOf p c).use_from_phase p k
      (sScanOf p c).vmi hm hcol (hsrc k (List.mem_range.mp hk)))]
  rw [List.map_map]
  have hh : ((List.range (c.ns + 1)).map
      ((fun b => b.map (fun row => row.getD 0 oobE)) ∘
        (Prod.fst ∘ fun k => aliasXNode c acc.xsL acc.xuL (sScanOf p c).use_from_phase
          p k (sScanOf p c).vmi))).headD [] =
      (aliasXNode c acc.xsL acc.xuL (sScanOf p c).use_from_phase p 0
        (sScanOf p c).vmi).1.map (fun row => row.getD 0 oobE) :=
    head_map_range _ _ _
  rw [hh, List.length_map, aliasXNode_fst_length]

/-! The two-phase aliasing family behind claims about `n_phase_x`. -/

/-- Phase 0 of the family: one state element of width `m`, no controls, no
mappings, non-collocation solver. -/
def conf0 (m ns : Nat) : NlpConf :=
  { nlpDefault with ns := ns, states_el := [("q", m)] }

/-- Phase 1 of the family: the same element, declared aliased to phase 0 with
the given `index`/`variable_mapped_index` (as resolved by
`get_variable_from_phase_idx`). -/
def conf1 (m ns : Nat) (idx : List Nat) (vmi : List (Option Nat)) : NlpConf :=
  { nlpDefault with
    ns := ns
    states_el := [("q", m)]
    states_phase_mapping_idx := [("q", ⟨0, some idx, some vmi⟩)] }

def aliasPair (m ns : Nat) (idx : List Nat) (vmi : List (Option Nat)) :
    List NlpConf :=
  [conf0 m ns, conf1 m ns idx vmi]

lemma conf0_shape (m ns : Nat) : (conf0 m ns).statesShape = m := by
  simp [conf0, nlpDefault, NlpConf.statesShape]

lemma conf1_shape (m ns : Nat) (idx : List Nat) (vmi : List (Option Nat)) :
    (conf1 m ns idx vmi).statesShape = m := by
  simp [conf1, nlpDefault, NlpConf.statesShape]

lemma sScan_conf0 (m ns : Nat) : sScanOf 0 (conf0 m ns) =
    ⟨List.range' 0 m, (List.range' 0 m).map some, 0, false, 0 + m⟩ := rfl

lemma sScan_conf1 (m ns : Nat) (idx : List Nat) (vmi : List (Option Nat)) :
    sScanOf 1 (conf1 m ns idx vmi) = ⟨idx, vmi, 0, true, 0 + m⟩ := rfl

lemma sScan_conf1_use (m ns : Nat) (idx : List Nat) (vmi : List (Option Nat)) :
    (sScanOf 1 (conf1 m ns idx vmi)).use_from_phase = 0 := by
  rw [sScan_conf1]

lemma sScan_conf1_vmi (m ns : Nat) (idx : List Nat) (vmi : List (Option Nat)) :
    (sScanOf 1 (conf1 m ns idx vmi)).vmi = vmi := by
  rw [sScan_conf1]

/-- **C3 (amended).** After `define_ocp_shooting_points` on the two-phase
family, `n_phase_x[1]` is `(rows − len(variable_mapped_index)) × (ns+1)` when
`len(variable_mapped_index)` differs from the matrix row count (= the state
shape `m`), and `rows × (ns+1)` — not 0 — when the two coincide (full
aliasing included); `n_phase_x[0] = m × (ns+1)`. -/
theorem n_phase_x_alias_formula (m ns : Nat) (idx : List Nat)
    (vmi : List (Option Nat)) (hm : 0 < m) :
    ∃ st, define_ocp_shooting_points (aliasPair m ns idx vmi) = .ok st ∧
      st.nx = [(m : Int) * ((ns : Int) + 1),
        if vmi.length ≠ m then ((m : Int) - (vmi.length : Int)) * ((ns : Int) + 1)
        else (m : Int) * ((ns : Int) + 1)] := by
  have hct0 : ¬ ((conf0 m ns).control_type ≠ .constant ∧
      (conf0 m ns).control_type ≠ .linearContinuous) := by
    intro h
    exact h.1 rfl
  have hct1 : ¬ ((conf1 m ns idx vmi).control_type ≠ .constant ∧
      (conf1 m ns idx vmi).control_type ≠ .linearContinuous) := by
    intro h
    exact h.1 rfl
  have hfold : define_ocp_shooting_points (aliasPair m ns idx vmi) =
      shootPhase accInit (0, conf0 m ns) >>= fun s1 =>
        shootPhase s1 (1, conf1 m ns idx vmi) >>= fun s2 => pure s2 := rfl
  have h0 : shootPhase accInit (0, conf0 m ns) = .ok
      ⟨[(xNodesOf accInit 0 (conf0 m ns)).1], [(xNodesOf accInit 0 (conf0 m ns)).2],
       [(uNodesOf accInit 0 (conf0 m ns)).1], [(uNodesOf accInit 0 (conf0 m ns)).2],
       [matFromNodes (xNodesOf accInit 0 (conf0 m ns)).1],
       [matFromNodes (uNodesOf accInit 0 (conf0 m ns)).1],
       [npxOf accInit 0 (conf0 m ns)], [npuOf accInit 0 (conf0 m ns)],
       [smiOf 0 (conf0 m ns)], [cmiOf 0 (conf0 m ns)],
       [(sScanOf 0 (conf0 m ns)).use_from_phase],
       [(cScanOf 0 (conf0 m ns)).use_from_phase]⟩ := by
    unfold shootPhase
    rw [if_neg hct0]
    rfl
  set st0 : ShootAcc :=
      ⟨[(xNodesOf accInit 0 (conf0 m ns)).1], [(xNodesOf accInit 0 (conf0 m ns)).2],
       [(uNodesOf accInit 0 (conf0 m ns)).1], [(uNodesOf accInit 0 (conf0 m ns)).2],
       [matFromNodes (xNodesOf accInit 0 (conf0 m ns)).1],
       [matFromNodes (uNodesOf accInit 0 (conf0 m ns)).1],
       [npxOf accInit 0 (conf0 m ns)], [npuOf accInit 0 (conf0 m ns)],
       [smiOf 0 (conf0 m ns)], [cmiOf 0 (conf0 m ns)],
       [(sScanOf 0 (conf0 m ns)).use_from_phase],
       [(cScanOf 0 (conf0 m ns)).use_from_phase]⟩ with hst0def
  have h1 : shootPhase st0 (1, conf1 m ns idx vmi) = .ok
      ⟨st0.xsL ++ [(xNodesOf st0 1 (conf1 m ns idx vmi)).1],
       st0.xuL ++ [(xNodesOf st0 1 (conf1 m ns idx vmi)).2],
       st0.usL ++ [(uNodesOf st0 1 (conf1 m ns idx vmi)).1],
       st0.uuL ++ [(uNodesOf st0 1 (conf1 m ns idx vmi)).2],
       st0.xmat ++ [matFromNodes (xNodesOf st0 1 (conf1 m ns idx vmi)).1],
       st0.umat ++ [matFromNodes (uNodesOf st0 1 (conf1 m ns idx vmi)).1],
       st0.nx ++ [npxOf st0 1 (conf1 m ns idx vmi)],
       st0.nu ++ [npuOf st0 1 (conf1 m ns idx vmi)],
       st0.smi ++ [smiOf 1 (conf1 m ns idx vmi)],
       st0.cmi ++ [cmiOf 1 (conf1 m ns idx vmi)],
       st0.usep ++ [(sScanOf 1 (conf1 m ns idx vmi)).use_from_phase],
       st0.ucep ++ [(cScanOf 1 (conf1 m ns idx vmi)).use_from_phase]⟩ := by
    unfold shootPhase
    rw [if_neg hct1]
  -- n_phase_x of phase 0
  have hnpx0 : npxOf accInit 0 (conf0 m ns) = (m : Int) * ((ns : Int) + 1) := by
    have hrows : xrowsOf accInit 0 (conf0 m ns) = m := by
      rw [xrowsOf_own accInit 0 (conf0 m ns) (by rw [sScan_conf0]) (by rw [conf0_shape]; omega)
        rfl, conf0_shape]
    have hvlen : (sScanOf 0 (conf0 m ns)).vmi.length = m := by
      rw [sScan_conf0]
      simp [List.length_range']
    unfold npxOf
    rw [hrows, hvlen, if_neg (by omega)]
    have : (conf0 m ns).ns = ns := rfl
    rw [this]
  -- n_phase_x of phase 1
  have hnpx1 : npxOf st0 1 (conf1 m ns idx vmi) =
      if vmi.length ≠ m then ((m : Int) - (vmi.length : Int)) * ((ns : Int) + 1)
      else (m : Int) * ((ns : Int) + 1) := by
    have halias : ¬ (1 : Nat) = (sScanOf 1 (conf1 m ns idx vmi)).use_from_phase := by
      rw [sScan_conf1_use]
      decide
    have hrows : xrowsOf st0 1 (conf1 m ns idx vmi) = m := by
      rw [xrowsOf_alias st0 1 (conf1 m ns idx vmi) halias
        (by rw [conf1_shape]; omega) rfl ?_, conf1_shape]
      intro k hk hmem
      have hxs : st0.xsL = [(xNodesOf accInit 0 (conf0 m ns)).1] := rfl
      have hxn : (xNodesOf accInit 0 (conf0 m ns)).1 =
          (List.range ((conf0 m ns).ns + 1)).map (fun k => ownXNode (conf0 m ns) 0 k) := by
        unfold xNodesOf
        rw [if_pos (by rw [sScan_conf0])]
      have hsrc0 : (sScanOf 1 (conf1 m ns idx vmi)).use_from_phase = 0 := by
        rw [sScan_conf1]
      rw [hsrc0]
      unfold getRow
      rw [hxs]
      have hg0 : (([(xNodesOf accInit 0 (conf0 m ns)).1]).getD 0 []) =
          (xNodesOf accInit 0 (conf0 m ns)).1 := rfl
      rw [hg0, hxn]
      have hns : (conf0 m ns).ns = ns := rfl
      rw [hns]
      rw [getD_map_range (ns + 1) _ k hk]
      have hk0 : (ownXNode (conf0 m ns) 0 k).getD 0 [] = ownXRow (conf0 m ns) 0 k 0 := by
        unfold ownXNode
        rw [getD_map_range _ _ 0 (by rw [conf0_shape]; omega)]
      rw [hk0, ownXRow_noncolloc (conf0 m ns) 0 k 0 rfl]
      rfl
    have hvlen : (sScanOf 1 (conf1 m ns idx vmi)).vmi = vmi := by
      rw [sScan_conf1]
    unfold npxOf
    rw [hrows, hvlen]
    have hns1 : (conf1 m ns idx vmi).ns = ns := rfl
    rw [hns1]
  refine ⟨⟨st0.xsL ++ [(xNodesOf st0 1 (conf1 m ns idx vmi)).1],
          st0.xuL ++ [(xNodesOf st0 1 (conf1 m ns idx vmi)).2],
          st0.usL ++ [(uNodesOf st0 1 (conf1 m ns idx vmi)).1],
          st0.uuL ++ [(uNodesOf st0 1 (conf1 m ns idx vmi)).2],
          st0.xmat ++ [matFromNodes (xNodesOf st0 1 (conf1 m ns idx vmi)).1],
          st0.umat ++ [matFromNodes (uNodesOf st0 1 (conf1 m ns idx vmi)).1],
          st0.nx ++ [npxOf st0 1 (conf1 m ns idx vmi)],
          st0.nu ++ [npuOf st0 1 (conf1 m ns idx vmi)],
          st0.smi ++ [smiOf 1 (conf1 m ns idx vmi)],
          st0.cmi ++ [cmiOf 1 (conf1 m ns idx vmi)],
          st0.usep ++ [(sScanOf 1 (conf1 m ns idx vmi)).use_from_phase],
          st0.ucep ++ [(cScanOf 1 (conf1 m ns idx vmi)).use_from_phase]⟩, ?_, ?_⟩
  · rw [hfold, h0]
    show shootPhase st0 (1, conf1 m ns idx vmi) >>= (fun s2 => pure s2) = _
    rw [h1]
    rfl
  · show st0.nx ++ [npxOf st0 1 (conf1 m ns idx vmi)] = _
    have hnx0 : st0.nx = [npxOf accInit 0 (conf0 m ns)] := rfl
    rw [hnx0, hnpx0, hnpx1]
    rfl

/-- The C3 claim's general wording fails at full aliasing: with `m = 2`
states all aliased (`ns = 1`), the code stores `n_phase_x[1] = 4` while
"(rows − aliased_row_count) × (ns+1)" is 0. -/
theorem n_phase_x_alias_claim_cex :
    ∃ st, define_ocp_shooting_points (aliasPair 2 1 [0, 1] [some 0, some 1]) = .ok st ∧
      st.usep = [0, 0] ∧
      st.nx.getD 1 0 = 4 ∧ st.nx.getD 1 0 ≠ ((2 : Int) - 2) * ((1 : Int) + 1) :=
  ⟨_, rfl, by decide, by decide, by decide⟩

/-- Concrete run of `n_phase_x_alias_formula`: 3 states, 1 aliased,
`ns = 2` gives `n_phase_x[1] = (3-1)*(2+1)`. -/
theorem n_phase_x_alias_formula_witness :
    0 < 3 ∧
    (∃ st, define_ocp_shooting_points (aliasPair 3 2 [0] [some 0]) = .ok st ∧
      st.nx = [((3 : Nat) : Int) * (((2 : Nat) : Int) + 1),
        if ([some 0] : List (Option Nat)).length ≠ 3 then
          (((3 : Nat) : Int) - ((([some 0] : List (Option Nat)).length : Nat) : Int)) *
            (((2 : Nat) : Int) + 1)
        else ((3 : Nat) : Int) * (((2 : Nat) : Int) + 1)]) :=
  ⟨by decide, n_phase_x_alias_formula 3 2 [0] [some 0] (by decide)⟩

/-! The C2 round-trip scenario: two phases, one state DOF fully aliased. -/

/-- Phase 0 of the C2 scenario: one state, one control, `ns = 1`. -/
def c2conf0 : NlpConf :=
  { nlpDefault with
    ns := 1
    states_el := [("q", 1)]
    controls_el := [("tau", 1)] }

/-- Phase 1: identical, with its whole state ("q", index `[0]`, identity
BiMapping so `variable_mapped_index = [0]`) aliased to phase 0. -/
def c2conf1 : NlpConf :=
  { nlpDefault with
    ns := 1
    states_el := [("q", 1)]
    controls_el := [("tau", 1)]
    states_phase_mapping_idx := [("q", ⟨0, some [0], some [some 0]⟩)] }

def c2confs : List NlpConf := [c2conf0, c2conf1]

/-- **C2.** In the two-phase full-alias scenario the code diverges from the
spec's round-trip: `n_phase_x = [2, 2]` — phase 1 aliases phase 0
(`use_states_from_phase = [0, 0]`) yet contributes `2 ≠ 0` to the count —
while `vector` indeed emits no phase-1 state symbol; consequently
`to_dictionaries` on the solved vector `[1, 2, 3, 4]` (phase-0 states
`1, 2`; controls `3, 4`) reads phase 1's states slice past the real state
block and returns `[[3, 4]]` for phase 1's `"all"`, which is not phase 0's
trajectory `[[1, 2]]`. -/
theorem full_alias_roundtrip_bug :
    ∃ st, define_ocp_shooting_points c2confs = .ok st ∧
      st.usep = [0, 0] ∧
      st.nx = [2, 2] ∧ st.nx.getD 1 0 ≠ 0 ∧
      vectorOf c2confs st [] =
        [.sym (.xsym 0 0 0 0), .sym (.xsym 0 1 0 0),
         .sym (.usym 0 0 0), .sym (.usym 1 0 0)] ∧
      dictGet ((to_dictionaries_states c2confs st [1, 2, 3, 4]).getD 0 []) "all" =
        some [[1, 2]] ∧
      dictGet ((to_dictionaries_states c2confs st [1, 2, 3, 4]).getD 1 []) "all" =
        some [[3, 4]] ∧
      some ([[3, 4]] : List (List Int)) ≠ some ([[1, 2]] : List (List Int)) :=
  ⟨_, rfl, by decide, by decide, by decide, by decide, by decide, by decide, by decide⟩

/-! Length bookkeeping for the flattening triple (`vector`/`bounds`/`init`). -/

lemma length_filterMap_eq_countP {α β : Type} (f : α → Option β) (l : List α) :
    (l.filterMap f).length = l.countP (fun a => (f a).isSome) := by
  induction l with
  | nil => rfl
  | cons a l ih =>
    rcases hf : f a with _ | b
    · rw [List.filterMap_cons_none hf, List.countP_cons, ih]
      simp [hf]
    · rw [List.filterMap_cons_some hf, List.countP_cons, List.length_cons, ih]
      simp [hf]

lemma sum_map_const {α : Type} (l : List α) (n : Nat) :
    (l.map (fun _ => n)).sum = l.length * n := by
  induction l with
  | nil => simp
  | cons a l ih =>
    rw [List.map_cons, List.sum_cons, ih, List.length_cons]
    ring

lemma filter_not_length {α : Type} (l : List α) (f : α → Bool) :
    (l.filter (fun a => ! f a)).length = l.length - (l.filter f).length := by
  induction l with
  | nil => rfl
  | cons a l ih =>
    have hle : (l.filter f).length ≤ l.length := List.length_filter_le f l
    cases hf : f a <;> simp [List.filter_cons, hf, ih] <;> omega

/-- Per-node emitted state-symbol count of one phase in `vector`. -/
def xEmitCount (c : NlpConf) (p use_from : Nat)
    (smi : List (String × NodeMappingIndexM)) : Nat :=
  ((List.range c.statesShape).filter (fun liberty =>
    if use_from = p then true
    else match dictGet smi "all" with
      | some mi => ! (decide ((some liberty) ∈ mi.variable_mapped_index.getD []))
      | none => false)).length

def uEmitCount (c : NlpConf) (p use_from : Nat)
    (cmi : List (String × NodeMappingIndexM)) : Nat :=
  ((List.range c.controlsShape).filter (fun liberty =>
    if use_from = p then true
    else match dictGet cmi "all" with
      | some mi => ! (decide ((some liberty) ∈ mi.variable_mapped_index.getD []))
      | none => false)).length

lemma xInner_length (c : NlpConf) (p use_from : Nat)
    (smi : List (String × NodeMappingIndexM)) (xm : List (List CxE)) (k : Nat) :
    ((List.range c.statesShape).filterMap (fun liberty =>
      if use_from = p then some ((xm.getD k []).getD liberty oobE)
      else
        match dictGet smi "all" with
        | some mi =>
          if (some liberty) ∈ mi.variable_mapped_index.getD [] then none
          else some ((xm.getD k []).getD liberty oobE)
        | none => none)).length = xEmitCount c p use_from smi := by
  rw [length_filterMap_eq_countP, xEmitCount, ← List.countP_eq_length_filter]
  apply List.countP_congr
  intro liberty _
  by_cases hp : use_from = p
  · simp [hp]
  · rcases hmi : dictGet smi "all" with _ | mi
    · simp [hp, hmi]
    · by_cases hmem : (some liberty) ∈ mi.variable_mapped_index.getD []
      · simp [hp, hmi, hmem]
      · simp [hp, hmi, hmem]

lemma uInner_length (c : NlpConf) (p use_from : Nat)
    (cmi : List (String × NodeMappingIndexM)) (um : List (List CxE)) (k : Nat) :
    ((List.range c.controlsShape).filterMap (fun liberty =>
      if use_from = p then some ((um.getD k []).getD liberty oobE)
      else
        match dictGet cmi "all" with
        | some mi =>
          if (some liberty) ∈ mi.variable_mapped_index.getD [] then none
          else some ((um.getD k []).getD liberty oobE)
        | none => none)).length = uEmitCount c p use_from cmi := by
  rw [length_filterMap_eq_countP, uEmitCount, ← List.countP_eq_length_filter]
  apply List.countP_congr
  intro liberty _
  by_cases hp : use_from = p
  · simp [hp]
  · rcases hmi : dictGet cmi "all" with _ | mi
    · simp [hp, hmi]
    · by_cases hmem : (some liberty) ∈ mi.variable_mapped_index.getD []
      · simp [hp, hmi, hmem]
      · simp [hp, hmi, hmem]

lemma vectorXPhase_length (c : NlpConf) (p use_from : Nat)
    (smi : List (String × NodeMappingIndexM)) (xm : List (List CxE)) :
    (vectorXPhase c p use_from smi xm).length =
      (c.ns + 1) * xEmitCount c p use_from smi := by
  unfold vectorXPhase
  rw [List.length_flatten, List.map_map]
  have hcong : ∀ k ∈ List.range (c.ns + 1),
      (List.length ∘ fun k => (List.range c.statesShape).filterMap (fun liberty =>
        if use_from = p then some ((xm.getD k []).getD liberty oobE)
        else
          match dictGet smi "all" with
          | some mi =>
            if (some liberty) ∈ mi.variable_mapped_index.getD [] then none
            else some ((xm.getD k []).getD liberty oobE)
          | none => none)) k = xEmitCount c p use_from smi := by
    intro k _
    exact xInner_length c p use_from smi xm k
  rw [List.map_congr_left hcong, sum_map_const, List.length_range]

lemma vectorUPhase_length (c : NlpConf) (p use_from : Nat)
    (cmi : List (String × NodeMappingIndexM)) (um : List (List CxE)) :
    (vectorUPhase c p use_from cmi um).length =
      lastNodeOf c * uEmitCount c p use_from cmi := by
  unfold vectorUPhase lastNodeOf
  rw [List.length_flatten, List.map_map]
  by_cases hct : c.control_type = .constant
  · rw [if_pos hct, List.range_succ, List.map_append, List.sum_append]
    have hlast : ¬ (c.control_type ≠ .constant ∨
        (c.control_type = .constant ∧ c.ns ≠ c.ns)) := by
      intro h
      rcases h with h | ⟨-, h⟩
      · exact h hct
      · exact h rfl
    have hcong : ∀ k ∈ List.range c.ns,
        (List.length ∘ fun k =>
          if c.control_type ≠ .constant ∨ (c.control_type = .constant ∧ k ≠ c.ns) then
            (List.range c.controlsShape).filterMap (fun liberty =>
              if use_from = p then some ((um.getD k []).getD liberty oobE)
              else
                match dictGet cmi "all" with
                | some mi =>
                  if (some liberty) ∈ mi.variable_mapped_index.getD [] then none
                  else some ((um.getD k []).getD liberty oobE)
                | none => none)
          else []) k = uEmitCount c p use_from cmi := by
      intro k hk
      have hk' : k ≠ c.ns := by
        have := List.mem_range.mp hk
        omega
      rw [Function.comp_apply, if_pos (Or.inr ⟨hct, hk'⟩)]
      exact uInner_length c p use_from cmi um k
    rw [List.map_congr_left hcong, sum_map_const, List.length_range,
      List.map_cons, List.map_nil, Function.comp_apply, if_neg hlast]
    simp
  · rw [if_neg hct]
    have hcong : ∀ k ∈ List.range (c.ns + 1),
        (List.length ∘ fun k =>
          if c.control_type ≠ .constant ∨ (c.control_type = .constant ∧ k ≠ c.ns) then
            (List.range c.controlsShape).filterMap (fun liberty =>
              if use_from = p then some ((um.getD k []).getD liberty oobE)
              else
                match dictGet cmi "all" with
                | some mi =>
                  if (some liberty) ∈ mi.variable_mapped_index.getD [] then none
                  else some ((um.getD k []).getD liberty oobE)
                | none => none)
          else []) k = uEmitCount c p use_from cmi := by
      intro k _
      rw [Function.comp_apply, if_pos (Or.inl hct)]
      exact uInner_length c p use_from cmi um k
    rw [List.map_congr_left hcong, sum_map_const, List.length_range]

lemma filter_true_len {α : Type} (f : α → Bool) :
    ∀ (l : List α), (∀ a ∈ l, f a = true) → (l.filter f).length = l.length := by
  intro l
  induction l with
  | nil => intro _; rfl
  | cons a l ih =>
    intro h
    rw [List.filter_cons, if_pos (h a (List.mem_cons_self a l)), List.length_cons,
      ih (fun a' ha' => h a' (List.mem_cons_of_mem a ha')), List.length_cons]

lemma xEmitCount_eq_specNx (c : NlpConf) (p use_from : Nat)
    (smi : List (String × NodeMappingIndexM))
    (hall : use_from ≠ p → (dictGet smi "all").isSome = true) :
    xEmitCount c p use_from smi = specNxPhase c use_from p smi := by
  unfold xEmitCount specNxPhase
  by_cases hp : use_from = p
  · rw [if_pos hp]
    rw [filter_true_len _ _ (fun a _ => by rw [if_pos hp]), List.length_range]
  · rw [if_neg hp]
    rcases hmi : dictGet smi "all" with _ | mi
    · exfalso
      have hs := hall hp
      rw [hmi] at hs
      simp at hs
    · have hcong : ∀ a ∈ List.range c.statesShape,
          (if use_from = p then true
           else match some mi with
             | some mi => ! (decide ((some a) ∈ mi.variable_mapped_index.getD []))
             | none => false) =
          ! (decide ((some a) ∈ mi.variable_mapped_index.getD [])) := by
        intro a _
        rw [if_neg hp]
      rw [List.filter_congr hcong, filter_not_length, List.length_range]

lemma uEmitCount_eq_specNu (c : NlpConf) (p use_from : Nat)
    (cmi : List (String × NodeMappingIndexM))
    (hall : use_from ≠ p → (dictGet cmi "all").isSome = true) :
    uEmitCount c p use_from cmi = specNuPhase c use_from p cmi := by
  unfold uEmitCount specNuPhase
  by_cases hp : use_from = p
  · rw [if_pos hp]
    rw [filter_true_len _ _ (fun a _ => by rw [if_pos hp]), List.length_range]
  · rw [if_neg hp]
    rcases hmi : dictGet cmi "all" with _ | mi
    · exfalso
      have hs := hall hp
      rw [hmi] at hs
      simp at hs
    · have hcong : ∀ a ∈ List.range c.controlsShape,
          (if use_from = p then true
           else match some mi with
             | some mi => ! (decide ((some a) ∈ mi.variable_mapped_index.getD []))
             | none => false) =
          ! (decide ((some a) ∈ mi.variable_mapped_index.getD [])) := by
        intro a _
        rw [if_neg hp]
      rw [List.filter_congr hcong, filter_not_length, List.length_range]

/-! Lengths of the bounds/init columns. -/

lemma setSlice_length (l : List Int) (a b : Nat) (v : List Int) :
    (setSlice l a b v).length = l.length := by
  unfold setSlice
  rw [List.length_map, List.length_range]

lemma zerosI_length (n : Nat) : (zerosI n).length = n := by
  unfold zerosI
  rw [List.length_map, List.length_range]

lemma foldl_preserve_length {β : Type} (g : List Int → β → List Int)
    (hg : ∀ m b, (g m b).length = m.length) :
    ∀ (bs : List β) (m0 : List Int), (bs.foldl g m0).length = m0.length := by
  intro bs
  induction bs with
  | nil =>
    intro m0
    rfl
  | cons b bs ih =>
    intro m0
    rw [List.foldl_cons, ih, hg]

lemma bXfill_length (c : NlpConf) (nxp : Nat) (tbl : List (List Int)) :
    (bXfill c nxp tbl).length = bXall c nxp := by
  unfold bXfill
  rw [foldl_preserve_length _ ?hg, zerosI_length]
  intro m k
  exact foldl_preserve_length _ (fun m2 pp => setSlice_length m2 _ _ _) _ m

lemma iXfill_length (c : NlpConf) (nxp : Nat) :
    (iXfill c nxp).length = iXall c nxp := by
  unfold iXfill
  rw [foldl_preserve_length _ ?hg, zerosI_length]
  intro m k
  exact foldl_preserve_length _ (fun m2 pp => setSlice_length m2 _ _ _) _ m

lemma uFill_length (nup nsb : Nat) (tbl : List (List Int)) :
    (uFill nup nsb tbl).length = nup * nsb := by
  unfold uFill
  rw [foldl_preserve_length _ (fun m k => setSlice_length m _ _ _), zerosI_length]

lemma scale_bmin_length (b : BoundsM) (v : List Int) :
    (b.scale v).bmin.length = b.bmin.length := by
  unfold BoundsM.scale
  rw [List.length_mapIdx]

lemma scale_bmax_length (b : BoundsM) (v : List Int) :
    (b.scale v).bmax.length = b.bmax.length := by
  unfold BoundsM.scale
  rw [List.length_mapIdx]

lemma scale_init_length (g : InitialGuessM) (v : List Int) :
    (g.scale v).init.length = g.init.length := by
  unfold InitialGuessM.scale
  rw [List.length_mapIdx]

/-! Values of the concatenation folds. -/

lemma bounds_foldl_concat_min {β : Type} (g : β → BoundsM) :
    ∀ (l : List β) (init : BoundsM),
    (l.foldl (fun acc b => acc.concatenate (g b)) init).bmin =
      init.bmin ++ (l.map (fun b => (g b).bmin)).flatten := by
  intro l
  induction l with
  | nil =>
    intro init
    simp
  | cons b l ih =>
    intro init
    rw [List.foldl_cons, ih, List.map_cons, List.flatten_cons]
    show ((init.concatenate (g b)).bmin) ++ _ = _
    rw [show (init.concatenate (g b)).bmin = init.bmin ++ (g b).bmin from rfl,
      List.append_assoc]

lemma bounds_foldl_concat_max {β : Type} (g : β → BoundsM) :
    ∀ (l : List β) (init : BoundsM),
    (l.foldl (fun acc b => acc.concatenate (g b)) init).bmax =
      init.bmax ++ (l.map (fun b => (g b).bmax)).flatten := by
  intro l
  induction l with
  | nil =>
    intro init
    simp
  | cons b l ih =>
    intro init
    rw [List.foldl_cons, ih, List.map_cons, List.flatten_cons]
    show ((init.concatenate (g b)).bmax) ++ _ = _
    rw [show (init.concatenate (g b)).bmax = init.bmax ++ (g b).bmax from rfl,
      List.append_assoc]

lemma ig_foldl_concat {β : Type} (g : β → InitialGuessM) :
    ∀ (l : List β) (init : InitialGuessM),
    (l.foldl (fun acc b => acc.concatenate (g b)) init).init =
      init.init ++ (l.map (fun b => (g b).init)).flatten := by
  intro l
  induction l with
  | nil =>
    intro init
    simp
  | cons b l ih =>
    intro init
    rw [List.foldl_cons, ih, List.map_cons, List.flatten_cons]
    show ((init.concatenate (g b)).init) ++ _ = _
    rw [show (init.concatenate (g b)).init = init.init ++ (g b).init from rfl,
      List.append_assoc]

/-! Inversion of the three declaration pipelines. -/

lemma except_bind_ok {α β : Type} (a : α) (f : α → Except String β) :
    (Except.ok a >>= f) = f a := rfl

lemma except_bind_err {α β : Type} (e : String) (f : α → Except String β) :
    ((Except.error e : Except String α) >>= f) = .error e := rfl

lemma mapM_ok_inv {α β : Type} (f : α → Except String β) (g : α → β)
    (hfg : ∀ a b, f a = .ok b → b = g a) :
    ∀ (l : List α) (out : List β), l.mapM f = .ok out → out = l.map g := by
  intro l
  induction l with
  | nil =>
    intro out h
    cases h
    rfl
  | cons a l ih =>
    intro out h
    rw [List.mapM_cons] at h
    rcases hfa : f a with e | b
    · rw [hfa, except_bind_err] at h
      cases h
    · rw [hfa, except_bind_ok] at h
      rcases hrest : l.mapM f with e | bs
      · rw [hrest, except_bind_err] at h
        cases h
      · rw [hrest, except_bind_ok] at h
        cases h
        rw [List.map_cons, ← ih bs hrest, hfg a b hfa]

lemma enum_mem_spec {α : Type} (l : List α) (p : Nat × α) (hp : p ∈ l.enum) :
    l[p.1]? = some p.2 := by
  obtain ⟨n, hn⟩ := List.getElem?_of_mem hp
  rw [List.getElem?_enum] at hn
  rcases hl : l[n]? with _ | a
  · rw [hl] at hn
    cases hn
  · rw [hl] at hn
    cases hn
    exact hl

lemma mem_of_enum {α : Type} (l : List α) (p : Nat × α) (hp : p ∈ l.enum) :
    p.2 ∈ l :=
  List.getElem?_mem (enum_mem_spec l p hp)

lemma map_comp_snd_enum {α β : Type} (l : List α) (h : α → β) :
    l.enum.map (fun p => h p.2) = l.map h := by
  rw [show (fun p : Nat × α => h p.2) = h ∘ Prod.snd from rfl, ← List.map_map,
    List.enum_map_snd]

/-- The control node count of the ok branches of
`boundsUPhase`/`initUPhase`. -/
def uNsOf (c : NlpConf) : Nat :=
  if c.control_type = .linearContinuous then c.ns + 1 else c.ns

lemma boundsUPhase_ok_inv (c : NlpConf) (nup : Nat) (b : BoundsM)
    (h : boundsUPhase c nup = .ok b) :
    b = ⟨uFill nup (uNsOf c) c.u_bounds_min, uFill nup (uNsOf c) c.u_bounds_max⟩ := by
  unfold boundsUPhase at h
  unfold uNsOf
  cases hct : c.control_type
  · rw [hct] at h
    cases h
    rfl
  · rw [hct] at h
    cases h
    rfl
  · rw [hct] at h
    cases h

lemma initUPhase_ok_inv (c : NlpConf) (nup : Nat) (g : InitialGuessM)
    (h : initUPhase c nup = .ok g) :
    g = ⟨uFill nup (uNsOf c) c.u_init_eval⟩ := by
  unfold initUPhase at h
  unfold uNsOf
  cases hct : c.control_type
  · rw [hct] at h
    cases h
    rfl
  · rw [hct] at h
    cases h
    rfl
  · rw [hct] at h
    cases h

lemma define_ocp_bounds_inv (confs : List NlpConf) (st : ShootAcc)
    (xb ub : List BoundsM) (h : define_ocp_bounds confs st = .ok (xb, ub)) :
    xb = confs.enum.map (fun pc => boundsXPhase pc.2
      (specNxPhase pc.2 (st.usep.getD pc.1 pc.1) pc.1 (st.smi.getD pc.1 []))) ∧
    ub = confs.enum.map (fun pc =>
      (⟨uFill (specNuPhase pc.2 (st.ucep.getD pc.1 pc.1) pc.1 (st.cmi.getD pc.1 []))
          (uNsOf pc.2) pc.2.u_bounds_min,
        uFill (specNuPhase pc.2 (st.ucep.getD pc.1 pc.1) pc.1 (st.cmi.getD pc.1 []))
          (uNsOf pc.2) pc.2.u_bounds_max⟩ : BoundsM)) := by
  unfold define_ocp_bounds at h
  rcases hchk : confs.mapM chkCt with e | l0
  · rw [hchk, except_bind_err] at h
    cases h
  · rw [hchk, except_bind_ok] at h
    rcases hub : confs.enum.mapM (fun pc =>
        boundsUPhase pc.2
          (specNuPhase pc.2 (st.ucep.getD pc.1 pc.1) pc.1 (st.cmi.getD pc.1 [])))
      with e | ubl
    · rw [hub, except_bind_err] at h
      cases h
    · rw [hub, except_bind_ok] at h
      cases h
      refine ⟨rfl, ?_⟩
      exact mapM_ok_inv _ _
        (fun pc b hb => boundsUPhase_ok_inv pc.2 _ b hb) _ ub hub

lemma define_ocp_initial_guess_inv (confs : List NlpConf) (st : ShootAcc)
    (xi ui : List InitialGuessM)
    (h : define_ocp_initial_guess confs st = .ok (xi, ui)) :
    xi = confs.enum.map (fun pc => initXPhase pc.2
      (specNxPhase pc.2 (st.usep.getD pc.1 pc.1) pc.1 (st.smi.getD pc.1 []))) ∧
    ui = confs.enum.map (fun pc =>
      (⟨uFill (specNuPhase pc.2 (st.ucep.getD pc.1 pc.1) pc.1 (st.cmi.getD pc.1 []))
          (uNsOf pc.2) pc.2.u_init_eval⟩ : InitialGuessM)) := by
  unfold define_ocp_initial_guess at h
  rcases hchk : confs.mapM chkInit with e | l0
  · rw [hchk, except_bind_err] at h
    cases h
  · rw [hchk, except_bind_ok] at h
    rcases hui : confs.enum.mapM (fun pc =>
        initUPhase pc.2
          (specNuPhase pc.2 (st.ucep.getD pc.1 pc.1) pc.1 (st.cmi.getD pc.1 [])))
      with e | uil
    · rw [hui, except_bind_err] at h
      cases h
    · rw [hui, except_bind_ok] at h
      cases h
      refine ⟨rfl, ?_⟩
      exact mapM_ok_inv _ _
        (fun pc g hg => initUPhase_ok_inv pc.2 _ g hg) _ ui hui

lemma shootPhase_ok_inv (acc : ShootAcc) (pc : Nat × NlpConf) (st : ShootAcc)
    (h : shootPhase acc pc = .ok st) :
    st.usep = acc.usep ++ [(sScanOf pc.1 pc.2).use_from_phase] ∧
    st.smi = acc.smi ++ [smiOf pc.1 pc.2] ∧
    st.ucep = acc.ucep ++ [(cScanOf pc.1 pc.2).use_from_phase] ∧
    st.cmi = acc.cmi ++ [cmiOf pc.1 pc.2] ∧
    (pc.2.control_type = .constant ∨ pc.2.control_type = .linearContinuous) := by
  unfold shootPhase at h
  by_cases hct : pc.2.control_type ≠ .constant ∧ pc.2.control_type ≠ .linearContinuous
  · rw [if_pos hct] at h
    cases h
  · rw [if_neg hct] at h
    cases h
    refine ⟨rfl, rfl, rfl, rfl, ?_⟩
    by_cases h1 : pc.2.control_type = .constant
    · exact .inl h1
    · by_cases h2 : pc.2.control_type = .linearContinuous
      · exact .inr h2
      · exact absurd ⟨h1, h2⟩ hct

lemma shootFold_fields :
    ∀ (l : List (Nat × NlpConf)) (acc st : ShootAcc),
    l.foldlM shootPhase acc = .ok st →
    st.usep = acc.usep ++ l.map (fun pc => (sScanOf pc.1 pc.2).use_from_phase) ∧
    st.smi = acc.smi ++ l.map (fun pc => smiOf pc.1 pc.2) ∧
    st.ucep = acc.ucep ++ l.map (fun pc => (cScanOf pc.1 pc.2).use_from_phase) ∧
    st.cmi = acc.cmi ++ l.map (fun pc => cmiOf pc.1 pc.2) ∧
    (∀ pc ∈ l, pc.2.control_type = .constant ∨
      pc.2.control_type = .linearContinuous) := by
  intro l
  induction l with
  | nil =>
    intro acc st h
    cases h
    refine ⟨by simp, by simp, by simp, by simp, ?_⟩
    intro pc hpc
    cases hpc
  | cons pc l ih =>
    intro acc st h
    rw [List.foldlM_cons] at h
    rcases hsp : shootPhase acc pc with e | acc'
    · rw [hsp, except_bind_err] at h
      cases h
    · rw [hsp, except_bind_ok] at h
      obtain ⟨hu, hs, huc, hc, hcts⟩ := ih acc' st h
      obtain ⟨hu', hs', huc', hc', hct1⟩ := shootPhase_ok_inv acc pc acc' hsp
      rw [hu, hu', hs, hs', huc, huc', hc, hc']
      refine ⟨by simp, by simp, by simp, by simp, ?_⟩
      intro pc' hpc'
      rcases List.mem_cons.mp hpc' with h' | h'
      · rw [h']
        exact hct1
      · exact hcts pc' h'

/-- Scanned source phase differs from the own phase only when a mapping was
found (so the `'all'` aggregate is written). -/
lemma idxScanStep_use_inv (p : Nat) (mapIdx : List (String × NodeMappingIndexM))
    (acc : IdxScan) (el : String × Nat)
    (h : acc.use_from_phase ≠ p → acc.has_mapping = true) :
    (idxScanStep mapIdx acc el).use_from_phase ≠ p →
    (idxScanStep mapIdx acc el).has_mapping = true := by
  intro hne
  rcases hd : dictGet mapIdx el.1 with _ | mi
  · have hstep : idxScanStep mapIdx acc el =
        ⟨acc.index ++ List.range' acc.current_index el.2,
         acc.vmi ++ (List.range' acc.current_index el.2).map some,
         acc.use_from_phase, acc.has_mapping, acc.current_index + el.2⟩ := by
      unfold idxScanStep
      rw [hd]
    rw [hstep] at hne ⊢
    exact h hne
  · have hstep : idxScanStep mapIdx acc el = (match mi.variable_mapped_index with
        | some vm =>
          (⟨acc.index ++ mi.index.getD [], acc.vmi ++ vm, mi.phase, true,
            acc.current_index + el.2⟩ : IdxScan)
        | none =>
          ⟨acc.index ++ List.range' acc.current_index el.2,
           acc.vmi ++ (List.range' acc.current_index el.2).map some,
           acc.use_from_phase, acc.has_mapping, acc.current_index + el.2⟩) := by
      unfold idxScanStep
      rw [hd]
    rw [hstep] at hne ⊢
    rcases hv : mi.variable_mapped_index with _ | vm
    · rw [hv] at hne
      exact h hne
    · rfl

lemma idxScan_use_ne (p : Nat) (els : List (String × Nat))
    (mapIdx : List (String × NodeMappingIndexM)) :
    (idxScan p els mapIdx).use_from_phase ≠ p →
    (idxScan p els mapIdx).has_mapping = true := by
  unfold idxScan
  have hgen : ∀ (l : List (String × Nat)) (acc : IdxScan),
      (acc.use_from_phase ≠ p → acc.has_mapping = true) →
      ((l.foldl (idxScanStep mapIdx) acc).use_from_phase ≠ p →
       (l.foldl (idxScanStep mapIdx) acc).has_mapping = true) := by
    intro l
    induction l with
    | nil =>
      intro acc h
      exact h
    | cons el l ih =>
      intro acc h
      rw [List.foldl_cons]
      exact ih _ (idxScanStep_use_inv p mapIdx acc el h)
  exact hgen els ⟨[], [], p, false, 0⟩ (fun hne => absurd rfl hne)

/-! ### C1: positional alignment of `vector`, `bounds` and `init` -/

lemma enum_getD_conf (confs : List NlpConf) (pc : Nat × NlpConf)
    (hpc : pc ∈ confs.enum) : confs.getD pc.1 nlpDefault = pc.2 := by
  rw [List.getD_eq_getElem?_getD, enum_mem_spec confs pc hpc]
  rfl

lemma getD_of_eq_enum_map {α : Type} (v : List α) (confs : List NlpConf)
    (f : Nat × NlpConf → α) (hv : v = confs.enum.map f)
    (pc : Nat × NlpConf) (hpc : pc ∈ confs.enum) (d : α) :
    v.getD pc.1 d = f pc := by
  have h1 : confs.enum[pc.1]? = some pc := by
    rw [List.getElem?_enum, enum_mem_spec confs pc hpc]
    rfl
  rw [hv, List.getD_eq_getElem?_getD, List.getElem?_map, h1]
  rfl

lemma vectorOf_length (confs : List NlpConf) (st : ShootAcc)
    (pool : List Parameter) :
    (vectorOf confs st pool).length =
      (confs.enum.map (fun pc => (pc.2.ns + 1) *
        xEmitCount pc.2 pc.1 (st.usep.getD pc.1 pc.1) (st.smi.getD pc.1 []))).sum +
      (confs.enum.map (fun pc => lastNodeOf pc.2 *
        uEmitCount pc.2 pc.1 (st.ucep.getD pc.1 pc.1) (st.cmi.getD pc.1 []))).sum +
      (pool.map (fun q => (q.cx.getD []).length)).sum := by
  unfold vectorOf paramsCx
  rw [List.length_append, List.length_append, List.length_flatten,
    List.length_flatten, List.length_flatten, List.map_map, List.map_map,
    List.map_map]
  congr 1
  · congr 1
    · congr 1
      apply List.map_congr_left
      intro pc _
      rw [Function.comp_apply]
      exact vectorXPhase_length pc.2 pc.1 _ _ _
    · congr 1
      apply List.map_congr_left
      intro pc _
      rw [Function.comp_apply]
      exact vectorUPhase_length pc.2 pc.1 _ _ _
  · congr 1
    apply List.map_congr_left
    intro q _
    rw [Function.comp_apply]
    exact List.length_map _ _

lemma boundsOf_bmin_length (confs : List NlpConf) (xb ub : List BoundsM)
    (pool : List Parameter) :
    (boundsOf confs xb ub pool).bmin.length =
      (xb.map (fun b => b.bmin.length)).sum +
      (ub.map (fun b => b.bmin.length)).sum +
      (pool.map (fun q => q.bounds.bmin.length)).sum := by
  unfold boundsOf
  rw [bounds_foldl_concat_min paramBoundsScaled,
    bounds_foldl_concat_min (boundsUScaled confs),
    bounds_foldl_concat_min (boundsXScaled confs)]
  simp only [List.nil_append, List.length_append, List.length_flatten,
    List.map_map]
  congr 1
  · congr 1
    · have h1 : xb.enum.map (List.length ∘ fun b => (boundsXScaled confs b).bmin) =
          xb.enum.map (fun pb : Nat × BoundsM => pb.2.bmin.length) := by
        apply List.map_congr_left
        intro pb _
        rw [Function.comp_apply]
        unfold boundsXScaled
        exact scale_bmin_length pb.2 _
      have h2 : xb.enum.map (fun pb : Nat × BoundsM => pb.2.bmin.length) =
          xb.map (fun b => b.bmin.length) :=
        map_comp_snd_enum xb (fun b => b.bmin.length)
      rw [h1, h2]
    · have h1 : ub.enum.map (List.length ∘ fun b => (boundsUScaled confs b).bmin) =
          ub.enum.map (fun pb : Nat × BoundsM => pb.2.bmin.length) := by
        apply List.map_congr_left
        intro pb _
        rw [Function.comp_apply]
        unfold boundsUScaled
        exact scale_bmin_length pb.2 _
      have h2 : ub.enum.map (fun pb : Nat × BoundsM => pb.2.bmin.length) =
          ub.map (fun b => b.bmin.length) :=
        map_comp_snd_enum ub (fun b => b.bmin.length)
      rw [h1, h2]
  · congr 1
    apply List.map_congr_left
    intro q _
    rw [Function.comp_apply]
    unfold paramBoundsScaled
    exact scale_bmin_length q.bounds q.scaling

lemma boundsOf_bmax_length (confs : List NlpConf) (xb ub : List BoundsM)
    (pool : List Parameter) :
    (boundsOf confs xb ub pool).bmax.length =
      (xb.map (fun b => b.bmax.length)).sum +
      (ub.map (fun b => b.bmax.length)).sum +
      (pool.map (fun q => q.bounds.bmax.length)).sum := by
  unfold boundsOf
  rw [bounds_foldl_concat_max paramBoundsScaled,
    bounds_foldl_concat_max (boundsUScaled confs),
    bounds_foldl_concat_max (boundsXScaled confs)]
  simp only [List.nil_append, List.length_append, List.length_flatten,
    List.map_map]
  congr 1
  · congr 1
    · have h1 : xb.enum.map (List.length ∘ fun b => (boundsXScaled confs b).bmax) =
          xb.enum.map (fun pb : Nat × BoundsM => pb.2.bmax.length) := by
        apply List.map_congr_left
        intro pb _
        rw [Function.comp_apply]
        unfold boundsXScaled
        exact scale_bmax_length pb.2 _
      have h2 : xb.enum.map (fun pb : Nat × BoundsM => pb.2.bmax.length) =
          xb.map (fun b => b.bmax.length) :=
        map_comp_snd_enum xb (fun b => b.bmax.length)
      rw [h1, h2]
    · have h1 : ub.enum.map (List.length ∘ fun b => (boundsUScaled confs b).bmax) =
          ub.enum.map (fun pb : Nat × BoundsM => pb.2.bmax.length) := by
        apply List.map_congr_left
        intro pb _
        rw [Function.comp_apply]
        unfold boundsUScaled
        exact scale_bmax_length pb.2 _
      have h2 : ub.enum.map (fun pb : Nat × BoundsM => pb.2.bmax.length) =
          ub.map (fun b => b.bmax.length) :=
        map_comp_snd_enum ub (fun b => b.bmax.length)
      rw [h1, h2]
  · congr 1
    apply List.map_congr_left
    intro q _
    rw [Function.comp_apply]
    unfold paramBoundsScaled
    exact scale_bmax_length q.bounds q.scaling

lemma initOf_init_length (confs : List NlpConf) (st : ShootAcc)
    (xi ui : List InitialGuessM) (pool : List Parameter)
    (hX : ∀ pg ∈ xi.enum, (initXScaled confs st pg).init.length =
      pg.2.init.length) :
    (initOf confs st xi ui pool).init.length =
      (xi.map (fun g => g.init.length)).sum +
      (ui.map (fun g => g.init.length)).sum +
      (pool.map (fun q => q.initial_guess.length)).sum := by
  unfold initOf
  rw [ig_foldl_concat paramInitScaled,
    ig_foldl_concat (initUScaled confs),
    ig_foldl_concat (initXScaled confs st)]
  simp only [List.nil_append, List.length_append, List.length_flatten,
    List.map_map]
  congr 1
  · congr 1
    · have h1 : xi.enum.map (List.length ∘ fun g => (initXScaled confs st g).init) =
          xi.enum.map (fun pg : Nat × InitialGuessM => pg.2.init.length) := by
        apply List.map_congr_left
        intro pg hpg
        rw [Function.comp_apply]
        exact hX pg hpg
      have h2 : xi.enum.map (fun pg : Nat × InitialGuessM => pg.2.init.length) =
          xi.map (fun g => g.init.length) :=
        map_comp_snd_enum xi (fun g => g.init.length)
      rw [h1, h2]
    · have h1 : ui.enum.map (List.length ∘ fun g => (initUScaled confs g).init) =
          ui.enum.map (fun pg : Nat × InitialGuessM => pg.2.init.length) := by
        apply List.map_congr_left
        intro pg _
        rw [Function.comp_apply]
        unfold initUScaled
        exact scale_init_length pg.2 _
      have h2 : ui.enum.map (fun pg : Nat × InitialGuessM => pg.2.init.length) =
          ui.map (fun g => g.init.length) :=
        map_comp_snd_enum ui (fun g => g.init.length)
      rw [h1, h2]
  · congr 1
    apply List.map_congr_left
    intro q _
    rw [Function.comp_apply]
    unfold paramInitScaled
    exact scale_init_length (⟨q.initial_guess⟩ : InitialGuessM) q.scaling

/-- C1 (amended: restricted to problems whose phases all use a
non-direct-collocation solver). After `define_ocp_shooting_points`,
`define_ocp_bounds` and `define_ocp_initial_guess` have all run, the flat
symbolic `vector` and the `bounds` min/max columns and the `init` column
have the same length, aliasing phases included, provided every parameter in
the pool carries consistently sized `cx`/bounds/initial-guess blocks. Under
direct collocation the alignment fails (see the counterexample below). -/
theorem vector_bounds_init_aligned (confs : List NlpConf) (st : ShootAcc)
    (pool : List Parameter) (xb ub : List BoundsM) (xi ui : List InitialGuessM)
    (hnc : ∀ c ∈ confs, c.ode_solver.is_direct_collocation = false)
    (hst : define_ocp_shooting_points confs = .ok st)
    (hb : define_ocp_bounds confs st = .ok (xb, ub))
    (hi : define_ocp_initial_guess confs st = .ok (xi, ui))
    (hpool : ∀ q ∈ pool, (q.cx.getD []).length = q.size ∧
      q.bounds.bmin.length = q.size ∧ q.bounds.bmax.length = q.size ∧
      q.initial_guess.length = q.size) :
    (vectorOf confs st pool).length = (boundsOf confs xb ub pool).bmin.length ∧
    (vectorOf confs st pool).length = (boundsOf confs xb ub pool).bmax.length ∧
    (vectorOf confs st pool).length = (initOf confs st xi ui pool).init.length := by
  obtain ⟨hxb, hub⟩ := define_ocp_bounds_inv confs st xb ub hb
  obtain ⟨hxi, hui⟩ := define_ocp_initial_guess_inv confs st xi ui hi
  obtain ⟨husep, hsmi, hucep, hcmi, hcts⟩ :=
    shootFold_fields confs.enum accInit st hst
  rw [show accInit.usep = ([] : List Nat) from rfl, List.nil_append] at husep
  rw [show accInit.smi = ([] : List (List (String × NodeMappingIndexM))) from rfl,
    List.nil_append] at hsmi
  rw [show accInit.ucep = ([] : List Nat) from rfl, List.nil_append] at hucep
  rw [show accInit.cmi = ([] : List (List (String × NodeMappingIndexM))) from rfl,
    List.nil_append] at hcmi
  have husepD : ∀ pc ∈ confs.enum,
      st.usep.getD pc.1 pc.1 = (sScanOf pc.1 pc.2).use_from_phase :=
    fun pc hpc => getD_of_eq_enum_map st.usep confs _ husep pc hpc pc.1
  have hsmiD : ∀ pc ∈ confs.enum, st.smi.getD pc.1 [] = smiOf pc.1 pc.2 :=
    fun pc hpc => getD_of_eq_enum_map st.smi confs _ hsmi pc hpc []
  have hucepD : ∀ pc ∈ confs.enum,
      st.ucep.getD pc.1 pc.1 = (cScanOf pc.1 pc.2).use_from_phase :=
    fun pc hpc => getD_of_eq_enum_map st.ucep confs _ hucep pc hpc pc.1
  have hcmiD : ∀ pc ∈ confs.enum, st.cmi.getD pc.1 [] = cmiOf pc.1 pc.2 :=
    fun pc hpc => getD_of_eq_enum_map st.cmi confs _ hcmi pc hpc []
  have hallX : ∀ pc ∈ confs.enum, st.usep.getD pc.1 pc.1 ≠ pc.1 →
      (dictGet (st.smi.getD pc.1 []) "all").isSome = true := by
    intro pc hpc hne
    rw [husepD pc hpc] at hne
    rw [hsmiD pc hpc]
    unfold smiOf
    have hhm : (sScanOf pc.1 pc.2).has_mapping = true :=
      idxScan_use_ne pc.1 pc.2.states_el pc.2.states_phase_mapping_idx hne
    rw [if_pos hhm, dictGet_dictSet_self]
    rfl
  have hallU : ∀ pc ∈ confs.enum, st.ucep.getD pc.1 pc.1 ≠ pc.1 →
      (dictGet (st.cmi.getD pc.1 []) "all").isSome = true := by
    intro pc hpc hne
    rw [hucepD pc hpc] at hne
    rw [hcmiD pc hpc]
    unfold cmiOf
    have hhm : (cScanOf pc.1 pc.2).has_mapping = true :=
      idxScan_use_ne pc.1 pc.2.controls_el pc.2.controls_phase_mapping_idx hne
    rw [if_pos hhm, dictGet_dictSet_self]
    rfl
  have hXfresh : ∀ pc ∈ confs.enum,
      (pc.2.ns + 1) * xEmitCount pc.2 pc.1 (st.usep.getD pc.1 pc.1)
        (st.smi.getD pc.1 []) =
      specNxPhase pc.2 (st.usep.getD pc.1 pc.1) pc.1 (st.smi.getD pc.1 []) *
        (pc.2.ns + 1) := by
    intro pc hpc
    rw [xEmitCount_eq_specNx pc.2 pc.1 _ _ (hallX pc hpc)]
    exact Nat.mul_comm _ _
  have hUfresh : ∀ pc ∈ confs.enum,
      lastNodeOf pc.2 * uEmitCount pc.2 pc.1 (st.ucep.getD pc.1 pc.1)
        (st.cmi.getD pc.1 []) =
      specNuPhase pc.2 (st.ucep.getD pc.1 pc.1) pc.1 (st.cmi.getD pc.1 []) *
        uNsOf pc.2 := by
    intro pc hpc
    rw [uEmitCount_eq_specNu pc.2 pc.1 _ _ (hallU pc hpc), Nat.mul_comm]
    congr 1
    unfold lastNodeOf uNsOf
    rcases hcts pc hpc with h | h
    · simp [h]
    · simp [h]
  have hveclen := vectorOf_length confs st pool
  have hXin : ∀ pg ∈ xi.enum,
      (initXScaled confs st pg).init.length = pg.2.init.length := by
    intro pg hpg
    unfold initXScaled
    rw [scale_init_length]
    have hlt : pg.1 < confs.length := by
      have hx := enum_mem_spec xi pg hpg
      have hlt' : pg.1 < xi.length := by
        by_contra hge
        rw [List.getElem?_eq_none (by omega)] at hx
        cases hx
      rw [hxi, List.length_map, List.enum_length] at hlt'
      exact hlt'
    have hmem : confs.getD pg.1 nlpDefault ∈ confs := by
      rw [List.getD_eq_getElem confs nlpDefault hlt]
      exact List.getElem_mem hlt
    rw [if_neg (by rw [hnc _ hmem]; simp)]
  refine ⟨?_, ?_, ?_⟩
  · rw [hveclen, boundsOf_bmin_length, hxb, hub, List.map_map, List.map_map]
    congr 1
    · congr 1
      · congr 1
        apply List.map_congr_left
        intro pc hpc
        show (pc.2.ns + 1) * xEmitCount pc.2 pc.1 (st.usep.getD pc.1 pc.1)
            (st.smi.getD pc.1 []) =
          (bXfill pc.2 (specNxPhase pc.2 (st.usep.getD pc.1 pc.1) pc.1
            (st.smi.getD pc.1 [])) pc.2.x_bounds_min).length
        rw [bXfill_length]
        unfold bXall
        rw [if_neg (by rw [hnc pc.2 (mem_of_enum confs pc hpc)]; simp)]
        exact hXfresh pc hpc
      · congr 1
        apply List.map_congr_left
        intro pc hpc
        show lastNodeOf pc.2 * uEmitCount pc.2 pc.1 (st.ucep.getD pc.1 pc.1)
            (st.cmi.getD pc.1 []) =
          (uFill (specNuPhase pc.2 (st.ucep.getD pc.1 pc.1) pc.1
            (st.cmi.getD pc.1 [])) (uNsOf pc.2) pc.2.u_bounds_min).length
        rw [uFill_length]
        exact hUfresh pc hpc
    · congr 1
      apply List.map_congr_left
      intro q hq
      rw [(hpool q hq).1, (hpool q hq).2.1]
  · rw [hveclen, boundsOf_bmax_length, hxb, hub, List.map_map, List.map_map]
    congr 1
    · congr 1
      · congr 1
        apply List.map_congr_left
        intro pc hpc
        show (pc.2.ns + 1) * xEmitCount pc.2 pc.1 (st.usep.getD pc.1 pc.1)
            (st.smi.getD pc.1 []) =
          (bXfill pc.2 (specNxPhase pc.2 (st.usep.getD pc.1 pc.1) pc.1
            (st.smi.getD pc.1 [])) pc.2.x_bounds_max).length
        rw [bXfill_length]
        unfold bXall
        rw [if_neg (by rw [hnc pc.2 (mem_of_enum confs pc hpc)]; simp)]
        exact hXfresh pc hpc
      · congr 1
        apply List.map_congr_left
        intro pc hpc
        show lastNodeOf pc.2 * uEmitCount pc.2 pc.1 (st.ucep.getD pc.1 pc.1)
            (st.cmi.getD pc.1 []) =
          (uFill (specNuPhase pc.2 (st.ucep.getD pc.1 pc.1) pc.1
            (st.cmi.getD pc.1 [])) (uNsOf pc.2) pc.2.u_bounds_max).length
        rw [uFill_length]
        exact hUfresh pc hpc
    · congr 1
      apply List.map_congr_left
      intro q hq
      rw [(hpool q hq).1, (hpool q hq).2.2.1]
  · rw [hveclen, initOf_init_length confs st xi ui pool hXin, hxi, hui,
      List.map_map, List.map_map]
    congr 1
    · congr 1
      · congr 1
        apply List.map_congr_left
        intro pc hpc
        have hmem := mem_of_enum confs pc hpc
        show (pc.2.ns + 1) * xEmitCount pc.2 pc.1 (st.usep.getD pc.1 pc.1)
            (st.smi.getD pc.1 []) =
          (iXfill pc.2 (specNxPhase pc.2 (st.usep.getD pc.1 pc.1) pc.1
            (st.smi.getD pc.1 []))).length
        rw [iXfill_length]
        unfold iXall
        have hcol2 : ¬ iXcolloc pc.2 := by
          unfold iXcolloc
          rw [hnc pc.2 hmem]
          simp
        rw [if_neg hcol2]
        exact hXfresh pc hpc
      · congr 1
        apply List.map_congr_left
        intro pc hpc
        show lastNodeOf pc.2 * uEmitCount pc.2 pc.1 (st.ucep.getD pc.1 pc.1)
            (st.cmi.getD pc.1 []) =
          (uFill (specNuPhase pc.2 (st.ucep.getD pc.1 pc.1) pc.1
            (st.cmi.getD pc.1 [])) (uNsOf pc.2) pc.2.u_init_eval).length
        rw [uFill_length]
        exact hUfresh pc hpc
    · congr 1
      apply List.map_congr_left
      intro q hq
      rw [(hpool q hq).1, (hpool q hq).2.2.2]

/-- A one-phase non-collocation configuration: one state `q`, one control
`tau`, two shooting intervals. -/
def wA1 : NlpConf :=
  { nlpDefault with
    ns := 1
    states_el := [("q", 1)]
    controls_el := [("tau", 1)] }

def wAst : ShootAcc :=
  (define_ocp_shooting_points [wA1]).toOption.getD accInit

def wAb : List BoundsM × List BoundsM :=
  (define_ocp_bounds [wA1] wAst).toOption.getD ([], [])

def wAi : List InitialGuessM × List InitialGuessM :=
  (define_ocp_initial_guess [wA1] wAst).toOption.getD ([], [])

/-- Witness: the concrete single-phase non-collocation problem `wA1`
satisfies every hypothesis of the amended alignment theorem, and the three
derived lengths coincide. -/
theorem vector_bounds_init_aligned_witness :
    (vectorOf [wA1] wAst []).length = (boundsOf [wA1] wAb.1 wAb.2 []).bmin.length ∧
    (vectorOf [wA1] wAst []).length = (boundsOf [wA1] wAb.1 wAb.2 []).bmax.length ∧
    (vectorOf [wA1] wAst []).length =
      (initOf [wA1] wAst wAi.1 wAi.2 []).init.length :=
  vector_bounds_init_aligned [wA1] wAst [] wAb.1 wAb.2 wAi.1 wAi.2
    (by decide) rfl rfl rfl (fun q hq => absurd hq (List.not_mem_nil q))

/-- A one-phase direct-collocation configuration (degree 1) with one state
and no controls. -/
def wCol : NlpConf :=
  { nlpDefault with
    ns := 1
    states_el := [("q", 1)]
    ode_solver := ⟨true, false, true, 1, 1, []⟩ }

def wColSt : ShootAcc :=
  (define_ocp_shooting_points [wCol]).toOption.getD accInit

def wColB : List BoundsM × List BoundsM :=
  (define_ocp_bounds [wCol] wColSt).toOption.getD ([], [])

/-- C1 counterexample to the unrestricted claim: under a direct-collocation
solver the flat `vector` reads `shape × (ns+1)` scalars from the phase
matrix (2 here) while the bounds column allocates
`nx × ns × (degree+1) + nx` rows (3 here), so the positional-alignment
invariant fails after the three declaration steps. -/
theorem vector_bounds_collocation_cex :
    ∃ st xb ub, define_ocp_shooting_points [wCol] = .ok st ∧
      define_ocp_bounds [wCol] st = .ok (xb, ub) ∧
      (vectorOf [wCol] st []).length = 2 ∧
      (boundsOf [wCol] xb ub []).bmin.length = 3 ∧
      (vectorOf [wCol] st []).length ≠ (boundsOf [wCol] xb ub []).bmin.length :=
  ⟨wColSt, wColB.1, wColB.2, rfl, rfl, by decide, by decide, by decide⟩

end Bioptim
